import Mathlib

set_option autoImplicit false

/-!
Verification of the PostgreSQL→DBML converter core pipeline.

The definitions below are shallow embeddings of the Python sources:
`src/preprocessor/sql_cleaner.py`, `src/parser/sql_parser.py`,
`src/transformer/type_mapper.py`, `src/transformer/constraint_handler.py`,
`src/generator/relationship_builder.py`.  Python dictionaries become Lean
structures (a key that may be absent or `None` becomes an `Option` field),
Python lists become `List`, and the regex substitutions used by the code are
embedded as dedicated character-list scanners mirroring the exact pattern
semantics.  The in-place mutation of accumulator attributes
(`self.dropped_constraints` and friends) is threaded as explicit state.
-/

namespace PgDbml

/-! ## Basic character and string helpers (Python semantics) -/

/-- The single-quote character (ASCII 39). -/
def sqc : Char := Char.ofNat 39

/-- A string holding one single quote. -/
def sq : String := String.mk [sqc]

/-- Python `\s` for ASCII: space, tab, newline, carriage return,
vertical tab, form feed. -/
def isPySpace (c : Char) : Bool :=
  c = ' ' || c = '\t' || c = '\n' || c = '\r' || c = Char.ofNat 11 || c = Char.ofNat 12

/-- ASCII digit. -/
def isDigitB (c : Char) : Bool := '0' ≤ c && c ≤ '9'

/-- ASCII letter. -/
def isAlphaB (c : Char) : Bool := ('a' ≤ c && c ≤ 'z') || ('A' ≤ c && c ≤ 'Z')

/-- Python `\w` for ASCII: letters, digits, underscore. -/
def isWordB (c : Char) : Bool := isAlphaB c || isDigitB c || c = '_'

/-- ASCII uppercase conversion of one character. -/
def upChar (c : Char) : Char :=
  if 'a' ≤ c ∧ c ≤ 'z' then Char.ofNat (c.toNat - 32) else c

/-- ASCII lowercase conversion of one character. -/
def lowChar (c : Char) : Char :=
  if 'A' ≤ c ∧ c ≤ 'Z' then Char.ofNat (c.toNat + 32) else c

/-- Python `str.upper()` (ASCII fragment). -/
def strUpper (s : String) : String := String.mk (s.data.map upChar)

/-- Python `str.lower()` (ASCII fragment). -/
def strLower (s : String) : String := String.mk (s.data.map lowChar)

/-- Does the character list `s` start with `p`? -/
def startsWithL : List Char → List Char → Bool
  | _, [] => true
  | [], _ :: _ => false
  | c :: s, p :: ps => c = p && startsWithL s ps

/-- Case-insensitive `startsWithL` (pattern given in the spelling used by
the Python source). -/
def startsWithCI : List Char → List Char → Bool
  | _, [] => true
  | [], _ :: _ => false
  | c :: s, p :: ps => upChar c = upChar p && startsWithCI s ps

/-- Substring containment on character lists (Python `in`). -/
def containsSubL (s pat : List Char) : Bool :=
  match s with
  | [] => startsWithL [] pat
  | _ :: t => startsWithL s pat || containsSubL t pat

/-- Substring containment on strings (Python `in`). -/
def containsSub (s pat : String) : Bool := containsSubL s.data pat.data

/-- Does the character list `s` end with `p`? -/
def endsWithL (s p : List Char) : Bool := startsWithL s.reverse p.reverse

/-- Python `str.strip()`: remove leading and trailing whitespace. -/
def pyStrip (s : String) : String :=
  String.mk (((s.data.dropWhile isPySpace).reverse.dropWhile isPySpace).reverse)

/-- Python `str.strip(c)` for a one-character strip set. -/
def pyStripChar (s : String) (c : Char) : String :=
  String.mk (((s.data.dropWhile (· = c)).reverse.dropWhile (· = c)).reverse)

/-- Python `str.startswith` on strings. -/
def pyStartsWith (s pat : String) : Bool := startsWithL s.data pat.data

/-- Python truthiness-based `a or b` for optional strings
(`None` and `""` are falsy). -/
def pyOrOpt : Option String → Option String → Option String
  | some s, b => if s = "" then b else some s
  | none, b => b

/-- Render an optional string the way a Python f-string renders the
underlying value (`None` prints as `None`). -/
def pyShowOpt : Option String → String
  | some s => s
  | none => "None"

/-- Python `str[:n]` (truncation). -/
def pyTake (s : String) (n : Nat) : String := String.mk (s.data.take n)

theorem startsWithL_length {s p : List Char} (h : startsWithL s p = true) :
    p.length ≤ s.length := by
  induction p generalizing s with
  | nil => simp
  | cons a ps ih =>
    cases s with
    | nil => simp [startsWithL] at h
    | cons c cs =>
      simp only [startsWithL, Bool.and_eq_true] at h
      simpa using Nat.succ_le_succ (ih h.2)

theorem startsWithCI_length {s p : List Char} (h : startsWithCI s p = true) :
    p.length ≤ s.length := by
  induction p generalizing s with
  | nil => simp
  | cons a ps ih =>
    cases s with
    | nil => simp [startsWithCI] at h
    | cons c cs =>
      simp only [startsWithCI, Bool.and_eq_true] at h
      simpa using Nat.succ_le_succ (ih h.2)

theorem length_takeWhile_le (p : Char → Bool) (l : List Char) :
    (l.takeWhile p).length ≤ l.length := by
  induction l with
  | nil => simp
  | cons c cs ih =>
    by_cases h : p c
    · simpa [List.takeWhile, h] using Nat.succ_le_succ ih
    · simp [List.takeWhile, h]

theorem length_dropWhile_le (p : Char → Bool) (l : List Char) :
    (l.dropWhile p).length ≤ l.length := by
  induction l with
  | nil => simp
  | cons c cs ih =>
    by_cases h : p c
    · simp only [List.dropWhile, h]
      exact Nat.le_succ_of_le ih
    · simp [List.dropWhile, h]

/-- Python `str.replace(pat, repl)` on character lists (`pat` nonempty;
an empty pattern leaves the input unchanged, a case the embedded code never
exercises). -/
def replaceAllGo (pat repl : List Char) : Nat → List Char → List Char
  | _, [] => []
  | 0, l => l
  | fuel + 1, c :: cs =>
    if pat ≠ [] ∧ startsWithL (c :: cs) pat then
      -- the match consumes `pat.length` characters of `c :: cs`
      repl ++ replaceAllGo pat repl fuel (cs.drop (pat.length - 1))
    else
      c :: replaceAllGo pat repl fuel cs

/-- Python `str.replace(pat, repl)` on character lists.  The fuel argument
only bounds the recursion; `s.length` steps always suffice because every
step consumes at least one input character. -/
def replaceAllL (pat repl s : List Char) : List Char :=
  replaceAllGo pat repl s.length s

/-- Python `str.replace` on strings. -/
def replaceAll (s pat repl : String) : String :=
  String.mk (replaceAllL pat.data repl.data s.data)

theorem startsWithL_iff_append {s p : List Char} :
    startsWithL s p = true ↔ ∃ r, s = p ++ r := by
  induction p generalizing s with
  | nil => simp [startsWithL]
  | cons a ps ih =>
    cases s with
    | nil =>
      simp only [startsWithL, List.cons_append]
      constructor
      · intro h; exact absurd h (by simp)
      · rintro ⟨r, h⟩; exact absurd h (by simp)
    | cons c cs =>
      simp only [startsWithL, Bool.and_eq_true, beq_iff_eq, decide_eq_true_eq]
      rw [ih]
      constructor
      · rintro ⟨rfl, r, rfl⟩; exact ⟨r, rfl⟩
      · rintro ⟨r, h⟩
        injection h with h1 h2
        exact ⟨h1, r, h2⟩

theorem containsSubL_iff_append {s p : List Char} :
    containsSubL s p = true ↔ ∃ a b, s = a ++ p ++ b := by
  induction s with
  | nil =>
    simp only [containsSubL]
    rw [startsWithL_iff_append]
    constructor
    · rintro ⟨r, h⟩; exact ⟨[], r, by simpa using h⟩
    · rintro ⟨a, b, h⟩
      refine ⟨b, ?_⟩
      have ha : a = [] := by
        cases a with
        | nil => rfl
        | cons x xs => simp at h
      subst ha
      simpa using h
  | cons c cs ih =>
    simp only [containsSubL, Bool.or_eq_true]
    rw [startsWithL_iff_append, ih]
    constructor
    · rintro (⟨r, h⟩ | ⟨a, b, h⟩)
      · exact ⟨[], r, by simpa using h⟩
      · exact ⟨c :: a, b, by simp [h]⟩
    · rintro ⟨a, b, h⟩
      cases a with
      | nil => exact Or.inl ⟨b, by simpa using h⟩
      | cons x xs =>
        injection h with h1 h2
        exact Or.inr ⟨xs, b, h2⟩

/-- Where a two-character occurrence sits inside a concatenation: entirely in
the left part, entirely in the right part, or straddling the boundary. -/
theorem pair_occurrence_split {L1 L2 a b : List Char} {x y : Char}
    (h : L1 ++ L2 = a ++ x :: y :: b) :
    (∃ u v, L1 = u ++ x :: y :: v) ∨
    (∃ u, L1 = u ++ [x] ∧ ∃ v, L2 = y :: v) ∨
    (∃ u v, L2 = u ++ x :: y :: v) := by
  induction L1 generalizing a with
  | nil =>
    right; right
    exact ⟨a, b, by simpa using h⟩
  | cons c L1 ih =>
    cases a with
    | nil =>
      simp only [List.nil_append, List.cons_append] at h
      injection h with h1 h2
      cases L1 with
      | nil =>
        right; left
        refine ⟨[], by simp [h1], ?_⟩
        cases L2 with
        | nil => simp at h2
        | cons z L2 =>
          injection h2 with h3 h4
          exact ⟨L2, by simp [h3]⟩
      | cons d L1 =>
        injection h2 with h3 h4
        left
        exact ⟨[], L1, by simp [h1, h3]⟩
    | cons a0 a' =>
      simp only [List.cons_append] at h
      injection h with h1 h2
      rcases ih h2 with ⟨u, v, hu⟩ | ⟨u, hu, v, hv⟩ | hr
      · left; exact ⟨c :: u, v, by simp [hu]⟩
      · right; left; exact ⟨c :: u, by simp [hu], v, hv⟩
      · right; right; exact hr

theorem mem_left_of_pair {s : List Char} {x y : Char}
    (h : containsSubL s [x, y] = true) : x ∈ s := by
  obtain ⟨a, b, hs⟩ := containsSubL_iff_append.mp h
  subst hs
  simp

theorem not_contains_pair_of_not_mem {s : List Char} {x y : Char} (h : x ∉ s) :
    containsSubL s [x, y] = false := by
  by_contra hc
  rw [Bool.not_eq_false] at hc
  exact h (mem_left_of_pair hc)

/-- An occurrence inside an infix segment lifts to the whole list. -/
theorem containsSubL_of_infix {pre mid post pat : List Char}
    (h : containsSubL mid pat = true) :
    containsSubL (pre ++ mid ++ post) pat = true := by
  obtain ⟨a, b, hm⟩ := containsSubL_iff_append.mp h
  apply containsSubL_iff_append.mpr
  exact ⟨pre ++ a, b ++ post, by simp [hm]⟩

theorem takeWhile_plus_drop (p : Char → Bool) (l : List Char) :
    l.takeWhile p ++ l.drop (l.takeWhile p).length = l := by
  induction l with
  | nil => rfl
  | cons c cs ih =>
    by_cases h : p c
    · simp only [List.takeWhile_cons, h, if_true, List.length_cons,
        List.drop_succ_cons, List.cons_append]
      rw [ih]
    · simp [List.takeWhile_cons, h]

theorem takeWhile_append_all {p : Char → Bool} {l1 : List Char}
    (l2 : List Char) (h : ∀ c ∈ l1, p c = true) :
    (l1 ++ l2).takeWhile p = l1 ++ l2.takeWhile p := by
  induction l1 with
  | nil => simp
  | cons c cs ih =>
    simp only [List.cons_append, List.takeWhile_cons,
      h c (List.mem_cons_self c cs), if_true]
    rw [ih (fun x hx => h x (List.mem_cons_of_mem _ hx))]

theorem takeWhile_of_head_false {p : Char → Bool} {c : Char} (l : List Char)
    (h : p c = false) : (c :: l).takeWhile p = [] := by
  simp [List.takeWhile_cons, h]

theorem dropWhile_eq_self_of_all {p : Char → Bool} {l : List Char}
    (h : ∀ c ∈ l, p c = false) : l.dropWhile p = l := by
  cases l with
  | nil => rfl
  | cons c cs => simp [List.dropWhile_cons, h c (List.mem_cons_self c cs)]

theorem mem_takeWhile_pred {p : Char → Bool} {l : List Char} {x : Char}
    (h : x ∈ l.takeWhile p) : p x = true := by
  induction l with
  | nil => simp at h
  | cons c cs ih =>
    by_cases hc : p c
    · rw [List.takeWhile_cons, if_pos hc] at h
      rcases List.mem_cons.mp h with h | h
      · exact h ▸ hc
      · exact ih h
    · rw [List.takeWhile_cons, if_neg hc] at h
      simp at h

/-! ### Primitive consumers used by the regex scanners

Each consumer takes the remaining input and returns the input after the
consumed fragment (`none` when the fragment does not match).  The length
lemmas below drive the termination proofs of the substitution scanners. -/

/-- Consume the literal `pat`, case-insensitively. -/
def eatCI (pat : List Char) (cs : List Char) : Option (List Char) :=
  if startsWithCI cs pat then some (cs.drop pat.length) else none

/-- Consume the literal `pat`, case-sensitively. -/
def eatL (pat : List Char) (cs : List Char) : Option (List Char) :=
  if startsWithL cs pat then some (cs.drop pat.length) else none

/-- Consume `\s+`. -/
def eatWS1 (cs : List Char) : Option (List Char) :=
  let ws := cs.takeWhile isPySpace
  if ws.isEmpty then none else some (cs.drop ws.length)

theorem eatCI_le {pat cs r : List Char} (h : eatCI pat cs = some r) :
    r.length ≤ cs.length := by
  unfold eatCI at h
  by_cases hs : startsWithCI cs pat
  · simp only [hs, if_true, Option.some.injEq] at h
    subst h; simp
  · simp [hs] at h

theorem eatCI_lt {pat cs r : List Char} (hpat : pat ≠ []) (h : eatCI pat cs = some r) :
    r.length < cs.length := by
  unfold eatCI at h
  by_cases hs : startsWithCI cs pat
  · simp only [hs, if_true, Option.some.injEq] at h
    subst h
    have h1 : pat.length ≤ cs.length := startsWithCI_length hs
    have h2 : 1 ≤ pat.length := by
      cases pat with
      | nil => exact absurd rfl hpat
      | cons a l => simp
    simp only [List.length_drop]
    omega
  · simp [hs] at h

theorem eatL_le {pat cs r : List Char} (h : eatL pat cs = some r) :
    r.length ≤ cs.length := by
  unfold eatL at h
  by_cases hs : startsWithL cs pat
  · simp only [hs, if_true, Option.some.injEq] at h
    subst h; simp
  · simp [hs] at h

theorem eatL_lt {pat cs r : List Char} (hpat : pat ≠ []) (h : eatL pat cs = some r) :
    r.length < cs.length := by
  unfold eatL at h
  by_cases hs : startsWithL cs pat
  · simp only [hs, if_true, Option.some.injEq] at h
    subst h
    have h1 : pat.length ≤ cs.length := startsWithL_length hs
    have h2 : 1 ≤ pat.length := by
      cases pat with
      | nil => exact absurd rfl hpat
      | cons a l => simp
    simp only [List.length_drop]
    omega
  · simp [hs] at h

theorem eatWS1_lt {cs r : List Char} (h : eatWS1 cs = some r) :
    r.length < cs.length := by
  unfold eatWS1 at h
  by_cases hw : (cs.takeWhile isPySpace).isEmpty
  · simp [hw] at h
  · simp only [hw, if_false, Bool.false_eq_true, Option.some.injEq] at h
    subst h
    have h1 : 1 ≤ (cs.takeWhile isPySpace).length := by
      cases hcs : cs.takeWhile isPySpace with
      | nil => rw [hcs] at hw; simp at hw
      | cons a l => simp [hcs]
    have h2 : (cs.takeWhile isPySpace).length ≤ cs.length := length_takeWhile_le _ _
    simp only [List.length_drop]
    omega

/-! ## The schema data model

Mirrors the dictionaries produced by `SQLParser` and consumed by the
transformer/generator stages.  Keys that the code reads with `.get` and
that may be missing or `None` are `Option` fields. -/

structure Column where
  column_name : String
  data_type : String
  is_nullable : Bool := true
  default_value : Option String := none
  constraints : List String := []
  original_definition : String := ""
  is_primary_key : Bool := false
  is_unique : Bool := false
  original_type : Option String := none
deriving Repr, DecidableEq

structure Constraint where
  constraint_name : Option String := none
  constraint_type : String
  table_name : Option String := none
  columns : List String := []
  definition : String := ""
  check_expression : Option String := none
  referenced_table : Option String := none
  referenced_columns : List String := []
  on_delete_action : Option String := none
  on_update_action : Option String := none
  source_table : Option String := none
deriving Repr, DecidableEq

structure Table where
  table_name : String
  columns : List Column := []
  constraints : List Constraint := []
  original_statement : String := ""
deriving Repr, DecidableEq

structure Relationship where
  source_table : String
  source_columns : List String
  target_table : String
  target_columns : List String
  relationship_type : String := "many-to-one"
  on_delete_action : Option String := none
  on_update_action : Option String := none
  constraint_name : Option String := none
deriving Repr, DecidableEq

structure EnumDef where
  enum_name : String
  values : List String := []
  definition : String := ""
deriving Repr, DecidableEq

structure IndexDef where
  index_name : String
  table_name : String
  columns : List String := []
  is_unique : Bool := false
  index_method : String := "btree"
  definition : String := ""
deriving Repr, DecidableEq

structure SequenceDef where
  sequence_name : String
  definition : String := ""
deriving Repr, DecidableEq

structure ParseError where
  error : String
  statement : Option String := none
  context : String
deriving Repr, DecidableEq

/-- A record in `ConstraintHandler.dropped_constraints`. -/
structure DropRecord where
  constraint_name : Option String
  table_name : String
  constraint_type : String
  reason : String
  metadata : List (String × String) := []
  action : String := "DROPPED"
deriving Repr, DecidableEq

/-- A record in `ConstraintHandler.modified_constraints`. -/
structure ModRecord where
  constraint_name : Option String
  table_name : String
  modification_type : String
  description : String
  action : String := "MODIFIED"
deriving Repr, DecidableEq

/-- A warning entry such as `{'type': 'CONSTRAINT_WARNING', 'message': m}`. -/
structure WarningMsg where
  type : String := "CONSTRAINT_WARNING"
  message : String
deriving Repr, DecidableEq

/-- A record in `TypeMapper.transformations_applied`. -/
structure TransformRecord where
  table : String
  column : String
  original_type : String
  transformed_type : String
  transformation_reason : String
deriving Repr, DecidableEq

structure Schema where
  tables : List Table := []
  relationships : List Relationship := []
  constraints : List Constraint := []
  indexes : List IndexDef := []
  sequences : List SequenceDef := []
  enums : List EnumDef := []
  parsing_errors : List ParseError := []
  dropped_constraints : List DropRecord := []
  modified_constraints : List ModRecord := []
  constraint_warnings : List WarningMsg := []
  type_transformations : List TransformRecord := []
  type_warnings : List String := []
deriving Repr, DecidableEq

/-! ## ConstraintHandler (src/transformer/constraint_handler.py) -/

namespace ConstraintHandler

/-- The mutable accumulators of a fresh `ConstraintHandler` instance. -/
structure CHState where
  dropped_constraints : List DropRecord := []
  modified_constraints : List ModRecord := []
  warnings_generated : List WarningMsg := []
deriving Repr, DecidableEq

/-- `_generate_warning`. -/
def generateWarning (st : CHState) (msg : String) : CHState :=
  { st with warnings_generated :=
      st.warnings_generated ++ [{ type := "CONSTRAINT_WARNING", message := msg }] }

/-- `_log_constraint_drop`. -/
def logConstraintDrop (st : CHState) (cname : Option String) (tname ctype reason : String)
    (metadata : List (String × String)) : CHState :=
  let st1 : CHState :=
    { st with dropped_constraints := st.dropped_constraints ++
        [{ constraint_name := cname, table_name := tname, constraint_type := ctype,
           reason := reason, metadata := metadata, action := "DROPPED" }] }
  generateWarning st1
    ("Dropped " ++ ctype ++ " constraint " ++ sq ++ pyShowOpt cname ++ sq ++
     " on table " ++ sq ++ tname ++ sq ++ ": " ++ reason)

/-- `_log_constraint_modification`. -/
def logConstraintModification (st : CHState) (cname : Option String)
    (tname mtype descr : String) : CHState :=
  let st1 : CHState :=
    { st with modified_constraints := st.modified_constraints ++
        [{ constraint_name := cname, table_name := tname, modification_type := mtype,
           description := descr, action := "MODIFIED" }] }
  generateWarning st1
    ("Modified constraint " ++ sq ++ pyShowOpt cname ++ sq ++ " on table " ++ sq ++
     tname ++ sq ++ ": " ++ descr)

/-- Match, at the start of `cs`, the regex
`\s+DEFERRABLE(\s+INITIALLY\s+(DEFERRED|IMMEDIATE))?\s*` (case-insensitive);
return the rest of the input after the match. -/
def matchDeferrable (cs : List Char) : Option (List Char) :=
  match eatWS1 cs with
  | none => none
  | some r1 =>
    match eatCI "DEFERRABLE".data r1 with
    | none => none
    | some r2 =>
      let r3 :=
        match eatWS1 r2 with
        | none => r2
        | some r4 =>
          match eatCI "INITIALLY".data r4 with
          | none => r2
          | some r5 =>
            match eatWS1 r5 with
            | none => r2
            | some r6 =>
              match eatCI "DEFERRED".data r6 with
              | some r7 => r7
              | none =>
                match eatCI "IMMEDIATE".data r6 with
                | some r7 => r7
                | none => r2
      some (r3.dropWhile isPySpace)

theorem matchDeferrable_lt {cs rest : List Char}
    (h : matchDeferrable cs = some rest) : rest.length < cs.length := by
  unfold matchDeferrable at h
  cases h1 : eatWS1 cs with
  | none => rw [h1] at h; simp at h
  | some r1 =>
    rw [h1] at h
    dsimp only at h
    cases h2 : eatCI "DEFERRABLE".data r1 with
    | none => rw [h2] at h; simp at h
    | some r2 =>
      rw [h2] at h
      simp only [Option.some.injEq] at h
      have hr1 : r1.length < cs.length := eatWS1_lt h1
      have hr2 : r2.length < r1.length := eatCI_lt (by decide) h2
      -- every branch of the optional group yields a list no longer than `r2`
      have hbranch : ∀ r3 : List Char,
          r3.length ≤ r2.length → (r3.dropWhile isPySpace).length < cs.length := by
        intro r3 h4
        calc (r3.dropWhile isPySpace).length ≤ r3.length := length_dropWhile_le _ _
          _ ≤ r2.length := h4
          _ < cs.length := by omega
      subst h
      apply hbranch
      cases h5 : eatWS1 r2 with
      | none => exact le_refl _
      | some r4 =>
        dsimp only
        cases h6 : eatCI "INITIALLY".data r4 with
        | none => exact le_refl _
        | some r5 =>
          dsimp only
          cases h7 : eatWS1 r5 with
          | none => exact le_refl _
          | some r6 =>
            dsimp only
            have hr4 : r4.length < r2.length := eatWS1_lt h5
            have hr5 : r5.length < r4.length := eatCI_lt (by decide) h6
            have hr6 : r6.length < r5.length := eatWS1_lt h7
            cases h8 : eatCI "DEFERRED".data r6 with
            | some r7 =>
              have := eatCI_lt (by decide) h8
              dsimp only
              omega
            | none =>
              dsimp only
              cases h9 : eatCI "IMMEDIATE".data r6 with
              | some r7 =>
                have := eatCI_lt (by decide) h9
                dsimp only
                omega
              | none => exact le_refl _

def subDeferrableGo : Nat → List Char → List Char
  | _, [] => []
  | 0, l => l
  | fuel + 1, c :: cs =>
    match matchDeferrable (c :: cs) with
    | some rest => ' ' :: subDeferrableGo fuel rest
    | none => c :: subDeferrableGo fuel cs

/-- The scanner of `_remove_deferrable_from_definition`:
`re.sub(r'\s+DEFERRABLE(\s+INITIALLY\s+(DEFERRED|IMMEDIATE))?\s*', ' ', d, re.I)`.
A fuel of `l.length` always suffices (`matchDeferrable_lt`). -/
def subDeferrable (l : List Char) : List Char :=
  subDeferrableGo l.length l

/-- `_remove_deferrable_from_definition`. -/
def removeDeferrableFromDefinition (d : String) : String :=
  pyStrip (String.mk (subDeferrable d.data))

/-- `_process_foreign_key_constraint`. -/
def processForeignKeyConstraint (c : Constraint) (table_name : String)
    (st : CHState) : Constraint × CHState :=
  let definition := c.definition
  let constraint_name := c.constraint_name
  let c1 :=
    if containsSub (strUpper definition) "DEFERRABLE" then
      { c with definition := removeDeferrableFromDefinition definition }
    else c
  let st1 :=
    if containsSub (strUpper definition) "DEFERRABLE" then
      logConstraintModification st constraint_name table_name
        "FOREIGN_KEY_DEFERRABLE" "Removed DEFERRABLE option - not supported in DBML"
    else st
  let st2 :=
    if c1.columns.length > 1 then
      generateWarning st1
        ("Composite foreign key " ++ sq ++ pyShowOpt constraint_name ++ sq ++
         " on table " ++ sq ++ table_name ++ sq ++
         " - verify import compatibility (known parser issues exist)")
    else st1
  (c1, st2)

/-- `_drop_check_constraint`: always drops, logging one record with
`constraint_type = 'CHECK'`. -/
def dropCheckConstraint (c : Constraint) (table_name : String)
    (st : CHState) : CHState :=
  let check_expression :=
    match c.check_expression with
    | some e => e
    | none => c.definition
  logConstraintDrop st c.constraint_name table_name "CHECK"
    "CHECK constraints not supported in DBML (parser errors)"
    [("check_expression", check_expression),
     ("impact", "Business logic validation lost"),
     ("workaround", "Implement validation in application layer"),
     ("reference", "Incompatibility Analysis Line 38")]

/-- `_drop_unknown_constraint`: drops with a best-effort reclassification. -/
def dropUnknownConstraint (c : Constraint) (table_name : String)
    (st : CHState) : CHState :=
  let definition := c.definition
  let (ctype, reason, impact) :=
    if pyStartsWith (strUpper definition) "EXCLUDE" then
      ("EXCLUDE", "EXCLUDE constraints not supported in DBML",
       "Spatial/range exclusion logic completely lost")
    else
      ("UNKNOWN", "Unknown constraint type not supported in DBML",
       "Constraint logic lost")
  logConstraintDrop st c.constraint_name table_name ctype reason
    [("definition", definition),
     ("impact", impact),
     ("workaround", "Implement logic in application layer")]

/-- `_process_single_constraint`: `p`/`u` kept, `f` processed, `c` and
anything unrecognized dropped. -/
def processSingleConstraint (c : Constraint) (table_name : String)
    (st : CHState) : Option Constraint × CHState :=
  if c.constraint_type = "p" then (some c, st)
  else if c.constraint_type = "u" then (some c, st)
  else if c.constraint_type = "f" then
    let r := processForeignKeyConstraint c table_name st
    (some r.1, r.2)
  else if c.constraint_type = "c" then
    (none, dropCheckConstraint c table_name st)
  else
    (none, dropUnknownConstraint c table_name st)

/-- `_process_table_constraints` (the per-table loop, appending kept
constraints in order). -/
def processTableConstraints : List Constraint → String → CHState →
    List Constraint × CHState
  | [], _, st => ([], st)
  | c :: cs, tn, st =>
    let (r, st1) := processSingleConstraint c tn st
    let (rest, st2) := processTableConstraints cs tn st1
    (match r with
     | some c' => c' :: rest
     | none => rest, st2)

/-- `_process_standalone_constraints`. -/
def processStandaloneConstraints : List Constraint → CHState →
    List Constraint × CHState
  | [], st => ([], st)
  | c :: cs, st =>
    let tn :=
      match c.table_name with
      | some s => s
      | none => "unknown"
    let (r, st1) := processSingleConstraint c tn st
    let (rest, st2) := processStandaloneConstraints cs st1
    (match r with
     | some c' => c' :: rest
     | none => rest, st2)

/-- `_mark_columns_as_primary_key` (over every table whose name equals the
resolved target). -/
def markColumnsAsPrimaryKey (tables : List Table) (target : Option String)
    (column_names : List String) : List Table :=
  tables.map fun t =>
    if some t.table_name = target then
      { t with columns := t.columns.map fun col =>
          if column_names.contains col.column_name then
            { col with is_primary_key := true, is_nullable := false,
                       is_unique := if column_names.length = 1 then true else col.is_unique }
          else col }
    else t

/-- `_mark_columns_as_unique` (only single-column unique constraints mark a
column). -/
def markColumnsAsUnique (tables : List Table) (target : Option String)
    (column_names : List String) : List Table :=
  tables.map fun t =>
    if some t.table_name = target then
      { t with columns := t.columns.map fun col =>
          if column_names.contains col.column_name ∧ column_names.length = 1 then
            { col with is_unique := true }
          else col }
    else t

/-- One iteration of the apply loop in `_apply_constraints_to_columns`. -/
def applyOneConstraint (tables : List Table) (c : Constraint) : List Table :=
  let target := pyOrOpt c.table_name c.source_table
  if c.constraint_type = "p" ∧ c.columns ≠ [] then
    markColumnsAsPrimaryKey tables target c.columns
  else if c.constraint_type = "u" ∧ c.columns ≠ [] then
    markColumnsAsUnique tables target c.columns
  else tables

/-- The `constraint['source_table'] = table['table_name']` assignment done
while collecting table-level constraints. -/
def setSourceOnTable (t : Table) : Table :=
  { t with constraints := t.constraints.map fun c =>
      { c with source_table := some t.table_name } }

/-- `_apply_constraints_to_columns`: collect table-level constraints
(setting `source_table` on each, which is visible in the output schema
because the dictionaries are shared) plus standalone constraints, then mark
columns. -/
def applyConstraintsToColumns (tables : List Table)
    (standalone : List Constraint) : List Table :=
  let tables1 := tables.map setSourceOnTable
  let all := tables1.flatMap (·.constraints) ++ standalone
  all.foldl applyOneConstraint tables1

/-- The per-table processing loop in `process_constraints`. -/
def processAllTables : List Table → CHState → List Table × CHState
  | [], st => ([], st)
  | t :: ts, st =>
    let (cs, st1) := processTableConstraints t.constraints t.table_name st
    let (rest, st2) := processAllTables ts st1
    ({ t with constraints := cs } :: rest, st2)

/-- `ConstraintHandler().process_constraints(schema)` with a freshly
constructed handler. -/
def processConstraints (schema : Schema) : Schema :=
  let st0 : CHState := {}
  let (tables1, st1) := processAllTables schema.tables st0
  let (standalone1, st2) := processStandaloneConstraints schema.constraints st1
  let tables2 := applyConstraintsToColumns tables1 standalone1
  { schema with
    tables := tables2,
    constraints := standalone1,
    dropped_constraints := st2.dropped_constraints,
    modified_constraints := st2.modified_constraints,
    constraint_warnings := st2.warnings_generated }

/-! ### Lemmas about the constraint handler -/

/-- Number of drop records classified as `CHECK`. -/
def countCheckDrops (l : List DropRecord) : Nat :=
  (l.filter (fun d => d.constraint_type = "CHECK")).length

/-- Number of constraints of type `c`. -/
def countC (cs : List Constraint) : Nat :=
  (cs.filter (fun c => c.constraint_type = "c")).length

theorem countCheckDrops_append (l1 l2 : List DropRecord) :
    countCheckDrops (l1 ++ l2) = countCheckDrops l1 + countCheckDrops l2 := by
  simp [countCheckDrops, List.filter_append]

theorem countC_cons (c : Constraint) (cs : List Constraint) :
    countC (c :: cs) = (if c.constraint_type = "c" then 1 else 0) + countC cs := by
  by_cases h : c.constraint_type = "c" <;>
    simp [countC, List.filter_cons, h, Nat.add_comm]

theorem countC_append (l1 l2 : List Constraint) :
    countC (l1 ++ l2) = countC l1 + countC l2 := by
  simp [countC, List.filter_append]

theorem pfk_fst_type (c : Constraint) (tn : String) (st : CHState) :
    (processForeignKeyConstraint c tn st).1.constraint_type = c.constraint_type := by
  unfold processForeignKeyConstraint
  dsimp only
  split_ifs <;> rfl

theorem pfk_dropped (c : Constraint) (tn : String) (st : CHState) :
    (processForeignKeyConstraint c tn st).2.dropped_constraints =
      st.dropped_constraints := by
  unfold processForeignKeyConstraint logConstraintModification generateWarning
  dsimp only
  split_ifs <;> rfl

theorem psc_some_type {c c' : Constraint} {tn : String} {st st' : CHState}
    (h : processSingleConstraint c tn st = (some c', st')) :
    c'.constraint_type = "p" ∨ c'.constraint_type = "u" ∨ c'.constraint_type = "f" := by
  unfold processSingleConstraint at h
  split_ifs at h with h1 h2 h3 h4
  · obtain ⟨hl, -⟩ := Prod.mk.injEq .. ▸ h
    obtain rfl := Option.some.inj hl
    exact Or.inl h1
  · obtain ⟨hl, -⟩ := Prod.mk.injEq .. ▸ h
    obtain rfl := Option.some.inj hl
    exact Or.inr (Or.inl h2)
  · obtain ⟨hl, -⟩ := Prod.mk.injEq .. ▸ h
    obtain rfl := Option.some.inj hl
    exact Or.inr (Or.inr ((pfk_fst_type c tn st).trans h3))
  · simp at h
  · simp at h

theorem logConstraintDrop_dropped (st : CHState) (cname : Option String)
    (tname ctype reason : String) (md : List (String × String)) :
    (logConstraintDrop st cname tname ctype reason md).dropped_constraints =
      st.dropped_constraints ++
        [{ constraint_name := cname, table_name := tname, constraint_type := ctype,
           reason := reason, metadata := md, action := "DROPPED" }] := by
  rfl

theorem psc_check_count (c : Constraint) (tn : String) (st : CHState) :
    countCheckDrops (processSingleConstraint c tn st).2.dropped_constraints =
      countCheckDrops st.dropped_constraints +
        (if c.constraint_type = "c" then 1 else 0) := by
  unfold processSingleConstraint
  by_cases h1 : c.constraint_type = "p"
  · have hne : ¬c.constraint_type = "c" := by rw [h1]; decide
    rw [if_pos h1, if_neg hne]
    simp
  · rw [if_neg h1]
    by_cases h2 : c.constraint_type = "u"
    · have hne : ¬c.constraint_type = "c" := by rw [h2]; decide
      rw [if_pos h2, if_neg hne]
      simp
    · rw [if_neg h2]
      by_cases h3 : c.constraint_type = "f"
      · have hne : ¬c.constraint_type = "c" := by rw [h3]; decide
        rw [if_pos h3, if_neg hne]
        dsimp only
        rw [pfk_dropped]
        simp
      · rw [if_neg h3]
        by_cases h4 : c.constraint_type = "c"
        · rw [if_pos h4, if_pos h4]
          unfold dropCheckConstraint
          rw [logConstraintDrop_dropped, countCheckDrops_append]
          simp [countCheckDrops, List.filter]
        · rw [if_neg h4, if_neg h4]
          unfold dropUnknownConstraint
          dsimp only
          split_ifs with h5 <;>
            (rw [logConstraintDrop_dropped, countCheckDrops_append]
             simp [countCheckDrops, List.filter])

theorem ptc_mem {cs : List Constraint} {tn : String} {st : CHState} {c' : Constraint}
    (h : c' ∈ (processTableConstraints cs tn st).1) :
    c'.constraint_type = "p" ∨ c'.constraint_type = "u" ∨ c'.constraint_type = "f" := by
  induction cs generalizing st with
  | nil => simp [processTableConstraints] at h
  | cons c cs ih =>
    unfold processTableConstraints at h
    dsimp only at h
    cases hr : processSingleConstraint c tn st with
    | mk r st1 =>
      rw [hr] at h
      dsimp only at h
      cases r with
      | some c2 =>
        dsimp only at h
        rcases List.mem_cons.mp h with h | h
        · subst h; exact psc_some_type hr
        · exact ih h
      | none => exact ih h

theorem ptc_check_count (cs : List Constraint) (tn : String) (st : CHState) :
    countCheckDrops (processTableConstraints cs tn st).2.dropped_constraints =
      countCheckDrops st.dropped_constraints + countC cs := by
  induction cs generalizing st with
  | nil => simp [processTableConstraints, countC]
  | cons c cs ih =>
    rw [countC_cons]
    have hsnd : (processTableConstraints (c :: cs) tn st).2 =
        (processTableConstraints cs tn (processSingleConstraint c tn st).2).2 := rfl
    rw [hsnd, ih _, psc_check_count]
    omega

theorem psl_mem {cs : List Constraint} {st : CHState} {c' : Constraint}
    (h : c' ∈ (processStandaloneConstraints cs st).1) :
    c'.constraint_type = "p" ∨ c'.constraint_type = "u" ∨ c'.constraint_type = "f" := by
  induction cs generalizing st with
  | nil => simp [processStandaloneConstraints] at h
  | cons c cs ih =>
    unfold processStandaloneConstraints at h
    dsimp only at h
    cases hr : processSingleConstraint c
        (match c.table_name with | some s => s | none => "unknown") st with
    | mk r st1 =>
      rw [hr] at h
      dsimp only at h
      cases r with
      | some c2 =>
        dsimp only at h
        rcases List.mem_cons.mp h with h | h
        · subst h; exact psc_some_type hr
        · exact ih h
      | none => exact ih h

theorem psl_check_count (cs : List Constraint) (st : CHState) :
    countCheckDrops (processStandaloneConstraints cs st).2.dropped_constraints =
      countCheckDrops st.dropped_constraints + countC cs := by
  induction cs generalizing st with
  | nil => simp [processStandaloneConstraints, countC]
  | cons c cs ih =>
    rw [countC_cons]
    have hsnd : (processStandaloneConstraints (c :: cs) st).2 =
        (processStandaloneConstraints cs (processSingleConstraint c
          (match c.table_name with | some s => s | none => "unknown") st).2).2 := rfl
    rw [hsnd, ih _, psc_check_count]
    omega

theorem pat_mem {ts : List Table} {st : CHState} {t' : Table} {c' : Constraint}
    (ht : t' ∈ (processAllTables ts st).1) (hc : c' ∈ t'.constraints) :
    c'.constraint_type = "p" ∨ c'.constraint_type = "u" ∨ c'.constraint_type = "f" := by
  induction ts generalizing st with
  | nil => simp [processAllTables] at ht
  | cons t ts ih =>
    unfold processAllTables at ht
    dsimp only at ht
    rcases List.mem_cons.mp ht with h | h
    · subst h
      exact ptc_mem hc
    · exact ih h

theorem pat_check_count (ts : List Table) (st : CHState) :
    countCheckDrops (processAllTables ts st).2.dropped_constraints =
      countCheckDrops st.dropped_constraints + countC (ts.flatMap (·.constraints)) := by
  induction ts generalizing st with
  | nil => simp [processAllTables, countC]
  | cons t ts ih =>
    have hsnd : (processAllTables (t :: ts) st).2 =
        (processAllTables ts (processTableConstraints t.constraints t.table_name st).2).2 := rfl
    rw [hsnd, ih _, ptc_check_count, List.flatMap_cons, countC_append]
    omega

/-! Shape and monotonicity of the column-marking pass. -/

/-- Table name and constraint list, preserved by column marking. -/
def tshape (t : Table) : String × List Constraint := (t.table_name, t.constraints)

theorem markPK_shape (ts : List Table) (target : Option String) (cols : List String) :
    (markColumnsAsPrimaryKey ts target cols).map tshape = ts.map tshape := by
  induction ts with
  | nil => rfl
  | cons t ts ih =>
    simp only [markColumnsAsPrimaryKey, List.map_cons] at ih ⊢
    rw [ih]
    congr 1
    split_ifs <;> rfl

theorem markU_shape (ts : List Table) (target : Option String) (cols : List String) :
    (markColumnsAsUnique ts target cols).map tshape = ts.map tshape := by
  induction ts with
  | nil => rfl
  | cons t ts ih =>
    simp only [markColumnsAsUnique, List.map_cons] at ih ⊢
    rw [ih]
    congr 1
    split_ifs <;> rfl

theorem applyOne_shape (ts : List Table) (c : Constraint) :
    (applyOneConstraint ts c).map tshape = ts.map tshape := by
  unfold applyOneConstraint
  split_ifs
  · exact markPK_shape ts _ _
  · exact markU_shape ts _ _
  · rfl

theorem applyFold_shape (l : List Constraint) (ts : List Table) :
    (l.foldl applyOneConstraint ts).map tshape = ts.map tshape := by
  induction l generalizing ts with
  | nil => rfl
  | cons c l ih =>
    simp only [List.foldl_cons]
    rw [ih, applyOne_shape]

/-- Monotone evolution of one column: the name never changes, and the marking
pass only switches `is_primary_key`/`is_unique` on and `is_nullable` off. -/
def ColMono (a b : Column) : Prop :=
  b.column_name = a.column_name ∧
  (a.is_primary_key = true → b.is_primary_key = true) ∧
  (a.is_nullable = false → b.is_nullable = false) ∧
  (a.is_unique = true → b.is_unique = true)

theorem colMono_refl (a : Column) : ColMono a a :=
  ⟨rfl, fun h => h, fun h => h, fun h => h⟩

theorem colMono_trans {a b c : Column} (h1 : ColMono a b) (h2 : ColMono b c) :
    ColMono a c :=
  ⟨h2.1.trans h1.1, fun h => h2.2.1 (h1.2.1 h), fun h => h2.2.2.1 (h1.2.2.1 h),
   fun h => h2.2.2.2 (h1.2.2.2 h)⟩

def TabMono (s t : Table) : Prop :=
  t.table_name = s.table_name ∧ t.constraints = s.constraints ∧
  List.Forall₂ ColMono s.columns t.columns

theorem tabMono_refl (t : Table) : TabMono t t :=
  ⟨rfl, rfl, List.forall₂_same.mpr (fun a _ => colMono_refl a)⟩

theorem forall₂_trans {α : Type} (R : α → α → Prop)
    (hR : ∀ (a b c : α), R a b → R b c → R a c) :
    ∀ {l1 l2 l3 : List α}, List.Forall₂ R l1 l2 → List.Forall₂ R l2 l3 →
      List.Forall₂ R l1 l3 := by
  intro l1 l2 l3 h1 h2
  induction h1 generalizing l3 with
  | nil => cases h2; exact List.Forall₂.nil
  | cons hab h ih =>
    cases h2 with
    | cons hbc h2 => exact List.Forall₂.cons (hR _ _ _ hab hbc) (ih h2)

theorem tabMono_trans {a b c : Table} (h1 : TabMono a b) (h2 : TabMono b c) :
    TabMono a c := by
  obtain ⟨h1a, h1b, h1c⟩ := h1
  obtain ⟨h2a, h2b, h2c⟩ := h2
  exact ⟨h2a.trans h1a, h2b.trans h1b,
    forall₂_trans ColMono (fun _ _ _ hab hbc => colMono_trans hab hbc) h1c h2c⟩

def TablesMono (l1 l2 : List Table) : Prop := List.Forall₂ TabMono l1 l2

theorem tablesMono_refl (l : List Table) : TablesMono l l :=
  List.forall₂_same.mpr (fun a _ => tabMono_refl a)

theorem tablesMono_trans {l1 l2 l3 : List Table}
    (h1 : TablesMono l1 l2) (h2 : TablesMono l2 l3) : TablesMono l1 l3 :=
  forall₂_trans TabMono (fun _ _ _ hab hbc => tabMono_trans hab hbc) h1 h2

theorem markPK_mono (ts : List Table) (target : Option String) (cols : List String) :
    TablesMono ts (markColumnsAsPrimaryKey ts target cols) := by
  unfold markColumnsAsPrimaryKey TablesMono
  rw [List.forall₂_map_right_iff]
  apply List.forall₂_same.mpr
  intro t _
  by_cases h : some t.table_name = target
  · rw [if_pos h]
    refine ⟨rfl, rfl, ?_⟩
    rw [List.forall₂_map_right_iff]
    apply List.forall₂_same.mpr
    intro col _
    by_cases hc : cols.contains col.column_name
    · rw [if_pos hc]
      refine ⟨rfl, fun _ => rfl, fun _ => rfl, fun h1 => ?_⟩
      by_cases hl : cols.length = 1
      · simp [hl]
      · simp [hl, h1]
    · rw [if_neg hc]
      exact colMono_refl col
  · rw [if_neg h]
    exact tabMono_refl t

theorem markU_mono (ts : List Table) (target : Option String) (cols : List String) :
    TablesMono ts (markColumnsAsUnique ts target cols) := by
  unfold markColumnsAsUnique TablesMono
  rw [List.forall₂_map_right_iff]
  apply List.forall₂_same.mpr
  intro t _
  by_cases h : some t.table_name = target
  · rw [if_pos h]
    refine ⟨rfl, rfl, ?_⟩
    rw [List.forall₂_map_right_iff]
    apply List.forall₂_same.mpr
    intro col _
    by_cases hc : cols.contains col.column_name ∧ cols.length = 1
    · rw [if_pos hc]
      exact ⟨rfl, fun h1 => h1, fun h1 => h1, fun _ => rfl⟩
    · rw [if_neg hc]
      exact colMono_refl col
  · rw [if_neg h]
    exact tabMono_refl t

theorem applyOne_mono (ts : List Table) (c : Constraint) :
    TablesMono ts (applyOneConstraint ts c) := by
  unfold applyOneConstraint
  split_ifs
  · exact markPK_mono ts _ _
  · exact markU_mono ts _ _
  · exact tablesMono_refl ts

theorem applyFold_mono (l : List Constraint) (ts : List Table) :
    TablesMono ts (l.foldl applyOneConstraint ts) := by
  induction l generalizing ts with
  | nil => exact tablesMono_refl ts
  | cons c l ih =>
    simp only [List.foldl_cons]
    exact tablesMono_trans (applyOne_mono ts c) (ih _)

theorem forall₂_mem_right {α : Type} {R : α → α → Prop} {l1 l2 : List α}
    (h : List.Forall₂ R l1 l2) {b : α} (hb : b ∈ l2) : ∃ a ∈ l1, R a b := by
  induction h with
  | nil => simp at hb
  | cons hr h ih =>
    rcases List.mem_cons.mp hb with h1 | h1
    · subst h1; exact ⟨_, List.mem_cons_self .., hr⟩
    · obtain ⟨a, ha, hab⟩ := ih h1
      exact ⟨a, List.mem_cons_of_mem _ ha, hab⟩

theorem contains_of_mem {x : String} {l : List String} (h : x ∈ l) :
    l.contains x = true := by
  induction l with
  | nil => simp at h
  | cons a l ih =>
    rcases List.mem_cons.mp h with h | h
    · subst h; simp [List.contains_cons]
    · simp only [List.contains_cons, ih h, Bool.or_true]

/-- After `_mark_columns_as_primary_key`, every matching column of a table
whose name equals the resolved target is flagged primary-key and
not-nullable. -/
theorem markPK_marks (ts : List Table) (target : Option String) (cols : List String)
    {t : Table} (ht : t ∈ markColumnsAsPrimaryKey ts target cols)
    (hname : some t.table_name = target) {col : Column} (hcol : col ∈ t.columns)
    (hmem : col.column_name ∈ cols) :
    col.is_primary_key = true ∧ col.is_nullable = false := by
  unfold markColumnsAsPrimaryKey at ht
  obtain ⟨t0, ht0, heq⟩ := List.mem_map.mp ht
  by_cases h : some t0.table_name = target
  · rw [if_pos h] at heq
    rw [← heq] at hcol
    obtain ⟨col0, hc0, hgeq⟩ := List.mem_map.mp hcol
    by_cases hcc : cols.contains col0.column_name
    · rw [if_pos hcc] at hgeq
      rw [← hgeq]
      exact ⟨rfl, rfl⟩
    · rw [if_neg hcc] at hgeq
      exact absurd (hgeq ▸ contains_of_mem hmem) hcc
  · rw [if_neg h] at heq
    exact absurd (heq ▸ hname) h

/-- After `_mark_columns_as_unique`, the sole column of a matching
single-column unique constraint is flagged unique. -/
theorem markU_marks (ts : List Table) (target : Option String) (cols : List String)
    {t : Table} (ht : t ∈ markColumnsAsUnique ts target cols)
    (hname : some t.table_name = target) {col : Column} (hcol : col ∈ t.columns)
    (hmem : col.column_name ∈ cols) (hlen : cols.length = 1) :
    col.is_unique = true := by
  unfold markColumnsAsUnique at ht
  obtain ⟨t0, ht0, heq⟩ := List.mem_map.mp ht
  by_cases h : some t0.table_name = target
  · rw [if_pos h] at heq
    rw [← heq] at hcol
    obtain ⟨col0, hc0, hgeq⟩ := List.mem_map.mp hcol
    by_cases hcc : cols.contains col0.column_name ∧ cols.length = 1
    · rw [if_pos hcc] at hgeq
      rw [← hgeq]
    · rw [if_neg hcc] at hgeq
      exact absurd ⟨hgeq ▸ contains_of_mem hmem, hlen⟩ hcc
  · rw [if_neg h] at heq
    exact absurd (heq ▸ hname) h

end ConstraintHandler

/-! ## TypeMapper (src/transformer/type_mapper.py) -/

namespace TypeMapper

/-- The core type-mapping matrix (`self.type_map`), in source order. -/
def typeMap : List (String × String) :=
  [("integer", "int4"), ("int", "int4"), ("int4", "int4"),
   ("bigint", "int8"), ("int8", "int8"),
   ("smallint", "int2"), ("int2", "int2"),
   ("boolean", "bool"), ("bool", "bool"),
   ("text", "text"), ("varchar", "varchar"),
   ("char", "bpchar"), ("bpchar", "bpchar"),
   ("date", "date"), ("timestamp", "timestamp"), ("timestamptz", "timestamptz"),
   ("time", "time"), ("timetz", "timetz"), ("interval", "interval"),
   ("json", "json"), ("jsonb", "jsonb"), ("uuid", "uuid"),
   ("numeric", "numeric"), ("decimal", "numeric"),
   ("real", "float4"), ("float4", "float4"), ("float8", "float8"),
   ("float", "float8"), ("double", "float8"),
   ("serial", "int4"), ("bigserial", "int8"), ("smallserial", "int2"),
   ("inet", "inet"), ("cidr", "cidr"), ("macaddr", "macaddr"),
   ("macaddr8", "macaddr8"),
   ("point", "point"), ("line", "line"), ("lseg", "lseg"), ("box", "box"),
   ("path", "path"), ("polygon", "polygon"), ("circle", "circle"),
   ("bytea", "bytea"), ("money", "money"),
   ("int4range", "int4range"), ("int8range", "int8range"),
   ("numrange", "numrange"), ("tsrange", "tsrange"),
   ("tstzrange", "tstzrange"), ("daterange", "daterange"),
   ("tsvector", "tsvector"), ("tsquery", "tsquery"),
   ("xml", "xml"), ("pg_lsn", "pg_lsn"),
   ("bit", "bit"), ("varbit", "varbit"),
   ("int4multirange", "text"), ("int8multirange", "text"),
   ("nummultirange", "text"), ("tsmultirange", "text"),
   ("datemultirange", "text"),
   ("hstore", "text"), ("ltree", "text"), ("cube", "text"),
   ("isbn", "text"), ("issn", "text")]

/-- `self.type_map.get(k)` / `k in self.type_map` combined. -/
def typeMapLookup (k : String) : Option String :=
  (typeMap.find? (fun p => p.1 == k)).map (·.2)

/-- The `semantic_loss_types` messages of `_transform_single_type`. -/
def semanticLossTypes : List (String × String) :=
  [("int4multirange", "PostgreSQL multirange types not supported in DBML"),
   ("int8multirange", "PostgreSQL multirange types not supported in DBML"),
   ("nummultirange", "PostgreSQL multirange types not supported in DBML"),
   ("tsmultirange", "PostgreSQL multirange types not supported in DBML"),
   ("datemultirange", "PostgreSQL multirange types not supported in DBML"),
   ("hstore", "PostgreSQL hstore extension type causes semantic loss in DBML"),
   ("ltree", "PostgreSQL ltree extension type causes semantic loss in DBML"),
   ("cube", "PostgreSQL cube extension type causes semantic loss in DBML"),
   ("isbn", "PostgreSQL ISBN extension type causes semantic loss in DBML"),
   ("issn", "PostgreSQL ISSN extension type causes semantic loss in DBML")]

def semanticLossLookup (k : String) : Option String :=
  (semanticLossTypes.find? (fun p => p.1 == k)).map (·.2)

/-- `decisions.get(key, default)` on the decisions dictionary. -/
def decisionsGet (d : List (String × String)) (k dflt : String) : String :=
  match d.find? (fun p => p.1 == k) with
  | some p => p.2
  | none => dflt

/-- The default decisions used when `transform_types` receives `None`. -/
def defaultDecisions : List (String × String) := [("ARRAY_TYPE", "native")]

/-- `_is_array_type`. -/
def isArrayType (pg_type : String) : Bool := containsSub pg_type "[]"

/-- Match `re.match(r'([a-zA-Z_][a-zA-Z0-9_]*)\s*\(([^)]+)\)', s)` at the
start of `s`, returning `(group 1, group 2)`. -/
def matchTypeParams (cs : List Char) : Option (List Char × List Char) :=
  match cs with
  | [] => none
  | c :: rest =>
    if isAlphaB c || c = '_' then
      let w := rest.takeWhile isWordB
      let r1 := rest.drop w.length
      let r2 := r1.dropWhile isPySpace
      match r2 with
      | c2 :: r3 =>
        if c2 = '(' then
          let p := r3.takeWhile (fun x => x ≠ ')')
          if p.isEmpty then none
          else
            match r3.drop p.length with
            | c3 :: _ => if c3 = ')' then some (c :: w, p) else none
            | [] => none
        else none
      | [] => none
    else none

/-- `_extract_type_components`. -/
def extractTypeComponents (pg_type : String) : String × Option String :=
  let is_array := containsSub pg_type "[]"
  let pg1 := if is_array then pyStrip (replaceAll pg_type "[]" "") else pg_type
  match matchTypeParams pg1.data with
  | some bp =>
    (if is_array then String.mk bp.1 ++ "[]" else String.mk bp.1,
     some (String.mk bp.2))
  | none =>
    (if is_array then pyStrip pg1 ++ "[]" else pyStrip pg1, none)

/-- `_convert_native_array_type`. -/
def convertNativeArrayType (pg_type : String) : String :=
  let element_type := pyStrip (replaceAll pg_type "[]" "")
  let mapped_element :=
    match typeMapLookup (strLower element_type) with
    | some v => v
    | none => element_type
  "\"" ++ mapped_element ++ "[]\""

/-- `_handle_array_type`. -/
def handleArrayType (pg_type : String) (decisions : List (String × String))
    (table_name column_name : String) : String × List String :=
  let strategy := decisionsGet decisions "ARRAY_TYPE" "native"
  if strategy = "native" then (convertNativeArrayType pg_type, [])
  else if strategy = "text_fallback" then
    ("text",
     ["Array type " ++ sq ++ pg_type ++ sq ++
      " flattened to text - array semantics lost"])
  else (convertNativeArrayType pg_type, [])

/-- `_transform_single_type`. -/
def transformSingleType (pg_type : String) (decisions : List (String × String))
    (table_name column_name : String) (enum_types : List String) :
    String × List String :=
  let bt0 := (extractTypeComponents pg_type).1
  if enum_types.contains (strLower bt0) then (bt0, [])
  else if isArrayType pg_type then
    handleArrayType pg_type decisions table_name column_name
  else
    let bp := extractTypeComponents pg_type
    match typeMapLookup (strLower bp.1) with
    | some dbml_type =>
      let dbml2 :=
        match bp.2 with
        | some ps =>
          if ps ≠ "" ∧ (dbml_type = "varchar" ∨ dbml_type = "char" ∨
              dbml_type = "numeric" ∨ dbml_type = "decimal") then
            dbml_type ++ "(" ++ ps ++ ")"
          else dbml_type
        | none => dbml_type
      let warnings :=
        match semanticLossLookup (strLower bp.1) with
        | some msg =>
          ["Type " ++ sq ++ pg_type ++ sq ++ " converted to " ++ sq ++ "text" ++
           sq ++ " - " ++ msg]
        | none => []
      (dbml2, warnings)
    | none =>
      ("text",
       ["Unknown type " ++ sq ++ pg_type ++ sq ++ " converted to " ++ sq ++
        "text" ++ sq])

/-- `_get_transformation_reason`. -/
def getTransformationReason (original transformed : String) : String :=
  if containsSub original "[]" then "Array type syntax incompatibility"
  else if (["inet", "cidr", "macaddr", "tsvector", "xml"] :
      List String).contains (strLower original) then
    "PostgreSQL-specific type not supported in DBML"
  else if containsSub original "with time zone" ||
      containsSub original "without time zone" then
    "Multi-word type converted to alias"
  else "DBML compatibility"

/-- Transformation of one column inside the `transform_types` loops:
returns the updated column, the transformation records and the warnings
appended for it. -/
def transformColumn (decisions : List (String × String))
    (enum_types : List String) (table_name : String) (col : Column) :
    Column × List TransformRecord × List String :=
  let original_type := col.data_type
  let tw := transformSingleType original_type decisions table_name
    col.column_name enum_types
  let col2 : Column :=
    { col with data_type := tw.1,
               original_type :=
                 if original_type ≠ tw.1 then some original_type
                 else col.original_type }
  let recs : List TransformRecord :=
    if original_type ≠ tw.1 then
      [{ table := table_name, column := col.column_name,
         original_type := original_type, transformed_type := tw.1,
         transformation_reason := getTransformationReason original_type tw.1 }]
    else []
  (col2, recs, tw.2)

/-- The inner column loop of `transform_types`. -/
def transformColumnsLoop (decisions : List (String × String))
    (enum_types : List String) (table_name : String) :
    List Column → List Column × List TransformRecord × List String
  | [] => ([], [], [])
  | col :: cols =>
    let r := transformColumn decisions enum_types table_name col
    let rest := transformColumnsLoop decisions enum_types table_name cols
    (r.1 :: rest.1, r.2.1 ++ rest.2.1, r.2.2 ++ rest.2.2)

/-- The outer table loop of `transform_types`. -/
def transformTablesLoop (decisions : List (String × String))
    (enum_types : List String) :
    List Table → List Table × List TransformRecord × List String
  | [] => ([], [], [])
  | t :: ts =>
    let r := transformColumnsLoop decisions enum_types t.table_name t.columns
    let rest := transformTablesLoop decisions enum_types ts
    ({ t with columns := r.1 } :: rest.1, r.2.1 ++ rest.2.1, r.2.2 ++ rest.2.2)

/-- `TypeMapper().transform_types(schema, decisions)` on a fresh mapper. -/
def transformTypes (schema : Schema)
    (decisions : Option (List (String × String)) := none) : Schema :=
  let decisions :=
    match decisions with
    | some d => d
    | none => defaultDecisions
  let enum_types := schema.enums.map (fun e => strLower e.enum_name)
  let r := transformTablesLoop decisions enum_types schema.tables
  { schema with
    tables := r.1,
    type_transformations := r.2.1,
    type_warnings := r.2.2 }

/-- The spec's pattern `^".+ \[\]"$` for a mapped native array type: an
opening double quote, at least one character, a space, `[]`, a closing
double quote (types contain no newline, so `.` is unrestricted here). -/
def specArrayPattern (s : String) : Bool :=
  startsWithL s.data ['"'] &&
  endsWithL s.data [' ', '[', ']', '"'] &&
  decide (6 ≤ s.data.length)

end TypeMapper

/-! ### Character-class lemmas shared by the scanner proofs -/

theorem word_not_space {c : Char} (h : isWordB c = true) : isPySpace c = false := by
  by_contra hc
  rw [Bool.not_eq_false] at hc
  simp only [isPySpace, Bool.or_eq_true, decide_eq_true_eq] at hc
  rcases hc with ((((rfl | rfl) | rfl) | rfl) | rfl) | rfl <;>
    exact absurd h (by decide)

theorem word_ne {c d : Char} (h : isWordB c = true) (hd : isWordB d = false) :
    c ≠ d := by
  intro he
  subst he
  rw [h] at hd
  exact Bool.noConfusion hd

theorem word_of_lower {c : Char} (h : isWordB (lowChar c) = true) :
    isWordB c = true := by
  unfold lowChar at h
  by_cases hc : 'A' ≤ c ∧ c ≤ 'Z'
  · have halpha : isAlphaB c = true := by
      simp only [isAlphaB, Bool.or_eq_true, Bool.and_eq_true, decide_eq_true_eq]
      exact Or.inr ⟨hc.1, hc.2⟩
    simp only [isWordB, Bool.or_eq_true]
    exact Or.inl (Or.inl halpha)
  · rw [if_neg hc] at h
    exact h

theorem not_mem_of_all_word {l : List Char} {d : Char}
    (h : ∀ c ∈ l, isWordB c = true) (hd : isWordB d = false) : d ∉ l := by
  intro hin
  exact absurd (h d hin) (by rw [hd]; decide)

theorem strLower_data (s : String) : (strLower s).data = s.data.map lowChar := rfl

theorem word_of_strLower {b : String}
    (h : ∀ c ∈ (strLower b).data, isWordB c = true) :
    ∀ c ∈ b.data, isWordB c = true := by
  intro c hc
  exact word_of_lower (h (lowChar c) (by rw [strLower_data]; exact List.mem_map_of_mem _ hc))

theorem string_mk_data (s : String) : String.mk s.data = s := rfl

theorem ne_empty_iff_data {s : String} : s ≠ "" ↔ s.data ≠ [] := by
  constructor
  · intro h hd
    exact h (by cases s with | mk d => simp at hd; rw [hd])
  · intro h he
    rw [he] at h
    exact h rfl

theorem pyStrip_word {s : String} (h : ∀ c ∈ s.data, isWordB c = true) :
    pyStrip s = s := by
  unfold pyStrip
  rw [dropWhile_eq_self_of_all (fun c hc => word_not_space (h c hc)),
    dropWhile_eq_self_of_all
      (fun c hc => word_not_space (h c (List.mem_reverse.mp hc))),
    List.reverse_reverse]

namespace TypeMapper

theorem word_no_array {l : List Char} (h : ∀ c ∈ l, isWordB c = true) :
    containsSubL l ['[', ']'] = false :=
  not_contains_pair_of_not_mem (not_mem_of_all_word h (by decide))

theorem matchTypeParams_word {l : List Char} (hw : ∀ c ∈ l, isWordB c = true) :
    matchTypeParams l = none := by
  cases l with
  | nil => rfl
  | cons c rest =>
    unfold matchTypeParams
    dsimp only
    by_cases ha : (isAlphaB c || c = '_') = true
    · rw [if_pos ha]
      have htw : rest.takeWhile isWordB = rest := by
        induction rest with
        | nil => rfl
        | cons d ds ih =>
          rw [List.takeWhile_cons,
            if_pos (hw d (List.mem_cons_of_mem _ (List.mem_cons_self d ds)))]
          rw [ih (fun x hx => by
            rcases List.mem_cons.mp hx with h1 | h1
            · exact hw x (h1 ▸ List.mem_cons_self c _)
            · exact hw x (List.mem_cons_of_mem _ (List.mem_cons_of_mem _ h1)))]
      rw [htw]
      simp
    · rw [if_neg ha]

theorem extract_word {w : String} (hne : w ≠ "")
    (hw : ∀ c ∈ w.data, isWordB c = true) :
    extractTypeComponents w = (w, none) := by
  unfold extractTypeComponents
  have harr : containsSub w "[]" = false := word_no_array hw
  rw [harr]
  simp only [Bool.false_eq_true, if_false]
  rw [matchTypeParams_word hw]
  rw [pyStrip_word hw]

theorem matchTypeParams_facts {cs w p : List Char}
    (h : matchTypeParams cs = some (w, p)) :
    p ≠ [] ∧ (∀ c ∈ p, c ≠ ')') ∧ p <:+: cs := by
  cases cs with
  | nil => simp [matchTypeParams] at h
  | cons c rest =>
    unfold matchTypeParams at h
    dsimp only at h
    by_cases ha : (isAlphaB c || c = '_') = true
    · rw [if_pos ha] at h
      cases hr2 : (rest.drop (rest.takeWhile isWordB).length).dropWhile isPySpace with
      | nil => rw [hr2] at h; simp at h
      | cons c2 r3 =>
        rw [hr2] at h
        dsimp only at h
        by_cases hc2 : c2 = '('
        · subst hc2
          rw [if_pos rfl] at h
          by_cases hpe : (r3.takeWhile (fun x => x ≠ ')')).isEmpty = true
          · rw [if_pos hpe] at h; simp at h
          · rw [if_neg hpe] at h
            cases hd : r3.drop (r3.takeWhile (fun x => x ≠ ')')).length with
            | nil => rw [hd] at h; simp at h
            | cons c3 r4 =>
              rw [hd] at h
              dsimp only at h
              by_cases hc3 : c3 = ')'
              · rw [if_pos hc3] at h
                simp only [Option.some.injEq, Prod.mk.injEq] at h
                obtain ⟨hw1, hp⟩ := h
                subst hp
                refine ⟨?_, ?_, ?_⟩
                · intro hnil
                  exact hpe (by rw [hnil]; rfl)
                · intro x hx
                  exact of_decide_eq_true (mem_takeWhile_pred hx)
                · have s1 : r3.takeWhile (fun x => decide (x ≠ ')')) <+: r3 :=
                    List.takeWhile_prefix _
                  have s2 : r3 <:+ ('(' :: r3) := List.suffix_cons _ _
                  have s3 : ('(' :: r3) <:+
                      rest.drop (rest.takeWhile isWordB).length := by
                    have hds : (rest.drop
                        (rest.takeWhile isWordB).length).dropWhile isPySpace <:+
                        rest.drop (rest.takeWhile isWordB).length :=
                      List.dropWhile_suffix isPySpace
                    rw [hr2] at hds
                    exact hds
                  have s4 : rest.drop (rest.takeWhile isWordB).length <:+ rest :=
                    List.drop_suffix _ _
                  have s5 : rest <:+ (c :: rest) := List.suffix_cons _ _
                  exact s1.isInfix.trans
                    ((((s2.trans s3).trans s4).trans s5).isInfix)
              · rw [if_neg hc3] at h; simp at h
        · rw [if_neg hc2] at h; simp at h
    · rw [if_neg ha] at h; simp at h

theorem extract_params_facts {t b ps : String}
    (hnoarr : containsSub t "[]" = false)
    (hx : extractTypeComponents t = (b, some ps)) :
    ps ≠ "" ∧ (∀ c ∈ ps.data, c ≠ ')') ∧
      containsSubL ps.data ['[', ']'] = false := by
  unfold extractTypeComponents at hx
  rw [hnoarr] at hx
  simp only [Bool.false_eq_true, if_false] at hx
  cases hm : matchTypeParams t.data with
  | none => rw [hm] at hx; simp at hx
  | some bp =>
    rw [hm] at hx
    obtain ⟨w0, p0⟩ := bp
    dsimp only at hx
    have hps : ps = String.mk p0 := by
      have h2 := congrArg Prod.snd hx
      simp only at h2
      exact (Option.some.injEq _ _ ▸ h2).symm
    obtain ⟨hpne, hpnr, hinf⟩ := matchTypeParams_facts hm
    refine ⟨?_, ?_, ?_⟩
    · rw [hps]
      intro he
      exact hpne (congrArg String.data he)
    · intro x hx2
      rw [hps] at hx2
      exact hpnr x hx2
    · by_contra hcc
      rw [Bool.not_eq_false] at hcc
      obtain ⟨pre, post, hsplit⟩ := hinf
      have hcc2 : containsSubL p0 ['[', ']'] = true := by
        rw [hps] at hcc
        exact hcc
      have hgot : containsSubL t.data ['[', ']'] = true := by
        rw [← hsplit]
        exact containsSubL_of_infix hcc2
      have hnoarr2 : containsSubL t.data ['[', ']'] = false := hnoarr
      rw [hgot] at hnoarr2
      exact Bool.noConfusion hnoarr2

theorem drop_takeWhile_length (p : Char → Bool) (l : List Char) :
    l.drop (l.takeWhile p).length = l.dropWhile p := by
  induction l with
  | nil => rfl
  | cons c cs ih =>
    by_cases h : p c
    · simp [List.takeWhile_cons, List.dropWhile_cons, h, ih]
    · simp [List.takeWhile_cons, List.dropWhile_cons, h]

theorem pair_not_contains_paren {d ps : List Char}
    (hd : ∀ c ∈ d, isWordB c = true)
    (hps : containsSubL ps ['[', ']'] = false) :
    containsSubL (d ++ '(' :: (ps ++ [')'])) ['[', ']'] = false := by
  by_contra h
  rw [Bool.not_eq_false] at h
  obtain ⟨a, b, hsplit⟩ := containsSubL_iff_append.mp h
  have hsplit2 : d ++ '(' :: (ps ++ [')']) = a ++ '[' :: ']' :: b := by
    simpa using hsplit
  rcases pair_occurrence_split hsplit2 with ⟨u, v, hu⟩ | ⟨u, hu, v, hv⟩ | ⟨u, v, huv⟩
  · have hin : '[' ∈ d := by rw [hu]; simp
    exact absurd (hd _ hin) (by decide)
  · have hin : '[' ∈ d := by rw [hu]; simp
    exact absurd (hd _ hin) (by decide)
  · cases u with
    | nil =>
      injection huv with h1 h2
      exact absurd h1 (by decide)
    | cons u0 u' =>
      injection huv with h1 h2
      rcases pair_occurrence_split h2 with ⟨u2, v2, hu2⟩ | ⟨u2, hu2, v2, hv2⟩ |
        ⟨u2, v2, huv2⟩
      · have hcc : containsSubL ps ['[', ']'] = true :=
          containsSubL_iff_append.mpr ⟨u2, v2, by simpa using hu2⟩
        rw [hcc] at hps
        exact Bool.noConfusion hps
      · injection hv2 with h3 h4
        exact absurd h3 (by decide)
      · have hlen := congrArg List.length huv2
        simp at hlen
        omega

theorem matchTypeParams_paren {d ps : List Char} (hd : d ≠ [])
    (halpha : (isAlphaB (d.headD ' ') || d.headD ' ' = '_') = true)
    (hw : ∀ c ∈ d, isWordB c = true)
    (hps : ps ≠ []) (hpsnr : ∀ c ∈ ps, c ≠ ')') :
    matchTypeParams (d ++ '(' :: (ps ++ [')'])) = some (d, ps) := by
  cases d with
  | nil => exact absurd rfl hd
  | cons c rest =>
    simp only [List.headD_cons] at halpha
    unfold matchTypeParams
    simp only [List.cons_append]
    rw [if_pos halpha]
    have h1 : (rest ++ '(' :: (ps ++ [')'])).takeWhile isWordB = rest := by
      rw [takeWhile_append_all _ (fun x hx => hw x (List.mem_cons_of_mem _ hx))]
      rw [takeWhile_of_head_false _ (by decide)]
      simp
    rw [h1, List.drop_left]
    have h2 : ('(' :: (ps ++ [')'])).dropWhile isPySpace = '(' :: (ps ++ [')']) := by
      rw [List.dropWhile_cons, if_neg (by decide)]
    rw [h2]
    dsimp only
    rw [if_pos rfl]
    have h3 : (ps ++ [')']).takeWhile (fun x => decide (x ≠ ')')) = ps := by
      rw [takeWhile_append_all _
        (fun x hx => decide_eq_true (hpsnr x hx))]
      rw [takeWhile_of_head_false _ (by decide)]
      simp
    rw [h3]
    have h4 : ps.isEmpty = false := by
      cases ps with
      | nil => exact absurd rfl hps
      | cons a l => rfl
    rw [h4]
    simp only [Bool.false_eq_true, if_false]
    rw [List.drop_left]
    dsimp only
    rw [if_pos rfl]

theorem extract_paren {d ps : String} (hd : d ≠ "")
    (halpha : (isAlphaB (d.data.headD ' ') || d.data.headD ' ' = '_') = true)
    (hw : ∀ c ∈ d.data, isWordB c = true)
    (hps : ps ≠ "") (hpsnr : ∀ c ∈ ps.data, c ≠ ')')
    (hpsnoarr : containsSubL ps.data ['[', ']'] = false) :
    extractTypeComponents (d ++ "(" ++ ps ++ ")") = (d, some ps) := by
  have hdata : (d ++ "(" ++ ps ++ ")").data = d.data ++ '(' :: (ps.data ++ [')']) := by
    simp [String.data_append]
  have harr : containsSub (d ++ "(" ++ ps ++ ")") "[]" = false := by
    unfold containsSub
    rw [hdata]
    exact pair_not_contains_paren hw hpsnoarr
  unfold extractTypeComponents
  rw [harr]
  simp only [Bool.false_eq_true, if_false]
  rw [hdata, matchTypeParams_paren (ne_empty_iff_data.mp hd) halpha hw
    (ne_empty_iff_data.mp hps) hpsnr]

theorem typeMapLookup_mem {k v : String} (h : typeMapLookup k = some v) :
    (k, v) ∈ typeMap := by
  unfold typeMapLookup at h
  obtain ⟨p, hp, hpv⟩ := Option.map_eq_some'.mp h
  have hmem := List.mem_of_find?_eq_some hp
  have hpred := List.find?_some hp
  have hk : p.1 = k := beq_iff_eq.mp hpred
  have : p = (k, v) := Prod.ext hk hpv
  exact this ▸ hmem

/-- Every value of the type map is a nonempty lowercase identifier that maps
to itself. -/
theorem typeMap_value_facts : ∀ p ∈ typeMap,
    typeMapLookup p.2 = some p.2 ∧ strLower p.2 = p.2 ∧ p.2 ≠ "" ∧
    p.2.data.all isWordB = true ∧
    (isAlphaB (p.2.data.headD ' ') || p.2.data.headD ' ' = '_') = true := by
  decide

/-- The only mapped types in the parameter-preservation list that actually
occur as values are `varchar` and `numeric`, and `varchar` is only produced
from the key `varchar`. -/
theorem typeMap_key_facts : ∀ p ∈ typeMap,
    (p.2 = "varchar" → p.1 = "varchar") ∧
    ((p.2 = "varchar" ∨ p.2 = "char" ∨ p.2 = "numeric" ∨ p.2 = "decimal") →
      (p.2 = "varchar" ∨ p.2 = "numeric")) := by
  decide

/-- Re-mapping an enum name returns it unchanged. -/
theorem enum_idem {b : String} {dec : List (String × String)} {tn cn : String}
    {E : List String} (hb : b ≠ "") (hw : ∀ c ∈ b.data, isWordB c = true)
    (hE : E.contains (strLower b) = true) :
    (transformSingleType b dec tn cn E).1 = b := by
  have h1 : extractTypeComponents b = (b, none) := extract_word hb hw
  unfold transformSingleType
  rw [h1]
  dsimp only
  rw [if_pos hE]

/-- Re-mapping a self-mapped identifier (any value of the type map, or
`text`) returns it unchanged. -/
theorem value_idem {v : String} {dec : List (String × String)} {tn cn : String}
    {E : List String}
    (hlk : typeMapLookup v = some v) (hlow : strLower v = v) (hne : v ≠ "")
    (hw : ∀ c ∈ v.data, isWordB c = true) :
    (transformSingleType v dec tn cn E).1 = v := by
  have hx : extractTypeComponents v = (v, none) := extract_word hne hw
  unfold transformSingleType
  rw [hx]
  dsimp only
  by_cases hc : E.contains (strLower v) = true
  · rw [if_pos hc]
  · rw [if_neg hc]
    have harr : ¬(isArrayType v = true) := by
      unfold isArrayType containsSub
      rw [word_no_array hw]
      decide
    rw [if_neg harr, hlow, hlk]

/-- Re-mapping a parameterized output `d(ps)` with `d ∈ {varchar, numeric}`
returns it unchanged provided `d` is not an enum name. -/
theorem param_idem {d ps : String} {dec : List (String × String)} {tn cn : String}
    {E : List String}
    (hlk : typeMapLookup d = some d) (hlow : strLower d = d) (hne : d ≠ "")
    (hw : ∀ c ∈ d.data, isWordB c = true)
    (halpha : (isAlphaB (d.data.headD ' ') || d.data.headD ' ' = '_') = true)
    (hdvn : d = "varchar" ∨ d = "numeric")
    (hps : ps ≠ "") (hpsnr : ∀ c ∈ ps.data, c ≠ ')')
    (hpsnoarr : containsSubL ps.data ['[', ']'] = false)
    (hcE : E.contains d = false) :
    (transformSingleType (d ++ "(" ++ ps ++ ")") dec tn cn E).1 =
      d ++ "(" ++ ps ++ ")" := by
  have hx : extractTypeComponents (d ++ "(" ++ ps ++ ")") = (d, some ps) :=
    extract_paren hne halpha hw hps hpsnr hpsnoarr
  unfold transformSingleType
  rw [hx]
  dsimp only
  rw [hlow]
  have hcE' : ¬(E.contains d = true) := by rw [hcE]; decide
  rw [if_neg hcE']
  have harr : ¬(isArrayType (d ++ "(" ++ ps ++ ")") = true) := by
    unfold isArrayType containsSub
    have hdata : (d ++ "(" ++ ps ++ ")").data =
        d.data ++ '(' :: (ps.data ++ [')']) := by
      simp [String.data_append]
    rw [hdata, pair_not_contains_paren hw hpsnoarr]
    decide
  rw [if_neg harr, hlk]
  dsimp only
  have hdisj : d = "varchar" ∨ d = "char" ∨ d = "numeric" ∨ d = "decimal" := by
    rcases hdvn with rfl | rfl
    · exact Or.inl rfl
    · exact Or.inr (Or.inr (Or.inl rfl))
  rw [if_pos ⟨hps, hdisj⟩]

end TypeMapper

/-! ## RelationshipBuilder (src/generator/relationship_builder.py) -/

namespace RelationshipBuilder

/-- A record in `skipped_relationships`. -/
structure SkipRecord where
  relationship : Relationship
  reason : String
  skip_type : String
  source_table : String
  target_table : String
deriving Repr, DecidableEq

/-- A relationship as built by `_build_single_relationship`. -/
structure BuiltRel where
  source_table : String
  source_columns : List String
  target_table : String
  target_columns : List String
  relationship_type : String
  constraint_name : Option String
  on_delete_action : Option String
  on_update_action : Option String
  is_composite : Bool
  is_self_referencing : Bool
deriving Repr, DecidableEq

/-- The table lookup dictionary built by `_create_table_lookup`: a later
table with the same name overwrites an earlier one. -/
def lookupTable (tables : List Table) (name : String) : Option Table :=
  tables.reverse.find? (fun t => t.table_name == name)

/-- The per-table column dictionary (`{col['column_name']: col}`): a later
column with the same name overwrites an earlier one. -/
def lookupColumn (t : Table) (name : String) : Option Column :=
  t.columns.reverse.find? (fun c => c.column_name == name)

/-- The key set of the per-table column dictionary. -/
def columnNames (t : Table) : List String := t.columns.map (·.column_name)

/-- Python `set(a) == set(b)` on string lists. -/
def setEqB (a b : List String) : Bool :=
  a.all (fun x => b.contains x) && b.all (fun x => a.contains x)

/-- The primary-key column set accumulated by `_columns_are_unique`
(`pk_columns.update(...)` over all type-`p` constraints). -/
def pkColumns (t : Table) : List String :=
  t.constraints.foldl
    (fun acc c => if c.constraint_type = "p" then acc ++ c.columns else acc) []

/-- `_columns_are_unique`. -/
def columnsAreUnique (columns : List String) (t : Table) : Bool :=
  if setEqB columns (pkColumns t) then true
  else if t.constraints.any
      (fun c => c.constraint_type == "u" && setEqB columns c.columns) then true
  else
    -- column-level check, only for a single column
    match columns with
    | [column_name] =>
      match lookupColumn t column_name with
      | some col => col.is_unique || col.is_primary_key
      | none => false
    | _ => false

/-- `_determine_relationship_type` (also returning the warnings it emits). -/
def determineRelationshipType (rel : Relationship) (src tgt : Table) :
    String × List WarningMsg :=
  let source_is_unique := columnsAreUnique rel.source_columns src
  let target_is_unique := columnsAreUnique rel.target_columns tgt
  if source_is_unique && target_is_unique then ("one-to-one", [])
  else if target_is_unique then ("many-to-one", [])
  else
    ("many-to-one",
     [{ type := "RELATIONSHIP_WARNING",
        message := "Relationship " ++ rel.source_table ++ " -> " ++
          rel.target_table ++ " references non-unique columns - unusual foreign key" }])

/-- The result of `_skip_relationship`: no built relationship, one skip
record, one warning. -/
def skipResult (rel : Relationship) (reason skip_type : String) :
    Option BuiltRel × List SkipRecord × List WarningMsg :=
  (none,
   [{ relationship := rel, reason := reason, skip_type := skip_type,
      source_table := rel.source_table, target_table := rel.target_table }],
   [{ type := "RELATIONSHIP_WARNING",
      message := "Skipped relationship " ++ rel.source_table ++ " -> " ++
        rel.target_table ++ ": " ++ reason }])

/-- Render a list of column names roughly the way a Python f-string renders
the list (used only inside log messages). -/
def showCols (cols : List String) : String :=
  "[" ++ String.intercalate ", " (cols.map (fun s => sq ++ s ++ sq)) ++ "]"

/-- `_build_single_relationship`: validate endpoints, classify cardinality,
attach advisory warnings. -/
def buildSingleRelationship (rel : Relationship) (tables : List Table) :
    Option BuiltRel × List SkipRecord × List WarningMsg :=
  match lookupTable tables rel.source_table with
  | none =>
    skipResult rel
      ("Source table " ++ sq ++ rel.source_table ++ sq ++ " not found in schema")
      "MISSING_SOURCE_TABLE"
  | some src =>
    match lookupTable tables rel.target_table with
    | none =>
      skipResult rel
        ("Target table " ++ sq ++ rel.target_table ++ sq ++ " not found in schema")
        "MISSING_TARGET_TABLE"
    | some tgt =>
      let missing_source :=
        rel.source_columns.filter (fun col => !(columnNames src).contains col)
      let missing_target :=
        rel.target_columns.filter (fun col => !(columnNames tgt).contains col)
      if missing_source ≠ [] then
        skipResult rel ("Source columns not found: " ++ showCols missing_source)
          "MISSING_SOURCE_COLUMNS"
      else if missing_target ≠ [] then
        skipResult rel ("Target columns not found: " ++ showCols missing_target)
          "MISSING_TARGET_COLUMNS"
      else if rel.source_columns.length ≠ rel.target_columns.length then
        skipResult rel
          ("Column count mismatch: " ++ toString rel.source_columns.length ++
           " source, " ++ toString rel.target_columns.length ++ " target")
          "COLUMN_COUNT_MISMATCH"
      else
        let rt := determineRelationshipType rel src tgt
        let built : BuiltRel :=
          { source_table := rel.source_table,
            source_columns := rel.source_columns,
            target_table := rel.target_table,
            target_columns := rel.target_columns,
            relationship_type := rt.1,
            constraint_name := rel.constraint_name,
            on_delete_action := rel.on_delete_action,
            on_update_action := rel.on_update_action,
            is_composite := rel.source_columns.length > 1,
            is_self_referencing := rel.source_table == rel.target_table }
        let warns := rt.2 ++
          (if built.is_composite then
            [{ type := "RELATIONSHIP_WARNING",
               message := "Composite relationship " ++ rel.source_table ++ " -> " ++
                 rel.target_table ++ " may cause parser issues" }]
           else []) ++
          (if built.is_self_referencing then
            [{ type := "RELATIONSHIP_WARNING",
               message := "Self-referencing relationship on " ++ rel.source_table ++
                 " - verify diagram clarity" }]
           else [])
        (some built, [], warns)

/-- The `(source table, source columns, target table, target columns)`
signature used by `_create_relationship_signature`. -/
def relSignature (r : BuiltRel) : String × List String × String × List String :=
  (r.source_table, r.source_columns, r.target_table, r.target_columns)

/-- `_deduplicate_relationships`: keep the first relationship with each
signature, warn about removed duplicates. -/
def dedupAux : List BuiltRel →
    List (String × List String × String × List String) →
    List BuiltRel × List WarningMsg
  | [], _ => ([], [])
  | r :: rs, seen =>
    if seen.contains (relSignature r) then
      let rest := dedupAux rs seen
      (rest.1,
       { type := "RELATIONSHIP_WARNING",
         message := "Duplicate relationship " ++ r.source_table ++ " -> " ++
           r.target_table ++ " removed" } :: rest.2)
    else
      let rest := dedupAux rs (relSignature r :: seen)
      (r :: rest.1, rest.2)

/-- `build_relationships` on a fresh `RelationshipBuilder` (the three
accumulator lists are reset at the start of the method): returns the final
built list, the skip records and the warnings. -/
def buildRelationships (relationships : List Relationship) (tables : List Table) :
    List BuiltRel × List SkipRecord × List WarningMsg :=
  let results := relationships.map (fun r => buildSingleRelationship r tables)
  let built0 := results.filterMap (·.1)
  let skipped := results.flatMap (fun r => r.2.1)
  let warns0 := results.flatMap (fun r => r.2.2)
  let dd := dedupAux built0 []
  (dd.1, skipped, warns0 ++ dd.2)

theorem mem_of_contains {x : String} {l : List String} (h : l.contains x = true) :
    x ∈ l := List.elem_iff.mp h

/-- Members of the deduplicated list come from the input list. -/
theorem dedupAux_subset {l : List BuiltRel}
    {seen : List (String × List String × String × List String)} {r : BuiltRel}
    (h : r ∈ (dedupAux l seen).1) : r ∈ l := by
  induction l generalizing seen with
  | nil => simp [dedupAux] at h
  | cons a l ih =>
    unfold dedupAux at h
    by_cases hs : seen.contains (relSignature a)
    · rw [if_pos hs] at h
      exact List.mem_cons_of_mem _ (ih h)
    · rw [if_neg hs] at h
      rcases List.mem_cons.mp h with h | h
      · exact h ▸ List.mem_cons_self a l
      · exact List.mem_cons_of_mem _ (ih h)

/-- If a single relationship builds successfully, its endpoints resolve and
all its columns are present in the resolved tables. -/
theorem bsr_some_endpoints {rel : Relationship} {tables : List Table} {b : BuiltRel}
    (h : (buildSingleRelationship rel tables).1 = some b) :
    (∃ t, lookupTable tables b.source_table = some t ∧
       ∀ col ∈ b.source_columns, col ∈ columnNames t) ∧
    (∃ t, lookupTable tables b.target_table = some t ∧
       ∀ col ∈ b.target_columns, col ∈ columnNames t) ∧
    b.source_table = rel.source_table ∧ b.target_table = rel.target_table := by
  unfold buildSingleRelationship at h
  cases hs : lookupTable tables rel.source_table with
  | none => rw [hs] at h; simp [skipResult] at h
  | some src =>
    rw [hs] at h
    cases htg : lookupTable tables rel.target_table with
    | none => rw [htg] at h; simp [skipResult] at h
    | some tgt =>
      rw [htg] at h
      dsimp only at h
      by_cases h1 : rel.source_columns.filter
          (fun col => !(columnNames src).contains col) ≠ []
      · rw [if_pos h1] at h; simp [skipResult] at h
      · rw [if_neg h1] at h
        by_cases h2 : rel.target_columns.filter
            (fun col => !(columnNames tgt).contains col) ≠ []
        · rw [if_pos h2] at h; simp [skipResult] at h
        · rw [if_neg h2] at h
          by_cases h3 : rel.source_columns.length ≠ rel.target_columns.length
          · rw [if_pos h3] at h; simp [skipResult] at h
          · rw [if_neg h3] at h
            dsimp only at h
            obtain rfl := Option.some.inj h
            rw [Classical.not_not] at h1 h2
            refine ⟨⟨src, hs, ?_⟩, ⟨tgt, htg, ?_⟩, rfl, rfl⟩
            · intro col hcol
              have := List.filter_eq_nil_iff.mp h1 col hcol
              simp only [Bool.not_eq_true', Bool.not_eq_false] at this
              exact mem_of_contains this
            · intro col hcol
              have := List.filter_eq_nil_iff.mp h2 col hcol
              simp only [Bool.not_eq_true', Bool.not_eq_false] at this
              exact mem_of_contains this

/-- Set equality of string lists as a (decidable) proposition. -/
def SetEqP (a b : List String) : Prop :=
  (∀ x ∈ a, x ∈ b) ∧ (∀ x ∈ b, x ∈ a)

instance (a b : List String) : Decidable (SetEqP a b) := by
  unfold SetEqP
  infer_instance

/-- The claim's characterization of a unique column set: set-equal to the
table's primary-key constraint columns, set-equal to some unique-constraint
column set, or a single column flagged unique or primary-key. -/
def UniqueColumns (columns : List String) (t : Table) : Prop :=
  SetEqP columns (pkColumns t) ∨
  (∃ c ∈ t.constraints, c.constraint_type = "u" ∧ SetEqP columns c.columns) ∨
  (∃ name ∈ columns, columns = [name] ∧
    ∃ col ∈ (lookupColumn t name).toList,
      (col.is_unique = true ∨ col.is_primary_key = true))

instance (columns : List String) (t : Table) : Decidable (UniqueColumns columns t) := by
  unfold UniqueColumns
  infer_instance

theorem setEqB_iff (a b : List String) : setEqB a b = true ↔ SetEqP a b := by
  unfold setEqB SetEqP
  rw [Bool.and_eq_true, List.all_eq_true, List.all_eq_true]
  constructor
  · rintro ⟨h1, h2⟩
    exact ⟨fun x hx => mem_of_contains (h1 x hx), fun x hx => mem_of_contains (h2 x hx)⟩
  · rintro ⟨h1, h2⟩
    exact ⟨fun x hx => contains_of_mem' (h1 x hx), fun x hx => contains_of_mem' (h2 x hx)⟩
where
  contains_of_mem' {x : String} {l : List String} (h : x ∈ l) : l.contains x = true :=
    List.elem_iff.mpr h

/-- The boolean `_columns_are_unique` decides exactly the claim's
characterization of uniqueness. -/
theorem columnsAreUnique_iff (columns : List String) (t : Table) :
    columnsAreUnique columns t = true ↔ UniqueColumns columns t := by
  unfold columnsAreUnique UniqueColumns
  by_cases h1 : setEqB columns (pkColumns t) = true
  · rw [if_pos h1]
    exact ⟨fun _ => Or.inl ((setEqB_iff _ _).mp h1), fun _ => rfl⟩
  · rw [if_neg h1]
    by_cases h2 : t.constraints.any
        (fun c => c.constraint_type == "u" && setEqB columns c.columns) = true
    · rw [if_pos h2]
      refine ⟨fun _ => ?_, fun _ => rfl⟩
      obtain ⟨c, hc, hcc⟩ := List.any_eq_true.mp h2
      rw [Bool.and_eq_true] at hcc
      exact Or.inr (Or.inl ⟨c, hc, beq_iff_eq.mp hcc.1, (setEqB_iff _ _).mp hcc.2⟩)
    · rw [if_neg h2]
      constructor
      · intro h3
        cases columns with
        | nil => simp at h3
        | cons x xs =>
          cases xs with
          | nil =>
            dsimp only at h3
            cases hl : lookupColumn t x with
            | none => rw [hl] at h3; simp at h3
            | some col =>
              rw [hl] at h3
              refine Or.inr (Or.inr ⟨x, List.mem_singleton.mpr rfl, rfl, col, ?_, ?_⟩)
              · rw [hl]
                simp [Option.toList]
              · rw [Bool.or_eq_true] at h3
                exact h3
          | cons y ys => simp at h3
      · intro h3
        rcases h3 with h3 | h3 | h3
        · exact absurd ((setEqB_iff _ _).mpr h3) h1
        · obtain ⟨c, hc, ht, hs⟩ := h3
          refine absurd (List.any_eq_true.mpr ⟨c, hc, ?_⟩) h2
          rw [Bool.and_eq_true]
          exact ⟨beq_iff_eq.mpr ht, (setEqB_iff _ _).mpr hs⟩
        · obtain ⟨name, hname, hcols, col, hcol, hflag⟩ := h3
          subst hcols
          dsimp only
          cases hl : lookupColumn t name with
          | none => rw [hl] at hcol; simp [Option.toList] at hcol
          | some c2 =>
            rw [hl] at hcol
            simp only [Option.toList, List.mem_singleton] at hcol
            subst hcol
            rw [Bool.or_eq_true]
            exact hflag

/-- With an existing source table and a missing target table, the builder
skips with `MISSING_TARGET_TABLE`. -/
theorem bsr_missing_target {rel : Relationship} {tables : List Table} {src : Table}
    (hs : lookupTable tables rel.source_table = some src)
    (ht : lookupTable tables rel.target_table = none) :
    buildSingleRelationship rel tables =
      skipResult rel
        ("Target table " ++ sq ++ rel.target_table ++ sq ++ " not found in schema")
        "MISSING_TARGET_TABLE" := by
  unfold buildSingleRelationship
  rw [hs, ht]

end RelationshipBuilder

/-! ## SQLCleaner (src/preprocessor/sql_cleaner.py) -/

namespace SQLCleaner

/-- `_should_remove_line`, with the source checks in source order. -/
def shouldRemoveLine (line : String) : Bool :=
  let ls := pyStrip line
  if ls = "" || pyStartsWith ls "--" then false
  else if pyStartsWith ls "\\" then true
  else if pyStartsWith (strUpper ls) "SET " then true
  else if pyStartsWith (strUpper ls) "SELECT " then true
  else if pyStartsWith (strUpper ls) "COMMENT ON " then true
  else if pyStartsWith (strUpper ls) "COPY " || ls = "\\." then true
  else if pyStartsWith (strUpper ls) "GRANT " ||
      pyStartsWith (strUpper ls) "REVOKE " then true
  else if containsSub (strUpper ls) "OWNER TO" then true
  else if containsSub (strUpper ls) "OWNED BY" then true
  else if pyStartsWith (strUpper ls) "ALTER TABLE ONLY " &&
      containsSub (strUpper ls) "SET DEFAULT" then true
  else false

/-- Match the regex `DEFAULT\s+(-\d+)` (re.IGNORECASE) at the start of the
list; on success return the captured group `-\d+` and the remaining input. -/
def matchNegDefault (cs : List Char) : Option (List Char × List Char) :=
  match eatCI "DEFAULT".data cs with
  | none => none
  | some r1 =>
    match eatWS1 r1 with
    | none => none
    | some r2 =>
      match r2 with
      | c :: r3 =>
        if c = '-' then
          let ds := r3.takeWhile isDigitB
          if ds.isEmpty then none
          else some ('-' :: ds, r3.drop ds.length)
        else none
      | [] => none

/-- The left-to-right non-overlapping scan of
`re.sub(r"DEFAULT\s+(-\d+)", ..., line, flags=re.IGNORECASE)`, replacing
each match by `DEFAULT` + space + quoted group.  The fuel only bounds the
recursion; `s.length` steps always suffice. -/
def fixNegGo : Nat → List Char → List Char
  | _, [] => []
  | 0, l => l
  | fuel + 1, c :: cs =>
    match matchNegDefault (c :: cs) with
    | some (grp, rest) =>
      "DEFAULT ".data ++ (sqc :: grp ++ [sqc]) ++ fixNegGo fuel rest
    | none => c :: fixNegGo fuel cs

/-- The negative-default substitution on character lists. -/
def fixNegL (s : List Char) : List Char := fixNegGo s.length s

/-- The negative-default substitution of `_clean_line` (its line 98). -/
def fixNegativeDefaults (s : String) : String := String.mk (fixNegL s.data)

/-- The `gen_random_uuid()` replacement of `_clean_line`. -/
def fixUuid (s : String) : String :=
  if containsSub s "gen_random_uuid()" then
    replaceAll s "gen_random_uuid()" "`uuid_generate_v4()`"
  else s

/-- The `type_replacements` dict of `_clean_line`, in insertion order. -/
def typeReplacements : List (String × String) :=
  [("timestamp with time zone", "timestamptz"),
   ("timestamp without time zone", "timestamp"),
   ("time with time zone", "timetz"),
   ("time without time zone", "time"),
   ("double precision", "float8"),
   ("character varying", "varchar")]

/-- One step list of `re.sub(rf"\b{phrase}\b", repl, s, flags=re.IGNORECASE)`
for a phrase that starts and ends with a word character: at each position a
match needs the previous original character to be a non-word character, the
phrase to match case-insensitively, and the following character to be a
non-word character (or the end of the input). -/
def subPhraseGo (phr repl : List Char) : Nat → Bool → List Char → List Char
  | _, _, [] => []
  | 0, _, l => l
  | fuel + 1, prevW, c :: cs =>
    if prevW = false ∧ startsWithCI (c :: cs) phr = true ∧
        isWordB (((c :: cs).drop phr.length).headD ' ') = false then
      repl ++ subPhraseGo phr repl fuel
        (isWordB (((c :: cs).take phr.length).getLastD c))
        ((c :: cs).drop phr.length)
    else c :: subPhraseGo phr repl fuel (isWordB c) cs

/-- A single word-bounded case-insensitive phrase substitution. -/
def subPhrase (s phr repl : String) : String :=
  String.mk (subPhraseGo phr.data repl.data s.data.length false s.data)

/-- The multi-word type replacement loop of `_clean_line`. -/
def applyTypeReplacements (s : String) : String :=
  typeReplacements.foldl (fun acc pr => subPhrase acc pr.1 pr.2) s

/-- One step list of `re.sub(r"\b(\w+)\[\]", ...)`: at a position where the
previous original character is a non-word character and a word character
starts, take the maximal word run; if it is immediately followed by `[]`,
emit the quoted replacement and continue after it. -/
def quoteArrGo : Nat → Bool → List Char → List Char
  | _, _, [] => []
  | 0, _, l => l
  | fuel + 1, prevW, c :: cs =>
    if prevW = false ∧ isWordB c = true ∧
        startsWithL ((c :: cs).drop ((c :: cs).takeWhile isWordB).length)
          ['[', ']'] = true then
      ('"' :: (c :: cs).takeWhile isWordB ++ [' ', '[', ']', '"']) ++
        quoteArrGo fuel false
          (((c :: cs).drop ((c :: cs).takeWhile isWordB).length).drop 2)
    else c :: quoteArrGo fuel (isWordB c) cs

/-- The array-type quoting substitution of `_clean_line`. -/
def quoteArrayTypes (s : String) : String :=
  String.mk (quoteArrGo s.data.length false s.data)

/-- `_clean_line`: negative defaults, uuid call, multi-word types, array
quoting, in source order. -/
def cleanLine (line : String) : String :=
  quoteArrayTypes (applyTypeReplacements (fixUuid (fixNegativeDefaults line)))

/-- Python `str.split(chr(10))`. -/
def splitLinesGo : List Char → List Char → List String
  | acc, [] => [String.mk acc.reverse]
  | acc, c :: cs =>
    if c = '\n' then String.mk acc.reverse :: splitLinesGo [] cs
    else splitLinesGo (c :: acc) cs

/-- Python `str.split` on newline. -/
def splitLines (s : String) : List String := splitLinesGo [] s.data

/-- Python `(chr(10)).join(lines)`. -/
def joinLines : List String → String
  | [] => ""
  | [l] => l
  | l :: ls => l ++ "\n" ++ joinLines ls

/-- Index of the first occurrence of `pat` in `s`, if any. -/
def findSubL : List Char → List Char → Option Nat
  | s, pat =>
    if startsWithL s pat then some 0
    else
      match s with
      | [] => none
      | _ :: t => (findSubL t pat).map (· + 1)

/-- Match the dollar-quoted-string regex `\$\$.*?\$\$` (re.DOTALL) at the
start of the list; the lazy middle ends at the earliest closing `$$`. -/
def matchDollar (cs : List Char) : Option (List Char) :=
  match eatL "$$".data cs with
  | none => none
  | some r1 =>
    match findSubL r1 "$$".data with
    | none => none
    | some i => some (r1.drop (i + 2))

/-- Match `CREATE\s+(OR\s+REPLACE\s+)?(FUNCTION|PROCEDURE)\s+.*?;`
(re.DOTALL, re.IGNORECASE) at the start of the list; the optional group is
taken when it matches in full, and the lazy tail ends at the earliest
semicolon. -/
def matchCreateFn (cs : List Char) : Option (List Char) :=
  match eatCI "CREATE".data cs with
  | none => none
  | some r1 =>
    match eatWS1 r1 with
    | none => none
    | some r2 =>
      let r4 :=
        match eatCI "OR".data r2 with
        | some rA =>
          match eatWS1 rA with
          | some rB =>
            match eatCI "REPLACE".data rB with
            | some rC =>
              match eatWS1 rC with
              | some rD => rD
              | none => r2
            | none => r2
          | none => r2
        | none => r2
      let r5 :=
        match eatCI "FUNCTION".data r4 with
        | some x => some x
        | none => eatCI "PROCEDURE".data r4
      match r5 with
      | none => none
      | some r6 =>
        match eatWS1 r6 with
        | none => none
        | some r7 =>
          match findSubL r7 [';'] with
          | none => none
          | some i => some (r7.drop (i + 1))

/-- Match the nested-CHECK regex `CHECK\s*\([^)]*\([^)]*\)[^)]*\)`
(re.IGNORECASE) at the start of the list.  The backtracking of the greedy
`[^)]*` parts only decides whether an inner `(` exists before the first `)`;
the consumed span is determined by the two earliest closing parentheses. -/
def matchNestedCheck (cs : List Char) : Option (List Char) :=
  match eatCI "CHECK".data cs with
  | none => none
  | some r1 =>
    let r2 := r1.drop (r1.takeWhile isPySpace).length
    match r2 with
    | c :: r3 =>
      if c = '(' then
        let u := r3.takeWhile (fun x => x ≠ ')')
        match r3.drop u.length with
        | c2 :: r5 =>
          if c2 = ')' ∧ u.contains '(' then
            let v := r5.takeWhile (fun x => x ≠ ')')
            match r5.drop v.length with
            | c3 :: r6 => if c3 = ')' then some r6 else none
            | [] => none
          else none
        | [] => none
      else none
    | [] => none

/-- Generic left-to-right non-overlapping deletion scan used by
`_remove_multiline_statements` (all three substitutions replace the match
with the empty string). -/
def subScanGo (m : List Char → Option (List Char)) : Nat → List Char → List Char
  | _, [] => []
  | 0, l => l
  | fuel + 1, c :: cs =>
    match m (c :: cs) with
    | some rest => subScanGo m fuel rest
    | none => c :: subScanGo m fuel cs

/-- `_remove_multiline_statements`: dollar-quoted strings, CREATE
FUNCTION/PROCEDURE statements, nested CHECK constraints, in source order. -/
def removeMultilineStatements (s : String) : String :=
  let s1 := subScanGo matchDollar s.data.length s.data
  let s2 := subScanGo matchCreateFn s1.length s1
  let s3 := subScanGo matchNestedCheck s2.length s2
  String.mk s3

/-- `clean_dump`: split on newlines, drop removed lines, clean each kept
line, rejoin, then strip multi-line statements. -/
def cleanDump (sql_content : String) : String :=
  let lines := splitLines sql_content
  let cleaned_lines := (lines.filter (fun l => !(shouldRemoveLine l))).map cleanLine
  removeMultilineStatements (joinLines cleaned_lines)

end SQLCleaner

/-! ## SQLParser (src/parser/sql_parser.py) -/

/-- Python `str.rstrip(c)` for a one-character strip set. -/
def pyRStripChar (s : String) (c : Char) : String :=
  String.mk ((s.data.reverse.dropWhile (· = c)).reverse)

/-- Python `str.lstrip(c)` for a one-character strip set. -/
def pyLStripChar (s : String) (c : Char) : String :=
  String.mk (s.data.dropWhile (· = c))

/-- Python `str.endswith`. -/
def pyEndsWith (s pat : String) : Bool := endsWithL s.data pat.data

/-- Python `str.split(sep)` for a one-character separator. -/
def pySplitCharGo (sep : Char) : List Char → List Char → List String
  | acc, [] => [String.mk acc.reverse]
  | acc, c :: cs =>
    if c = sep then String.mk acc.reverse :: pySplitCharGo sep [] cs
    else pySplitCharGo sep (c :: acc) cs

def pySplitChar (s : String) (sep : Char) : List String :=
  pySplitCharGo sep [] s.data

/-- Python `str.split()` (split on whitespace runs, no empty parts). -/
def pySplitWSGo : Nat → List Char → List String
  | _, [] => []
  | 0, _ => []
  | fuel + 1, cs =>
    let cs1 := cs.dropWhile isPySpace
    match cs1 with
    | [] => []
    | _ :: _ =>
      let w := cs1.takeWhile (fun c => !(isPySpace c))
      String.mk w :: pySplitWSGo fuel (cs1.drop w.length)

def pySplitWS (s : String) : List String := pySplitWSGo s.data.length s.data

/-- Python `str.split(None, 1)`: strip leading whitespace, first token, rest
with its leading whitespace removed; fewer than two parts if absent. -/
def pySplit1 (s : String) : List String :=
  let cs := s.data.dropWhile isPySpace
  match cs with
  | [] => []
  | _ :: _ =>
    let w := cs.takeWhile (fun c => !(isPySpace c))
    let rest := (cs.drop w.length).dropWhile isPySpace
    match rest with
    | [] => [String.mk w]
    | _ :: _ => [String.mk w, String.mk rest]

namespace SQLParse

/-- Match the regex `CREATE\s+TABLE\s+[^;]+;` (re.IGNORECASE, re.DOTALL) at
the start of the list, returning the matched text and the rest.  The
backtracking between `\s+` and `[^;]+` reduces to: one whitespace character,
then at least one further character before the first semicolon. -/
def matchCreateTableStmt (cs : List Char) : Option (List Char × List Char) :=
  match eatCI "CREATE".data cs with
  | none => none
  | some r1 =>
    match eatWS1 r1 with
    | none => none
    | some r2 =>
      match eatCI "TABLE".data r2 with
      | none => none
      | some r3 =>
        match r3 with
        | c :: r4 =>
          if isPySpace c then
            let body := r4.takeWhile (fun x => x ≠ ';')
            if body.isEmpty then none
            else
              match r4.drop body.length with
              | d :: rest =>
                if d = ';' then some (cs.take (cs.length - rest.length), rest)
                else none
              | [] => none
          else none
        | [] => none

/-- `re.finditer` of the CREATE TABLE pattern over the whole content. -/
def findCreateTablesGo : Nat → List Char → List String
  | _, [] => []
  | 0, _ => []
  | fuel + 1, c :: cs =>
    match matchCreateTableStmt (c :: cs) with
    | some (m, rest) => String.mk m :: findCreateTablesGo fuel rest
    | none => findCreateTablesGo fuel cs

def findCreateTableStatements (content : String) : List String :=
  findCreateTablesGo content.data.length content.data

/-- Lex the quoted-identifier alternative `"(?:[^"]|"")*"`, returning the
matched text (quotes included) and the rest. -/
def lexQuotedIdentGo : Nat → List Char → Option (List Char × List Char)
  | _, [] => none
  | 0, _ => none
  | fuel + 1, c :: cs =>
    if c = '"' then
      match cs with
      | '"' :: cs2 =>
        match lexQuotedIdentGo fuel cs2 with
        | some (inner, rest) => some ('"' :: '"' :: inner, rest)
        | none => none
      | _ => some (['"'], cs)
    else
      match lexQuotedIdentGo fuel cs with
      | some (inner, rest) => some (c :: inner, rest)
      | none => none

/-- The identifier alternative `("(?:[^"]|"")*"|[\w.]+)` of the table-name
regex: a quoted identifier, or a nonempty run of word characters and dots.
Returns the matched group text and the rest. -/
def lexTableNameGroup (cs : List Char) : Option (List Char × List Char) :=
  match cs with
  | '"' :: r =>
    match lexQuotedIdentGo r.length r with
    | some (inner, rest) => some ('"' :: inner, rest)
    | none => none
  | _ =>
    let w := cs.takeWhile (fun c => isWordB c || c = '.')
    if w.isEmpty then none else some (w, cs.drop w.length)

/-- Match
`CREATE\s+TABLE\s+(?:IF\s+NOT\s+EXISTS\s+)?("(?:[^"]|"")*"|[\w.]+)` at the
start of the list, returning group 1.  When the optional IF NOT EXISTS part
matches but no name follows, the regex backtracks and the name group
matches `IF` itself. -/
def matchTableNameAt (cs : List Char) : Option (List Char) :=
  match eatCI "CREATE".data cs with
  | none => none
  | some r1 =>
    match eatWS1 r1 with
    | none => none
    | some r2 =>
      match eatCI "TABLE".data r2 with
      | none => none
      | some r3 =>
        match eatWS1 r3 with
        | none => none
        | some r4 =>
          let r5opt :=
            match eatCI "IF".data r4 with
            | some rA =>
              match eatWS1 rA with
              | some rB =>
                match eatCI "NOT".data rB with
                | some rC =>
                  match eatWS1 rC with
                  | some rD =>
                    match eatCI "EXISTS".data rD with
                    | some rE => eatWS1 rE
                    | none => none
                  | none => none
                | none => none
              | none => none
            | none => none
          match r5opt with
          | some r5 =>
            match lexTableNameGroup r5 with
            | some (g, _) => some g
            | none =>
              match lexTableNameGroup r4 with
              | some (g, _) => some g
              | none => none
          | none =>
            match lexTableNameGroup r4 with
            | some (g, _) => some g
            | none => none

/-- `re.search` scan for the table-name pattern. -/
def searchTableNameGo : Nat → List Char → Option (List Char)
  | _, [] => none
  | 0, _ => none
  | fuel + 1, c :: cs =>
    match matchTableNameAt (c :: cs) with
    | some g => some g
    | none => searchTableNameGo fuel cs

/-- `_extract_table_name`. -/
def extractTableName (statement : String) : Option String :=
  match searchTableNameGo statement.data.length statement.data with
  | none => none
  | some raw =>
    let tn := String.mk raw
    let tn1 :=
      if pyStartsWith tn "\"" && pyEndsWith tn "\"" && tn.length ≥ 2 then
        replaceAll (String.mk (raw.drop 1).dropLast) "\"\"" "\""
      else tn
    let tn2 :=
      if containsSub tn1 "." && !(pyStartsWith tn1 "\"") then
        (pySplitChar tn1 '.').getLastD tn1
      else tn1
    some tn2

/-- The lazy middle of
`CREATE\s+TABLE\s+[^(]+\((.*?)\)\s*(?:WITH|TABLESPACE|;|$)`: scan for the
earliest closing parenthesis followed by optional whitespace and one of the
terminators. -/
def findColsCloseGo : Nat → List Char → List Char → Option (List Char)
  | _, _, [] => none
  | 0, _, _ => none
  | fuel + 1, acc, c :: cs =>
    if c = ')' then
      let after := cs.dropWhile isPySpace
      if startsWithCI after "WITH".data || startsWithCI after "TABLESPACE".data ||
          startsWithL after [';'] || after.isEmpty then
        some acc.reverse
      else findColsCloseGo fuel (c :: acc) cs
    else findColsCloseGo fuel (c :: acc) cs

/-- Match the columns-section pattern at the start of the list, returning
group 1 (the text between the table-body parentheses). -/
def matchColumnsSectionAt (cs : List Char) : Option (List Char) :=
  match eatCI "CREATE".data cs with
  | none => none
  | some r1 =>
    match eatWS1 r1 with
    | none => none
    | some r2 =>
      match eatCI "TABLE".data r2 with
      | none => none
      | some r3 =>
        match r3 with
        | c :: r4 =>
          if isPySpace c then
            let pre := r4.takeWhile (fun x => x ≠ '(')
            if pre.isEmpty then none
            else
              match r4.drop pre.length with
              | d :: body =>
                if d = '(' then findColsCloseGo body.length [] body
                else none
              | [] => none
          else none
        | [] => none

def searchColumnsSectionGo : Nat → List Char → Option (List Char)
  | _, [] => none
  | 0, _ => none
  | fuel + 1, c :: cs =>
    match matchColumnsSectionAt (c :: cs) with
    | some g => some g
    | none => searchColumnsSectionGo fuel cs

/-- The parenthesized column-definition section of a CREATE TABLE
statement, as extracted by `_extract_columns` and
`_extract_table_constraints`. -/
def extractColumnsSection (statement : String) : Option String :=
  match searchColumnsSectionGo statement.data.length statement.data with
  | none => none
  | some g => some (String.mk g)

/-- `_split_column_definitions_simple`: split on commas at parenthesis
depth zero (the depth counter may go negative, as in the source). -/
def splitSimpleGo : List Char → Int → List Char → List String
  | acc, _, [] =>
    if pyStrip (String.mk acc.reverse) ≠ "" then [String.mk acc.reverse] else []
  | acc, depth, c :: cs =>
    if c = '(' then splitSimpleGo (c :: acc) (depth + 1) cs
    else if c = ')' then splitSimpleGo (c :: acc) (depth - 1) cs
    else if c = ',' ∧ depth = 0 then
      String.mk acc.reverse :: splitSimpleGo [] depth cs
    else splitSimpleGo (c :: acc) depth cs

def splitColumnDefinitionsSimple (sec : String) : List String :=
  splitSimpleGo [] 0 sec.data

/-- Python `$` (no re.MULTILINE): end of string or just before a final
newline. -/
def atDollar (cs : List Char) : Bool := cs.isEmpty || cs = ['\n']

/-- The lookahead
`(?=,\s*(?:CONSTRAINT|\w+\s+\w+|$)|\s*$)` of the constraint-fragment
pattern of `_split_column_definitions`. -/
def constraintLookahead (cs : List Char) : Bool :=
  (match cs with
   | c :: r =>
     if c = ',' then
       let r2 := r.dropWhile isPySpace
       startsWithCI r2 "CONSTRAINT".data ||
       (let w1 := r2.takeWhile isWordB
        if w1.isEmpty then false
        else
          let r3 := r2.drop w1.length
          let ws := r3.takeWhile isPySpace
          if ws.isEmpty then false
          else !((r3.drop ws.length).takeWhile isWordB).isEmpty) ||
       atDollar r2
     else false
   | [] => false) ||
  (cs.dropWhile isPySpace).isEmpty

/-- Advance the lazy `.*?` until the lookahead holds. -/
def lazyUntilLookahead : Nat → List Char → Option (List Char)
  | 0, l => if constraintLookahead l then some l else none
  | fuel + 1, l =>
    if constraintLookahead l then some l
    else
      match l with
      | [] => none
      | _ :: t => lazyUntilLookahead fuel t

/-- Match the constraint-fragment pattern
`CONSTRAINT\s+\w+\s+(?:(?:FOREIGN\s+KEY|PRIMARY\s+KEY|UNIQUE|CHECK).*?)(?=...)`
at the start of the list, returning the matched text and the rest. -/
def matchConstraintFrag (cs : List Char) : Option (List Char × List Char) :=
  match eatCI "CONSTRAINT".data cs with
  | none => none
  | some r1 =>
    match eatWS1 r1 with
    | none => none
    | some r2 =>
      let w := r2.takeWhile isWordB
      if w.isEmpty then none
      else
        match eatWS1 (r2.drop w.length) with
        | none => none
        | some r3 =>
          let hFK :=
            match eatCI "FOREIGN".data r3 with
            | some rA =>
              match eatWS1 rA with
              | some rB => eatCI "KEY".data rB
              | none => none
            | none => none
          let hPK :=
            match hFK with
            | some x => some x
            | none =>
              match eatCI "PRIMARY".data r3 with
              | some rA =>
                match eatWS1 rA with
                | some rB => eatCI "KEY".data rB
                | none => none
              | none => none
          let hAny :=
            match hPK with
            | some x => some x
            | none =>
              match eatCI "UNIQUE".data r3 with
              | some x => some x
              | none => eatCI "CHECK".data r3
          match hAny with
          | none => none
          | some r4 =>
            match lazyUntilLookahead r4.length r4 with
            | none => none
            | some rest => some (cs.take (cs.length - rest.length), rest)

/-- Scan for the first constraint fragment, returning the text before it,
the fragment and the rest. -/
def findConstraintFragGo : Nat → List Char → List Char →
    Option (List Char × List Char × List Char)
  | _, _, [] => none
  | 0, _, _ => none
  | fuel + 1, accRev, c :: cs =>
    match matchConstraintFrag (c :: cs) with
    | some (m, rest) => some (accRev.reverse, m, rest)
    | none => findConstraintFragGo fuel (c :: accRev) cs

/-- The with-constraints branch of `_split_column_definitions`: text before
each fragment and after the last one is simple-split, stripped and filtered;
each fragment is appended stripped. -/
def splitWithConstraintsGo : Nat → List Char → List String
  | 0, cs =>
    let remaining := pyStrip (String.mk cs)
    if remaining ≠ "" then
      ((splitColumnDefinitionsSimple (pyLStripChar remaining ',')).map
        pyStrip).filter (fun p => p ≠ "")
    else []
  | fuel + 1, cs =>
    match findConstraintFragGo cs.length [] cs with
    | none =>
      let remaining := pyStrip (String.mk cs)
      if remaining ≠ "" then
        ((splitColumnDefinitionsSimple (pyLStripChar remaining ',')).map
          pyStrip).filter (fun p => p ≠ "")
      else []
    | some (before, m, rest) =>
      let beforeParts :=
        let b := pyStrip (String.mk before)
        if b ≠ "" then
          ((splitColumnDefinitionsSimple (pyRStripChar b ',')).map
            pyStrip).filter (fun p => p ≠ "")
        else []
      beforeParts ++ [pyStrip (String.mk m)] ++ splitWithConstraintsGo fuel rest

/-- `_split_column_definitions`. -/
def splitColumnDefinitions (sec : String) : List String :=
  match findConstraintFragGo sec.data.length [] sec.data with
  | none => splitColumnDefinitionsSimple sec
  | some _ => splitWithConstraintsGo sec.data.length sec.data

/-- The multi-line branch of `_parse_column_definition`: the first line that
is nonempty, not a comment, not a constraint and has no WITH clause. -/
def findColumnLine : List String → Option String
  | [] => none
  | l :: ls =>
    let ls1 := pyStrip l
    if ls1 ≠ "" && !(pyStartsWith ls1 "--") && !(pyStartsWith ls1 "/*") &&
        !(pyStartsWith (strUpper ls1) "CONSTRAINT" ||
          pyStartsWith (strUpper ls1) "PRIMARY KEY" ||
          pyStartsWith (strUpper ls1) "FOREIGN KEY" ||
          pyStartsWith (strUpper ls1) "UNIQUE" ||
          pyStartsWith (strUpper ls1) "CHECK" ||
          pyStartsWith (strUpper ls1) "EXCLUDE") &&
        !(containsSub (strUpper ls1) " WITH ") then
      some ls1
    else findColumnLine ls

/-- All splits of `t` at an opening parenthesis, leftmost first. -/
def parenSplitsGo : List Char → List Char → List (List Char × List Char)
  | _, [] => []
  | accRev, c :: cs =>
    if c = '(' then (accRev.reverse, cs) :: parenSplitsGo (c :: accRev) cs
    else parenSplitsGo (c :: accRev) cs

/-- Try one backtracking position of the optional `(?:\([^)]*\))?` of the
DEFAULT-value pattern. -/
def defaultViableAt (t1 t2 rest : List Char) : Option (List Char) :=
  let inner := (t2 ++ rest).takeWhile (fun c => c ≠ ')')
  match (t2 ++ rest).drop inner.length with
  | c :: _ => if c = ')' then some (t1 ++ '(' :: (inner ++ [')'])) else none
  | [] => none

def firstViableDefault : List (List Char × List Char) → List Char →
    Option (List Char)
  | [], _ => none
  | (t1, t2) :: more, rest =>
    match defaultViableAt t1 t2 rest with
    | some g => some g
    | none => firstViableDefault more rest

/-- Match `DEFAULT\s+([^,\s]+(?:\([^)]*\))?)` at the start of the list.
The greedy token backtracks right-to-left to the last opening parenthesis
that has a later closing one. -/
def matchDefaultAt (cs : List Char) : Option String :=
  match eatCI "DEFAULT".data cs with
  | none => none
  | some r1 =>
    match eatWS1 r1 with
    | none => none
    | some r2 =>
      let t := r2.takeWhile (fun c => !(c = ',' || isPySpace c))
      if t.isEmpty then none
      else
        let rest := r2.drop t.length
        match firstViableDefault (parenSplitsGo [] t).reverse rest with
        | some g => some (String.mk g)
        | none => some (String.mk t)

def searchDefaultGo : Nat → List Char → Option String
  | _, [] => none
  | 0, _ => none
  | fuel + 1, c :: cs =>
    match matchDefaultAt (c :: cs) with
    | some g => some g
    | none => searchDefaultGo fuel cs

/-- Match `(\w+)\(([^)]+)\)` at the start of a data-type token
(`re.match` inside `_parse_column_definition`). -/
def matchColTypeParams (cs : List Char) : Option (List Char × List Char) :=
  let w := cs.takeWhile isWordB
  if w.isEmpty then none
  else
    match cs.drop w.length with
    | c :: r =>
      if c = '(' then
        let p := r.takeWhile (fun x => x ≠ ')')
        if p.isEmpty then none
        else
          match r.drop p.length with
          | d :: _ => if d = ')' then some (w, p) else none
          | [] => none
      else none
    | [] => none

/-- `_parse_column_definition`. -/
def parseColumnDefinition (column_def0 : String) : Option Column :=
  let cd1 := pyStrip column_def0
  let cdOpt :=
    if containsSub cd1 "\n" then findColumnLine (pySplitChar cd1 '\n')
    else some cd1
  match cdOpt with
  | none => none
  | some column_def =>
    if column_def = "" || pyStartsWith column_def "--" ||
        pyStartsWith column_def "/*" then none
    else if containsSub (strUpper column_def) "FOR VALUES" ||
        containsSub (strUpper column_def) "VALUES FROM" ||
        containsSub (strUpper column_def) "VALUES IN" ||
        containsSub (strUpper column_def) "TO (" then none
    else
      let nameRem :=
        if pyStartsWith column_def "\"" then
          let afterQuote := column_def.data.drop 1
          let inner := afterQuote.takeWhile (fun c => c ≠ '"')
          match afterQuote.drop inner.length with
          | _ :: after => some (String.mk inner, pyStrip (String.mk after))
          | [] => none
        else
          match pySplit1 column_def with
          | [n, r] => some (n, r)
          | _ => none
      match nameRem with
      | none => none
      | some (column_name, remaining) =>
        match pySplitWS remaining with
        | [] => none
        | dt0 :: _ =>
          let data_type :=
            if containsSub dt0 "(" && containsSub dt0 ")" then
              match matchColTypeParams dt0.data with
              | some (bt, ps) =>
                String.mk bt ++ "(" ++ String.mk ps ++ ")"
              | none => dt0
            else dt0
          let cdu := strUpper column_def
          let notNull := containsSub cdu "NOT NULL"
          let pk := containsSub cdu "PRIMARY KEY"
          let uq := containsSub cdu "UNIQUE"
          let constraints :=
            (if notNull then ["NOT NULL"] else []) ++
            (if pk then ["PRIMARY KEY"] else []) ++
            (if uq then ["UNIQUE"] else [])
          let default_value := searchDefaultGo column_def.data.length column_def.data
          some { column_name := column_name, data_type := data_type,
                 is_nullable := !notNull, default_value := default_value,
                 constraints := constraints,
                 original_definition := pyStrip column_def }

/-- `[col.strip().strip(q)] for col in group.split(,)`. -/
def splitColsList (g : String) : List String :=
  (pySplitChar g ',').map (fun c => pyStripChar (pyStrip c) '"')

/-- Match `KW1\s+KW2\s*\(([^)]+)\)` (the PRIMARY KEY / UNIQUE column-list
patterns; for UNIQUE the second keyword is empty). -/
def matchColsAt (kw1 kw2 : String) (cs : List Char) : Option String :=
  match eatCI kw1.data cs with
  | none => none
  | some r1 =>
    let r2opt :=
      if kw2 = "" then some r1
      else
        match eatWS1 r1 with
        | none => none
        | some rA => eatCI kw2.data rA
    match r2opt with
    | none => none
    | some r2 =>
      let r3 := r2.dropWhile isPySpace
      match r3 with
      | c :: r4 =>
        if c = '(' then
          let p := r4.takeWhile (fun x => x ≠ ')')
          if p.isEmpty then none
          else
            match r4.drop p.length with
            | d :: _ => if d = ')' then some (String.mk p) else none
            | [] => none
        else none
      | [] => none

def searchColsGo (kw1 kw2 : String) : Nat → List Char → Option String
  | _, [] => none
  | 0, _ => none
  | fuel + 1, c :: cs =>
    match matchColsAt kw1 kw2 (c :: cs) with
    | some g => some g
    | none => searchColsGo kw1 kw2 fuel cs

/-- Match the ON DELETE / ON UPDATE action pattern
`ON\s+KW\s+(CASCADE|RESTRICT|SET\s+NULL|SET\s+DEFAULT|NO\s+ACTION)` at the
start of the list, returning group 1 as matched. -/
def matchActionAt (kw : String) (cs : List Char) : Option String :=
  match eatCI "ON".data cs with
  | none => none
  | some r1 =>
    match eatWS1 r1 with
    | none => none
    | some r2 =>
      match eatCI kw.data r2 with
      | none => none
      | some r3 =>
        match eatWS1 r3 with
        | none => none
        | some r4 =>
          let alt1 :=
            match eatCI "CASCADE".data r4 with
            | some rest => some rest
            | none =>
              match eatCI "RESTRICT".data r4 with
              | some rest => some rest
              | none =>
                match eatCI "SET".data r4 with
                | some rA =>
                  match eatWS1 rA with
                  | some rB =>
                    match eatCI "NULL".data rB with
                    | some rest => some rest
                    | none => eatCI "DEFAULT".data rB
                  | none => none
                | none => none
          let alt2 :=
            match alt1 with
            | some rest => some rest
            | none =>
              match eatCI "NO".data r4 with
              | some rA =>
                match eatWS1 rA with
                | some rB => eatCI "ACTION".data rB
                | none => none
              | none => none
          match alt2 with
          | none => none
          | some rest => some (String.mk (r4.take (r4.length - rest.length)))

def searchActionGo (kw : String) : Nat → List Char → Option String
  | _, [] => none
  | 0, _ => none
  | fuel + 1, c :: cs =>
    match matchActionAt kw (c :: cs) with
    | some g => some g
    | none => searchActionGo kw fuel cs

/-- The class `["\w.]+` used for referenced-table names. -/
def isRefNameChar (c : Char) : Bool := isWordB c || c = '.' || c = '"'

/-- Match the FOREIGN KEY pattern
`FOREIGN\s+KEY\s*\(([^)]+)\)\s+REFERENCES\s+(["\w.]+)\s*\(([^)]+)\)` at the
start of the list, returning the three groups. -/
def matchFKAt (cs : List Char) : Option (String × String × String) :=
  match eatCI "FOREIGN".data cs with
  | none => none
  | some r1 =>
    match eatWS1 r1 with
    | none => none
    | some r2 =>
      match eatCI "KEY".data r2 with
      | none => none
      | some r3 =>
        let r4 := r3.dropWhile isPySpace
        match r4 with
        | c :: r5 =>
          if c = '(' then
            let g1 := r5.takeWhile (fun x => x ≠ ')')
            if g1.isEmpty then none
            else
              match r5.drop g1.length with
              | d :: r6 =>
                if d = ')' then
                  match eatWS1 r6 with
                  | none => none
                  | some r7 =>
                    match eatCI "REFERENCES".data r7 with
                    | none => none
                    | some r8 =>
                      match eatWS1 r8 with
                      | none => none
                      | some r9 =>
                        let g2 := r9.takeWhile isRefNameChar
                        if g2.isEmpty then none
                        else
                          let r10 := (r9.drop g2.length).dropWhile isPySpace
                          match r10 with
                          | e :: r11 =>
                            if e = '(' then
                              let g3 := r11.takeWhile (fun x => x ≠ ')')
                              if g3.isEmpty then none
                              else
                                match r11.drop g3.length with
                                | f :: _ =>
                                  if f = ')' then
                                    some (String.mk g1, String.mk g2,
                                      String.mk g3)
                                  else none
                                | [] => none
                            else none
                          | [] => none
                else none
              | [] => none
          else none
        | [] => none

def searchFKGo : Nat → List Char → Option (String × String × String)
  | _, [] => none
  | 0, _ => none
  | fuel + 1, c :: cs =>
    match matchFKAt (c :: cs) with
    | some g => some g
    | none => searchFKGo fuel cs

/-- `_parse_foreign_key_constraint`: returns the constraint record and the
registered relationship. -/
def parseForeignKeyConstraint (constraint_body table_name : String)
    (constraint_name : Option String) :
    Option (Constraint × Relationship) :=
  match searchFKGo constraint_body.data.length constraint_body.data with
  | none => none
  | some (g1, g2, g3) =>
    let source_columns := splitColsList g1
    let tt0 := pyStripChar g2 '"'
    let target_table :=
      if containsSub tt0 "." then (pySplitChar tt0 '.').getLastD tt0 else tt0
    let target_columns := splitColsList g3
    let on_delete_action :=
      (searchActionGo "DELETE" constraint_body.data.length
        constraint_body.data).map strUpper
    let on_update_action :=
      (searchActionGo "UPDATE" constraint_body.data.length
        constraint_body.data).map strUpper
    some
      ({ constraint_name := constraint_name, constraint_type := "f",
         table_name := some table_name, columns := source_columns,
         referenced_table := some target_table,
         referenced_columns := target_columns,
         on_delete_action := on_delete_action,
         on_update_action := on_update_action,
         definition := constraint_body },
       { source_table := table_name, source_columns := source_columns,
         target_table := target_table, target_columns := target_columns,
         relationship_type := "many-to-one",
         on_delete_action := on_delete_action,
         on_update_action := on_update_action,
         constraint_name := constraint_name })

/-- `_parse_constraint_body`: classify a constraint body; FOREIGN KEY
bodies also yield a relationship. -/
def parseConstraintBody (constraint_body0 table_name : String)
    (constraint_name : Option String) :
    Option (Constraint × Option Relationship) :=
  let constraint_body := pyStrip constraint_body0
  let cu := strUpper constraint_body
  if pyStartsWith cu "PRIMARY KEY" then
    let columns :=
      match searchColsGo "PRIMARY" "KEY" constraint_body.data.length
          constraint_body.data with
      | some g => splitColsList g
      | none => []
    some ({ constraint_name := constraint_name, constraint_type := "p",
            table_name := some table_name, columns := columns,
            definition := constraint_body }, none)
  else if pyStartsWith cu "FOREIGN KEY" then
    match parseForeignKeyConstraint constraint_body table_name
        constraint_name with
    | some (c, r) => some (c, some r)
    | none => none
  else if pyStartsWith cu "UNIQUE" then
    let columns :=
      match searchColsGo "UNIQUE" "" constraint_body.data.length
          constraint_body.data with
      | some g => splitColsList g
      | none => []
    some ({ constraint_name := constraint_name, constraint_type := "u",
            table_name := some table_name, columns := columns,
            definition := constraint_body }, none)
  else if pyStartsWith cu "CHECK" then
    some ({ constraint_name := constraint_name, constraint_type := "c",
            table_name := some table_name,
            check_expression := some constraint_body,
            definition := constraint_body }, none)
  else none

/-- `_parse_table_constraint`: `re.match` of
`CONSTRAINT\s+(["\w]+)\s+(.*)` then the body parser. -/
def parseTableConstraint (constraint_def0 table_name : String) :
    Option (Constraint × Option Relationship) :=
  let constraint_def := pyStrip constraint_def0
  match eatCI "CONSTRAINT".data constraint_def.data with
  | none => none
  | some r1 =>
    match eatWS1 r1 with
    | none => none
    | some r2 =>
      let nm := r2.takeWhile (fun c => isWordB c || c = '"')
      if nm.isEmpty then none
      else
        match eatWS1 (r2.drop nm.length) with
        | none => none
        | some body =>
          parseConstraintBody (pyStrip (String.mk body)) table_name
            (some (pyStripChar (String.mk nm) '"'))

/-- `_parse_inline_constraint`. -/
def parseInlineConstraint (constraint_def table_name : String) :
    Option (Constraint × Option Relationship) :=
  parseConstraintBody constraint_def table_name none

/-- `_extract_table_constraints`: also collects the relationships the FK
branch registers. -/
def extractTableConstraints (statement table_name : String) :
    List Constraint × List Relationship :=
  match extractColumnsSection statement with
  | none => ([], [])
  | some sec =>
    (splitColumnDefinitions sec).foldl
      (fun acc part0 =>
        let part := pyStrip part0
        let pu := strUpper part
        let parsed :=
          if pyStartsWith pu "CONSTRAINT" then
            parseTableConstraint part table_name
          else if pyStartsWith pu "PRIMARY KEY" || pyStartsWith pu "FOREIGN KEY" ||
              pyStartsWith pu "UNIQUE" || pyStartsWith pu "CHECK" then
            parseInlineConstraint part table_name
          else none
        match parsed with
        | some (c, some r) => (acc.1 ++ [c], acc.2 ++ [r])
        | some (c, none) => (acc.1 ++ [c], acc.2)
        | none => acc)
      ([], [])

/-- `_extract_columns`. -/
def extractColumns (statement : String) : List Column :=
  match extractColumnsSection statement with
  | none => []
  | some sec =>
    (splitColumnDefinitions sec).foldl
      (fun acc part0 =>
        let part := pyStrip part0
        if part = "" then acc
        else if pyStartsWith (strUpper part) "CONSTRAINT" ||
            pyStartsWith (strUpper part) "PRIMARY KEY" ||
            pyStartsWith (strUpper part) "FOREIGN KEY" ||
            pyStartsWith (strUpper part) "UNIQUE" ||
            pyStartsWith (strUpper part) "CHECK" ||
            pyStartsWith (strUpper part) "EXCLUDE" then acc
        else
          match parseColumnDefinition part with
          | some ci => acc ++ [ci]
          | none => acc)
      []

/-- `_parse_create_table`: the FK relationships of the constraint pass are
registered even when the table itself is a rejected duplicate. -/
def parseCreateTable (stmt : String) (st : Schema) : Schema :=
  match extractTableName stmt with
  | none => st
  | some table_name =>
    let is_partition := containsSub (strUpper stmt) "PARTITION OF"
    let is_inheritance := containsSub (strUpper stmt) "INHERITS"
    let columns :=
      if is_partition then []
      else if is_inheritance then extractColumns stmt
      else extractColumns stmt
    let (tcs, rels) := extractTableConstraints stmt table_name
    let st1 := { st with relationships := st.relationships ++ rels }
    if (st.tables.map (fun t => t.table_name)).contains table_name then st1
    else
      { st1 with tables := st1.tables ++
          [{ table_name := table_name, columns := columns, constraints := tcs,
             original_statement := stmt }] }

/-- Match `ALTER\s+TABLE\s+(?:ONLY\s+)?(["\w.]+)` at the start of the
list; if the optional ONLY matches but no name follows, the name group
falls back to `ONLY` itself. -/
def matchAlterNameAt (cs : List Char) : Option String :=
  match eatCI "ALTER".data cs with
  | none => none
  | some r1 =>
    match eatWS1 r1 with
    | none => none
    | some r2 =>
      match eatCI "TABLE".data r2 with
      | none => none
      | some r3 =>
        match eatWS1 r3 with
        | none => none
        | some r4 =>
          let nameAt := fun (r : List Char) =>
            let g := r.takeWhile isRefNameChar
            if g.isEmpty then none else some (String.mk g)
          let withOnly :=
            match eatCI "ONLY".data r4 with
            | some rA =>
              match eatWS1 rA with
              | some rB => nameAt rB
              | none => none
            | none => none
          match withOnly with
          | some g => some g
          | none => nameAt r4

def searchAlterNameGo : Nat → List Char → Option String
  | _, [] => none
  | 0, _ => none
  | fuel + 1, c :: cs =>
    match matchAlterNameAt (c :: cs) with
    | some g => some g
    | none => searchAlterNameGo fuel cs

/-- Earliest split point of the lazy `(.*?)(?:;|\s*$)` tail of the
ADD CONSTRAINT pattern. -/
def lazyUntilSemiOrEnd : Nat → List Char → List Char → Option String
  | 0, accRev, l =>
    if startsWithL l [';'] || (l.dropWhile isPySpace).isEmpty then
      some (String.mk accRev.reverse)
    else none
  | fuel + 1, accRev, l =>
    if startsWithL l [';'] || (l.dropWhile isPySpace).isEmpty then
      some (String.mk accRev.reverse)
    else
      match l with
      | [] => none
      | c :: t => lazyUntilSemiOrEnd fuel (c :: accRev) t

/-- Match `ADD\s+CONSTRAINT\s+(["\w]+)\s+(.*?)(?:;|\s*$)` at the start of
the list, returning the name and body groups. -/
def matchAddConstraintAt (cs : List Char) : Option (String × String) :=
  match eatCI "ADD".data cs with
  | none => none
  | some r1 =>
    match eatWS1 r1 with
    | none => none
    | some r2 =>
      match eatCI "CONSTRAINT".data r2 with
      | none => none
      | some r3 =>
        match eatWS1 r3 with
        | none => none
        | some r4 =>
          let nm := r4.takeWhile (fun c => isWordB c || c = '"')
          if nm.isEmpty then none
          else
            match eatWS1 (r4.drop nm.length) with
            | none => none
            | some r5 =>
              match lazyUntilSemiOrEnd r5.length [] r5 with
              | none => none
              | some body => some (String.mk nm, body)

def searchAddConstraintGo : Nat → List Char → Option (String × String)
  | _, [] => none
  | 0, _ => none
  | fuel + 1, c :: cs =>
    match matchAddConstraintAt (c :: cs) with
    | some g => some g
    | none => searchAddConstraintGo fuel cs

/-- Match `ADD\s+COLUMN\s+([^,;]+)` at the start of the list. -/
def matchAddColumnAt (cs : List Char) : Option String :=
  match eatCI "ADD".data cs with
  | none => none
  | some r1 =>
    match eatWS1 r1 with
    | none => none
    | some r2 =>
      match eatCI "COLUMN".data r2 with
      | none => none
      | some r3 =>
        match eatWS1 r3 with
        | none => none
        | some r4 =>
          let g := r4.takeWhile (fun c => !(c = ',' || c = ';'))
          if g.isEmpty then none else some (String.mk g)

def searchAddColumnGo : Nat → List Char → Option String
  | _, [] => none
  | 0, _ => none
  | fuel + 1, c :: cs =>
    match matchAddColumnAt (c :: cs) with
    | some g => some g
    | none => searchAddColumnGo fuel cs

/-- Append a parsed column to the first table with the given name if the
column is not already present (`_parse_add_column` table loop). -/
def addColumnToTables (tn : String) (pc : Column) :
    List Table → List Table
  | [] => []
  | t :: ts =>
    if t.table_name = tn then
      if (t.columns.map (fun c => c.column_name)).contains pc.column_name then
        t :: ts
      else { t with columns := t.columns ++ [pc] } :: ts
    else t :: addColumnToTables tn pc ts

/-- `_parse_add_column`. -/
def parseAddColumn (stmt tn : String) (st : Schema) : Schema :=
  match searchAddColumnGo stmt.data.length stmt.data with
  | none => st
  | some g =>
    match parseColumnDefinition (pyStrip g) with
    | none => st
    | some pc => { st with tables := addColumnToTables tn pc st.tables }

/-- `_parse_add_constraint`. -/
def parseAddConstraint (stmt tn : String) (st : Schema) : Schema :=
  match searchAddConstraintGo stmt.data.length stmt.data with
  | none => st
  | some (nm, body) =>
    match parseConstraintBody body tn (some (pyStripChar nm '"')) with
    | none => st
    | some (c, some r) =>
      { st with constraints := st.constraints ++ [c],
                relationships := st.relationships ++ [r] }
    | some (c, none) => { st with constraints := st.constraints ++ [c] }

/-- `_parse_alter_table`. -/
def parseAlterTable (stmt : String) (st : Schema) : Schema :=
  match searchAlterNameGo stmt.data.length stmt.data with
  | none => st
  | some g =>
    let tn0 := pyStripChar g '"'
    let tn := if containsSub tn0 "." then (pySplitChar tn0 '.').getLastD tn0
      else tn0
    let st1 :=
      if containsSub (strUpper stmt) "ADD COLUMN" then parseAddColumn stmt tn st
      else st
    if containsSub (strUpper stmt) "ADD CONSTRAINT" then
      parseAddConstraint stmt tn st1
    else st1

/-- Match the CREATE INDEX pattern
`CREATE\s+(?:UNIQUE\s+)?INDEX\s+(?:CONCURRENTLY\s+)?(["\w]+)\s+ON\s+(["\w.]+)\s*(?:USING\s+(\w+)\s*)?\(([^)]+)\)`
at the start of the list. -/
def matchIndexTail (r : List Char) :
    Option (String × String × Option String × String) :=
  let nm := r.takeWhile (fun c => isWordB c || c = '"')
  if nm.isEmpty then none
  else
    match eatWS1 (r.drop nm.length) with
    | none => none
    | some r1 =>
      match eatCI "ON".data r1 with
      | none => none
      | some r2 =>
        match eatWS1 r2 with
        | none => none
        | some r3 =>
          let tb := r3.takeWhile isRefNameChar
          if tb.isEmpty then none
          else
            let r4 := (r3.drop tb.length).dropWhile isPySpace
            let afterUsing :=
              match eatCI "USING".data r4 with
              | some rA =>
                match eatWS1 rA with
                | some rB =>
                  let m := rB.takeWhile isWordB
                  if m.isEmpty then none
                  else some (String.mk m, (rB.drop m.length).dropWhile isPySpace)
                | none => none
              | none => none
            let contAt := fun (method : Option String) (rr : List Char) =>
              match rr with
              | c :: r5 =>
                if c = '(' then
                  let g := r5.takeWhile (fun x => x ≠ ')')
                  if g.isEmpty then none
                  else
                    match r5.drop g.length with
                    | d :: _ =>
                      if d = ')' then
                        some (String.mk nm, String.mk tb, method, String.mk g)
                      else none
                    | [] => none
                else none
              | [] => none
            match afterUsing with
            | some (m, rr) =>
              match contAt (some m) rr with
              | some res => some res
              | none => contAt none r4
            | none => contAt none r4

def matchIndexAt (cs : List Char) : Option (String × String × Option String × String) :=
  match eatCI "CREATE".data cs with
  | none => none
  | some r1 =>
    match eatWS1 r1 with
    | none => none
    | some r2 =>
      let afterUnique :=
        match eatCI "UNIQUE".data r2 with
        | some rA =>
          match eatWS1 rA with
          | some rB => some rB
          | none => none
        | none => none
      let r3opt :=
        match afterUnique with
        | some rB =>
          match eatCI "INDEX".data rB with
          | some x => some x
          | none => eatCI "INDEX".data r2
        | none => eatCI "INDEX".data r2
      match r3opt with
      | none => none
      | some r3 =>
        match eatWS1 r3 with
        | none => none
        | some r4 =>
          let withConc :=
            match eatCI "CONCURRENTLY".data r4 with
            | some rA =>
              match eatWS1 rA with
              | some rB => matchIndexTail rB
              | none => none
            | none => none
          match withConc with
          | some res => some res
          | none => matchIndexTail r4

def searchIndexGo : Nat → List Char → Option (String × String × Option String × String)
  | _, [] => none
  | 0, _ => none
  | fuel + 1, c :: cs =>
    match matchIndexAt (c :: cs) with
    | some g => some g
    | none => searchIndexGo fuel cs

/-- `_parse_create_index`. -/
def parseCreateIndex (stmt : String) (st : Schema) : Schema :=
  match searchIndexGo stmt.data.length stmt.data with
  | none => st
  | some (nm, tb, methodOpt, colsStr) =>
    let index_name := pyStripChar nm '"'
    let tn0 := pyStripChar tb '"'
    let table_name :=
      if containsSub tn0 "." then (pySplitChar tn0 '.').getLastD tn0 else tn0
    let columns := splitColsList colsStr
    let is_unique := containsSub (strUpper stmt) "UNIQUE"
    let index_method :=
      match methodOpt with
      | some m => strLower m
      | none => "btree"
    { st with indexes := st.indexes ++
        [{ index_name := index_name, table_name := table_name,
           columns := columns, is_unique := is_unique,
           index_method := index_method, definition := stmt }] }

/-- `re.findall` of the single-quoted-value pattern over the enum value
list. -/
def findQuotedValuesGo : Nat → List Char → List String
  | _, [] => []
  | 0, _ => []
  | fuel + 1, c :: cs =>
    if c = sqc then
      let inner := cs.takeWhile (fun x => x ≠ sqc)
      match cs.drop inner.length with
      | _ :: rest => String.mk inner :: findQuotedValuesGo fuel rest
      | [] => []
    else findQuotedValuesGo fuel cs

/-- Match `CREATE\s+TYPE\s+(["\w]+)\s+AS\s+ENUM\s*\(([^)]+)\)` at the start
of the list. -/
def matchEnumAt (cs : List Char) : Option (String × String) :=
  match eatCI "CREATE".data cs with
  | none => none
  | some r1 =>
    match eatWS1 r1 with
    | none => none
    | some r2 =>
      match eatCI "TYPE".data r2 with
      | none => none
      | some r3 =>
        match eatWS1 r3 with
        | none => none
        | some r4 =>
          let nm := r4.takeWhile (fun c => isWordB c || c = '"')
          if nm.isEmpty then none
          else
            match eatWS1 (r4.drop nm.length) with
            | none => none
            | some r5 =>
              match eatCI "AS".data r5 with
              | none => none
              | some r6 =>
                match eatWS1 r6 with
                | none => none
                | some r7 =>
                  match eatCI "ENUM".data r7 with
                  | none => none
                  | some r8 =>
                    let r9 := r8.dropWhile isPySpace
                    match r9 with
                    | c :: r10 =>
                      if c = '(' then
                        let g := r10.takeWhile (fun x => x ≠ ')')
                        if g.isEmpty then none
                        else
                          match r10.drop g.length with
                          | d :: _ =>
                            if d = ')' then some (String.mk nm, String.mk g)
                            else none
                          | [] => none
                      else none
                    | [] => none

def searchEnumGo : Nat → List Char → Option (String × String)
  | _, [] => none
  | 0, _ => none
  | fuel + 1, c :: cs =>
    match matchEnumAt (c :: cs) with
    | some g => some g
    | none => searchEnumGo fuel cs

/-- `_parse_create_enum`. -/
def parseCreateEnum (stmt : String) (st : Schema) : Schema :=
  match searchEnumGo stmt.data.length stmt.data with
  | none => st
  | some (nm, valuesStr) =>
    let enum_name := pyStripChar (pyStrip nm) '"'
    let values := findQuotedValuesGo valuesStr.data.length valuesStr.data
    if values ≠ [] then
      { st with enums := st.enums ++
          [{ enum_name := enum_name, values := values, definition := stmt }] }
    else st

/-- Match `CREATE\s+SEQUENCE\s+(["\w.]+)` at the start of the list. -/
def matchSequenceAt (cs : List Char) : Option String :=
  match eatCI "CREATE".data cs with
  | none => none
  | some r1 =>
    match eatWS1 r1 with
    | none => none
    | some r2 =>
      match eatCI "SEQUENCE".data r2 with
      | none => none
      | some r3 =>
        match eatWS1 r3 with
        | none => none
        | some r4 =>
          let g := r4.takeWhile isRefNameChar
          if g.isEmpty then none else some (String.mk g)

def searchSequenceGo : Nat → List Char → Option String
  | _, [] => none
  | 0, _ => none
  | fuel + 1, c :: cs =>
    match matchSequenceAt (c :: cs) with
    | some g => some g
    | none => searchSequenceGo fuel cs

/-- `_parse_create_sequence`. -/
def parseCreateSequence (stmt : String) (st : Schema) : Schema :=
  match searchSequenceGo stmt.data.length stmt.data with
  | none => st
  | some g =>
    let sn0 := pyStripChar g '"'
    let sequence_name :=
      if containsSub sn0 "." then (pySplitChar sn0 '.').getLastD sn0 else sn0
    { st with sequences := st.sequences ++
        [{ sequence_name := sequence_name, definition := stmt }] }

/-- Dependency model of `sqlparse.parse` used only for statement
segmentation: a statement ends just after each semicolon, and any trailing
text forms a final statement. -/
def splitStatementsGo : List Char → List Char → List String
  | acc, [] => if acc = [] then [] else [String.mk acc.reverse]
  | acc, c :: cs =>
    if c = ';' then String.mk (c :: acc).reverse :: splitStatementsGo [] cs
    else splitStatementsGo (c :: acc) cs

def splitStatements (content : String) : List String :=
  splitStatementsGo [] content.data

/-- `_parse_statement`: dispatch on the stripped statement head; the
sub-parsers re-render the statement object, so they receive the raw text. -/
def parseStatement (stmt0 : String) (st : Schema) : Schema :=
  let statement_str := pyStrip stmt0
  if statement_str = "" then st
  else
    let su := strUpper statement_str
    if pyStartsWith su "CREATE TABLE" then st
    else if pyStartsWith su "ALTER TABLE" || containsSub su "ALTER TABLE" then
      parseAlterTable stmt0 st
    else if pyStartsWith su "CREATE INDEX" then
      parseCreateIndex stmt0 st
    else if pyStartsWith su "CREATE SEQUENCE" then
      parseCreateSequence stmt0 st
    else if containsSub su "CREATE TYPE" && containsSub su "ENUM" then
      parseCreateEnum stmt0 st
    else st

/-- `parse_sql_dump`: extract CREATE TABLE statements first, then dispatch
the segmented statements (CREATE TABLE statements are skipped there). -/
def parseSqlDump (sql_content : String) : Schema :=
  let st0 : Schema := {}
  let st1 := (findCreateTableStatements sql_content).foldl
    (fun st stmt => parseCreateTable stmt st) st0
  (splitStatements sql_content).foldl (fun st stmt => parseStatement stmt st) st1

/-! ### The exception structure of `parse_sql_dump`

Python statement parsing can throw; the embedding models each fallible
sub-parser as an `Except`-valued oracle so that the try/except structure of
`parse_sql_dump` is captured exactly: a per-match handler inside
`_extract_create_table_statements`, a per-statement handler inside
`_parse_statement` (the stripped statement text is computed outside that
handler), and an outer handler around statement segmentation. -/

/-- The per-match CREATE TABLE loop with its try/except
(`_extract_create_table_statements`). -/
def processCreateTables (parseCT : String → Schema → Except String Schema) :
    List String → Schema → Schema
  | [], st => st
  | stmt :: more, st =>
    let st2 :=
      match parseCT stmt st with
      | Except.ok stOk => stOk
      | Except.error e =>
        { st with parsing_errors := st.parsing_errors ++
            [{ error := e, statement := some (pyTake stmt 200),
               context := "CREATE TABLE parsing failed" }] }
    processCreateTables parseCT more st2

/-- The per-statement loop with the try/except of `_parse_statement`. -/
def processStatements (dispatch : String → Schema → Except String Schema) :
    List String → Schema → Schema
  | [], st => st
  | stmt0 :: more, st =>
    let statement_str := pyStrip stmt0
    let st2 :=
      if statement_str = "" then st
      else
        match dispatch stmt0 st with
        | Except.ok stOk => stOk
        | Except.error e =>
          { st with parsing_errors := st.parsing_errors ++
              [{ error := e, statement := some (pyTake statement_str 200),
                 context := "Statement parsing failed" }] }
    processStatements dispatch more st2

/-- `parse_sql_dump` with the fallible parts abstracted: `ctMatches` is the
(total) regex scan, `parseCT` the per-match CREATE TABLE parser, `segment`
the statement segmentation (whose failure triggers the outer handler) and
`dispatch` the per-statement body.  The seven-field result record is
returned on every path. -/
def parseSqlDumpDriver (ctMatches : String → List String)
    (parseCT : String → Schema → Except String Schema)
    (segment : String → Except String (List String))
    (dispatch : String → Schema → Except String Schema)
    (content : String) : Schema :=
  let st0 : Schema := {}
  let st1 := processCreateTables parseCT (ctMatches content) st0
  match segment content with
  | Except.error e =>
    { st1 with parsing_errors := st1.parsing_errors ++
        [{ error := e, statement := none, context := "SQL parsing failed" }] }
  | Except.ok stmts => processStatements dispatch stmts st1

end SQLParse

/-! ## DBML generator

The repository has no `src/generator/dbml_generator.py`:
`src/generator/__init__.py` imports `DBMLGenerator` from that missing
module, so the generator itself cannot be translated from source and is
modelled from the specification instead (section 4.8 and the documented
DBML conventions). -/

namespace DBMLGenerator

def joinComma : List String → String
  | [] => ""
  | [a] => a
  | a :: rest => a ++ ", " ++ joinComma rest

/-- Modelled from the spec: the serial family whose columns receive the
`increment` attribute. -/
def serialTypes : List String := ["serial", "bigserial", "smallserial"]

/-- Modelled from the spec: the column attribute list is built from
pk / increment / unique / not null / default.  The pk and unique flags are
read generously from either the processed column flag or an inline
constraint string, increment from a serial original (or current) type. -/
def columnAttrs (c : Column) : List String :=
  let pk := c.is_primary_key || c.constraints.contains "PRIMARY KEY"
  let origt :=
    match c.original_type with
    | some t => t
    | none => c.data_type
  let incr := serialTypes.contains (strLower origt)
  let uq := c.is_unique || c.constraints.contains "UNIQUE"
  let nn := !c.is_nullable
  (if pk then ["pk"] else []) ++
  (if incr then ["increment"] else []) ++
  (if uq then ["unique"] else []) ++
  (if nn then ["not null"] else []) ++
  (match c.default_value with
   | some d => ["default: " ++ sq ++ d ++ sq]
   | none => [])

/-- Modelled from the spec: one line per column, `name type [attr, ...]`,
with the mandatory space before the bracket. -/
def columnLine (c : Column) : String :=
  let attrs := columnAttrs c
  "  " ++ c.column_name ++ " " ++ c.data_type ++
    (if attrs.isEmpty then "" else " [" ++ joinComma attrs ++ "]")

/-- Modelled from the spec: one `Table name [headercolor: ...]` block per
table, one line per column in declaration order. -/
def tableBlock (t : Table) : String :=
  "Table " ++ t.table_name ++ " [headercolor: #3498DB] \x7b\n" ++
  String.join (t.columns.map (fun c => columnLine c ++ "\n")) ++ "\x7d\n"

/-- Modelled from the spec: one `Ref:` line per relationship, `-` for
one-to-one and `>` for many-to-one, with the delete action preserved. -/
def refLine (r : Relationship) : String :=
  "Ref: " ++ r.source_table ++ "." ++ r.source_columns.headD "" ++
  (if r.relationship_type = "one-to-one" then " - " else " > ") ++
  r.target_table ++ "." ++ r.target_columns.headD "" ++
  (match r.on_delete_action with
   | some a => " [delete: " ++ strLower a ++ "]"
   | none => "")

/-- Modelled from the spec: the fixed `Project` header with database type
and a disclaimer note. -/
def projectHeader : String :=
  "Project postgresql_schema \x7b\n  database_type: " ++ sq ++ "PostgreSQL" ++
  sq ++ "\n  Note: " ++ sq ++ sq ++ sq ++
  "This DBML was automatically converted from PostgreSQL." ++
  sq ++ sq ++ sq ++ "\n\x7d\n"

/-- Modelled from the spec: serialize the processed schema. -/
def generate (schema : Schema) : String :=
  projectHeader ++ "\n" ++
  String.join (schema.tables.map (fun t => tableBlock t ++ "\n")) ++
  String.join (schema.relationships.map (fun r => refLine r ++ "\n"))

end DBMLGenerator

/-! ## Heap model of the in-place schema mutation

`transform_types` and `process_constraints` copy only the top-level schema
dictionary; the table and column dictionaries are shared and mutated in
place.  The heap model makes the object identities explicit: a store holds
the column and table objects, a schema value holds references (addresses)
into it, and the two functions below mirror the source loops as store
updates, reusing the pure per-object functions. -/

namespace HeapModel

/-- A table object: its column objects live in the store. -/
structure HTable where
  table_name : String
  colAddrs : List Nat := []
  constraints : List Constraint := []
  original_statement : String := ""
deriving Repr, DecidableEq

/-- The object store (Python heap): column and table objects by address. -/
structure Store where
  cols : List Column := []
  tabs : List HTable := []
deriving Repr, DecidableEq

/-- A schema value: table references plus the top-level value fields. -/
structure HSchema where
  tabAddrs : List Nat := []
  relationships : List Relationship := []
  constraints : List Constraint := []
  indexes : List IndexDef := []
  sequences : List SequenceDef := []
  enums : List EnumDef := []
  parsing_errors : List ParseError := []
  dropped_constraints : List DropRecord := []
  modified_constraints : List ModRecord := []
  constraint_warnings : List WarningMsg := []
  type_transformations : List TransformRecord := []
  type_warnings : List String := []
deriving Repr, DecidableEq

def defaultCol : Column := { column_name := "", data_type := "" }

def defaultHTab : HTable := { table_name := "" }

/-- Dereference a table: the value a Python reader sees. -/
def readTable (st : Store) (ta : Nat) : Table :=
  let ht := st.tabs.getD ta defaultHTab
  { table_name := ht.table_name,
    columns := ht.colAddrs.map (fun ca => st.cols.getD ca defaultCol),
    constraints := ht.constraints,
    original_statement := ht.original_statement }

/-- The schema dictionary a Python reader sees through a schema value. -/
def view (s : HSchema) (st : Store) : Schema :=
  { tables := s.tabAddrs.map (readTable st),
    relationships := s.relationships,
    constraints := s.constraints,
    indexes := s.indexes,
    sequences := s.sequences,
    enums := s.enums,
    parsing_errors := s.parsing_errors,
    dropped_constraints := s.dropped_constraints,
    modified_constraints := s.modified_constraints,
    constraint_warnings := s.constraint_warnings,
    type_transformations := s.type_transformations,
    type_warnings := s.type_warnings }

/-- The inner column loop of `transform_types`: each column object is
updated in place. -/
def transformColsH (decisions : List (String × String))
    (enum_types : List String) (table_name : String) :
    List Nat → Store → Store × List TransformRecord × List String
  | [], st => (st, [], [])
  | ca :: cas, st =>
    let col := st.cols.getD ca defaultCol
    let r := TypeMapper.transformColumn decisions enum_types table_name col
    let st1 := { st with cols := st.cols.set ca r.1 }
    let rest := transformColsH decisions enum_types table_name cas st1
    (rest.1, r.2.1 ++ rest.2.1, r.2.2 ++ rest.2.2)

/-- The outer table loop of `transform_types` over the shared table
objects. -/
def transformTabsH (decisions : List (String × String))
    (enum_types : List String) :
    List Nat → Store → Store × List TransformRecord × List String
  | [], st => (st, [], [])
  | ta :: tas, st =>
    let ht := st.tabs.getD ta defaultHTab
    let r := transformColsH decisions enum_types ht.table_name ht.colAddrs st
    let rest := transformTabsH decisions enum_types tas r.1
    (rest.1, r.2.1 ++ rest.2.1, r.2.2 ++ rest.2.2)

/-- `transform_types` with explicit object identity: the returned schema is
a shallow copy (same table references, new metadata fields); the store
mutation is shared with the input schema. -/
def transformTypesH (s : HSchema) (st : Store) : HSchema × Store :=
  let decisions := TypeMapper.defaultDecisions
  let enum_types := s.enums.map (fun e => strLower e.enum_name)
  let r := transformTabsH decisions enum_types s.tabAddrs st
  ({ s with type_transformations := r.2.1, type_warnings := r.2.2 }, r.1)

/-- The per-table constraint pass of `process_constraints`: each table
object's constraint list is replaced in place. -/
def processTabsConstraintsH :
    List Nat → ConstraintHandler.CHState → Store →
      Store × ConstraintHandler.CHState
  | [], ch, st => (st, ch)
  | ta :: tas, ch, st =>
    let ht := st.tabs.getD ta defaultHTab
    let r := ConstraintHandler.processTableConstraints ht.constraints
      ht.table_name ch
    let st1 := { st with tabs := st.tabs.set ta { ht with constraints := r.1 } }
    processTabsConstraintsH tas r.2 st1

/-- The collection pass of `_apply_constraints_to_columns`: sets
`source_table` on each table-level constraint (visible through the shared
table objects) and collects them in order. -/
def collectTableConstraintsH : List Nat → Store → Store × List Constraint
  | [], st => (st, [])
  | ta :: tas, st =>
    let ht := st.tabs.getD ta defaultHTab
    let cs2 := ht.constraints.map
      (fun c => { c with source_table := some ht.table_name })
    let st1 := { st with tabs := st.tabs.set ta { ht with constraints := cs2 } }
    let rest := collectTableConstraintsH tas st1
    (rest.1, cs2 ++ rest.2)

/-- The inner column loop of `_mark_columns_as_primary_key`: flag updates
on the shared column objects. -/
def markColsPK (colNames : List String) : List Nat → List Column → List Column
  | [], cols => cols
  | ca :: cas, cols =>
    let col := cols.getD ca defaultCol
    let newCol := { col with
      is_primary_key := true, is_nullable := false,
      is_unique := if colNames.length = 1 then true else col.is_unique }
    let cols1 :=
      if colNames.contains col.column_name then cols.set ca newCol
      else cols
    markColsPK colNames cas cols1

/-- The inner column loop of `_mark_columns_as_unique`. -/
def markColsU (colNames : List String) : List Nat → List Column → List Column
  | [], cols => cols
  | ca :: cas, cols =>
    let col := cols.getD ca defaultCol
    let cols1 :=
      if colNames.contains col.column_name ∧ colNames.length = 1 then
        cols.set ca { col with is_unique := true }
      else cols
    markColsU colNames cas cols1

/-- `_mark_columns_as_primary_key` over the shared table objects. -/
def markPKH (target : Option String) (colNames : List String) :
    List Nat → Store → Store
  | [], st => st
  | ta :: tas, st =>
    let ht := st.tabs.getD ta defaultHTab
    let st1 :=
      if some ht.table_name = target then
        { st with cols := markColsPK colNames ht.colAddrs st.cols }
      else st
    markPKH target colNames tas st1

/-- `_mark_columns_as_unique` over the shared table objects. -/
def markUH (target : Option String) (colNames : List String) :
    List Nat → Store → Store
  | [], st => st
  | ta :: tas, st =>
    let ht := st.tabs.getD ta defaultHTab
    let st1 :=
      if some ht.table_name = target then
        { st with cols := markColsU colNames ht.colAddrs st.cols }
      else st
    markUH target colNames tas st1

/-- One iteration of the apply loop of `_apply_constraints_to_columns`. -/
def applyOneH (tabAddrs : List Nat) (st : Store) (c : Constraint) : Store :=
  let target := pyOrOpt c.table_name c.source_table
  if c.constraint_type = "p" ∧ c.columns ≠ [] then
    markPKH target c.columns tabAddrs st
  else if c.constraint_type = "u" ∧ c.columns ≠ [] then
    markUH target c.columns tabAddrs st
  else st

/-- `process_constraints` with explicit object identity: per-table
constraint processing and column marking mutate the shared store; the
standalone constraint list is rebound only on the returned shallow copy. -/
def processConstraintsH (s : HSchema) (st : Store) : HSchema × Store :=
  let ch0 : ConstraintHandler.CHState := {}
  let r1 := processTabsConstraintsH s.tabAddrs ch0 st
  let r2 := ConstraintHandler.processStandaloneConstraints s.constraints r1.2
  let r3 := collectTableConstraintsH s.tabAddrs r1.1
  let all := r3.2 ++ r2.1
  let stF := all.foldl (applyOneH s.tabAddrs) r3.1
  ({ s with constraints := r2.1,
            dropped_constraints := r2.2.dropped_constraints,
            modified_constraints := r2.2.modified_constraints,
            constraint_warnings := r2.2.warnings_generated }, stF)

end HeapModel

/-! ### Lemmas about the heap model -/

theorem getD_set_self {α : Type} (l : List α) (i : Nat) (a d : α)
    (h : i < l.length) : (l.set i a).getD i d = a := by
  induction l generalizing i with
  | nil => simp at h
  | cons x xs ih =>
    cases i with
    | zero => rfl
    | succ n =>
      simp only [List.set_cons_succ, List.getD_cons_succ]
      exact ih n (by simpa using h)

theorem getD_set_ne {α : Type} (l : List α) (i j : Nat) (a d : α)
    (h : i ≠ j) : (l.set i a).getD j d = l.getD j d := by
  induction l generalizing i j with
  | nil => rfl
  | cons x xs ih =>
    cases i with
    | zero =>
      cases j with
      | zero => exact absurd rfl h
      | succ m => rfl
    | succ n =>
      cases j with
      | zero => rfl
      | succ m =>
        simp only [List.set_cons_succ, List.getD_cons_succ]
        exact ih n m (fun hh => h (by rw [hh]))

namespace HeapModel

theorem transformColsH_tabs (d : List (String × String)) (e : List String)
    (tn : String) :
    ∀ (cas : List Nat) (st : Store),
    (transformColsH d e tn cas st).1.tabs = st.tabs := by
  intro cas
  induction cas with
  | nil => intro st; rfl
  | cons ca cas ih => intro st; exact ih _

/-- Write one column object. -/
def setCol (st : Store) (ca : Nat) (c : Column) : Store :=
  { st with cols := st.cols.set ca c }

theorem transformColsH_step (d : List (String × String)) (e : List String)
    (tn : String) (ca : Nat) (cas : List Nat) (st : Store) :
    (transformColsH d e tn (ca :: cas) st).1 =
      (transformColsH d e tn cas
        (setCol st ca
          (TypeMapper.transformColumn d e tn (st.cols.getD ca defaultCol)).1)).1 :=
  rfl

theorem transformColsH_length (d : List (String × String)) (e : List String)
    (tn : String) :
    ∀ (cas : List Nat) (st : Store),
    (transformColsH d e tn cas st).1.cols.length = st.cols.length := by
  intro cas
  induction cas with
  | nil => intro st; rfl
  | cons ca cas ih =>
    intro st
    rw [transformColsH_step, ih]
    simp [setCol]

theorem transformColsH_getD (d : List (String × String)) (e : List String)
    (tn : String) :
    ∀ (cas : List Nat) (st : Store), cas.Nodup →
    (∀ a ∈ cas, a < st.cols.length) → ∀ x,
    ((transformColsH d e tn cas st).1.cols).getD x defaultCol =
      if x ∈ cas then
        (TypeMapper.transformColumn d e tn (st.cols.getD x defaultCol)).1
      else st.cols.getD x defaultCol := by
  intro cas
  induction cas with
  | nil =>
    intro st _ _ x
    rw [if_neg (by simp)]
    rfl
  | cons ca cas ih =>
    intro st hnd hv x
    obtain ⟨hca, hnd'⟩ := List.nodup_cons.mp hnd
    have hlen : ca < st.cols.length := hv ca (List.mem_cons_self _ _)
    rw [transformColsH_step]
    have hv' : ∀ a ∈ cas, a <
        (setCol st ca (TypeMapper.transformColumn d e tn
          (st.cols.getD ca defaultCol)).1).cols.length := by
      intro a ha
      simp only [setCol, List.length_set]
      exact hv a (List.mem_cons_of_mem _ ha)
    rw [ih _ hnd' hv' x]
    by_cases hx : x ∈ cas
    · rw [if_pos hx, if_pos (List.mem_cons_of_mem _ hx)]
      have hne : ca ≠ x := fun hh => hca (hh ▸ hx)
      rw [show (setCol st ca (TypeMapper.transformColumn d e tn
        (st.cols.getD ca defaultCol)).1).cols = st.cols.set ca
        (TypeMapper.transformColumn d e tn (st.cols.getD ca defaultCol)).1
        from rfl]
      rw [getD_set_ne st.cols ca x _ _ hne]
    · rw [if_neg hx]
      by_cases hxc : x = ca
      · subst hxc
        rw [if_pos (List.mem_cons_self _ _)]
        exact getD_set_self st.cols x _ _ hlen
      · have hnm : x ∉ ca :: cas := by
          intro hmem
          rcases List.mem_cons.mp hmem with h1 | h1
          · exact hxc h1
          · exact hx h1
        rw [if_neg hnm]
        exact getD_set_ne st.cols ca x _ _ (fun hh => hxc hh.symm)

/-- All column addresses of the tables referenced through a table list. -/
def flat (tbs : List HTable) (tas : List Nat) : List Nat :=
  tas.flatMap (fun ta => (tbs.getD ta defaultHTab).colAddrs)

theorem flat_cons (tbs : List HTable) (ta : Nat) (tas : List Nat) :
    flat tbs (ta :: tas) =
      (tbs.getD ta defaultHTab).colAddrs ++ flat tbs tas :=
  List.flatMap_cons ..

/-- Two stores agreeing on a table object and the columns it references
dereference to the same table value. -/
theorem readTable_congr_getD (st1 st2 : Store) (ta : Nat)
    (ht : st1.tabs.getD ta defaultHTab = st2.tabs.getD ta defaultHTab)
    (hc : ∀ a ∈ (st2.tabs.getD ta defaultHTab).colAddrs,
      st1.cols.getD a defaultCol = st2.cols.getD a defaultCol) :
    readTable st1 ta = readTable st2 ta := by
  simp only [readTable, ht]
  rw [List.map_congr_left hc]

theorem transformColsH_recs (d : List (String × String)) (e : List String)
    (tn : String) :
    ∀ (cas : List Nat) (st : Store), cas.Nodup →
    (transformColsH d e tn cas st).2 =
      (TypeMapper.transformColumnsLoop d e tn
        (cas.map (fun ca => st.cols.getD ca defaultCol))).2 := by
  intro cas
  induction cas with
  | nil => intro st _; rfl
  | cons ca cas ih =>
    intro st hnd
    obtain ⟨hca, hnd2⟩ := List.nodup_cons.mp hnd
    have hstep : (transformColsH d e tn (ca :: cas) st).2 =
        ((TypeMapper.transformColumn d e tn (st.cols.getD ca defaultCol)).2.1 ++
          (transformColsH d e tn cas (setCol st ca
            (TypeMapper.transformColumn d e tn
              (st.cols.getD ca defaultCol)).1)).2.1,
         (TypeMapper.transformColumn d e tn (st.cols.getD ca defaultCol)).2.2 ++
          (transformColsH d e tn cas (setCol st ca
            (TypeMapper.transformColumn d e tn
              (st.cols.getD ca defaultCol)).1)).2.2) := rfl
    rw [hstep, ih _ hnd2]
    have hmap : cas.map (fun a => (setCol st ca
        (TypeMapper.transformColumn d e tn
          (st.cols.getD ca defaultCol)).1).cols.getD a defaultCol) =
        cas.map (fun a => st.cols.getD a defaultCol) := by
      refine List.map_congr_left (fun a ha => ?_)
      exact getD_set_ne st.cols ca a _ _ (fun hh => hca (hh ▸ ha))
    rw [hmap]
    rfl

theorem transformColumnsLoop_fst (d : List (String × String)) (e : List String)
    (tn : String) : ∀ (cols : List Column),
    (TypeMapper.transformColumnsLoop d e tn cols).1 =
      cols.map (fun c => (TypeMapper.transformColumn d e tn c).1) := by
  intro cols
  induction cols with
  | nil => rfl
  | cons c cols ih =>
    have hstep : (TypeMapper.transformColumnsLoop d e tn (c :: cols)).1 =
        (TypeMapper.transformColumn d e tn c).1 ::
          (TypeMapper.transformColumnsLoop d e tn cols).1 := rfl
    rw [hstep, ih]
    rfl

/-- Correspondence of the heap table loop of `transform_types` with the pure
loop, read through the store: the table objects themselves are untouched,
column addresses outside the visited tables are untouched, and the visited
tables read back as the pure transformation of their initial values. -/
theorem transformTabsH_spec (d : List (String × String)) (e : List String) :
    ∀ (tas : List Nat) (st : Store),
    (flat st.tabs tas).Nodup →
    (∀ ca ∈ flat st.tabs tas, ca < st.cols.length) →
    (transformTabsH d e tas st).1.tabs = st.tabs ∧
    (transformTabsH d e tas st).1.cols.length = st.cols.length ∧
    (∀ x, x ∉ flat st.tabs tas →
      (transformTabsH d e tas st).1.cols.getD x defaultCol =
        st.cols.getD x defaultCol) ∧
    tas.map (readTable (transformTabsH d e tas st).1) =
      (TypeMapper.transformTablesLoop d e (tas.map (readTable st))).1 ∧
    (transformTabsH d e tas st).2 =
      (TypeMapper.transformTablesLoop d e (tas.map (readTable st))).2 := by
  intro tas
  induction tas with
  | nil =>
    intro st _ _
    exact ⟨rfl, rfl, fun x _ => rfl, rfl, rfl⟩
  | cons ta tas ih =>
    intro st hnd hv
    rw [flat_cons] at hnd hv
    rw [List.nodup_append] at hnd
    obtain ⟨hnd1, hnd2, hdisj⟩ := hnd
    have hv1 : ∀ a ∈ (st.tabs.getD ta defaultHTab).colAddrs,
        a < st.cols.length := fun a ha => hv a (List.mem_append_left _ ha)
    have hv2 : ∀ a ∈ flat st.tabs tas, a < st.cols.length :=
      fun a ha => hv a (List.mem_append_right _ ha)
    have htabs_r : (transformColsH d e
        (st.tabs.getD ta defaultHTab).table_name
        (st.tabs.getD ta defaultHTab).colAddrs st).1.tabs = st.tabs :=
      transformColsH_tabs d e _ _ st
    have hlen_r : (transformColsH d e
        (st.tabs.getD ta defaultHTab).table_name
        (st.tabs.getD ta defaultHTab).colAddrs st).1.cols.length =
        st.cols.length :=
      transformColsH_length d e _ _ st
    have hgetD := transformColsH_getD d e
      (st.tabs.getD ta defaultHTab).table_name
      (st.tabs.getD ta defaultHTab).colAddrs st hnd1 hv1
    obtain ⟨ih1, ih2, ih3, ih4, ih5⟩ := ih
      (transformColsH d e (st.tabs.getD ta defaultHTab).table_name
        (st.tabs.getD ta defaultHTab).colAddrs st).1
      (by rw [show flat (transformColsH d e
            (st.tabs.getD ta defaultHTab).table_name
            (st.tabs.getD ta defaultHTab).colAddrs st).1.tabs tas =
          flat st.tabs tas from by rw [flat, htabs_r, flat]]
          exact hnd2)
      (by intro a ha
          rw [show flat (transformColsH d e
              (st.tabs.getD ta defaultHTab).table_name
              (st.tabs.getD ta defaultHTab).colAddrs st).1.tabs tas =
            flat st.tabs tas from by rw [flat, htabs_r, flat]] at ha
          rw [hlen_r]
          exact hv2 a ha)
    have hstep1 : (transformTabsH d e (ta :: tas) st).1 =
        (transformTabsH d e tas
          (transformColsH d e (st.tabs.getD ta defaultHTab).table_name
            (st.tabs.getD ta defaultHTab).colAddrs st).1).1 := rfl
    have hflatr : flat (transformColsH d e
        (st.tabs.getD ta defaultHTab).table_name
        (st.tabs.getD ta defaultHTab).colAddrs st).1.tabs tas =
        flat st.tabs tas := by rw [flat, htabs_r, flat]
    have hframe : ∀ a ∈ (st.tabs.getD ta defaultHTab).colAddrs,
        (transformTabsH d e (ta :: tas) st).1.cols.getD a defaultCol =
          (TypeMapper.transformColumn d e
            (st.tabs.getD ta defaultHTab).table_name
            (st.cols.getD a defaultCol)).1 := by
      intro a ha
      rw [hstep1, ih3 a (by rw [hflatr]; exact fun hmem => hdisj ha hmem),
        hgetD a, if_pos ha]
    have hmaps : tas.map (readTable (transformColsH d e
        (st.tabs.getD ta defaultHTab).table_name
        (st.tabs.getD ta defaultHTab).colAddrs st).1) =
        tas.map (readTable st) := by
      refine List.map_congr_left (fun b hb => ?_)
      refine readTable_congr_getD _ _ b (by rw [htabs_r]) ?_
      intro a ha
      have hmem : a ∈ flat st.tabs tas :=
        List.mem_flatMap.mpr ⟨b, hb, ha⟩
      rw [hgetD a, if_neg (fun hmem2 => hdisj hmem2 hmem)]
    refine ⟨?_, ?_, ?_, ?_, ?_⟩
    · rw [hstep1, ih1, htabs_r]
    · rw [hstep1, ih2, hlen_r]
    · intro x hx
      rw [flat_cons, List.mem_append] at hx
      push_neg at hx
      rw [hstep1, ih3 x (by rw [hflatr]; exact hx.2), hgetD x,
        if_neg hx.1]
    · rw [List.map_cons, List.map_cons]
      have hstepL : (TypeMapper.transformTablesLoop d e
          (readTable st ta :: tas.map (readTable st))).1 =
          { readTable st ta with columns :=
              (TypeMapper.transformColumnsLoop d e
                (readTable st ta).table_name (readTable st ta).columns).1 } ::
            (TypeMapper.transformTablesLoop d e (tas.map (readTable st))).1 :=
        rfl
      rw [hstepL]
      refine List.cons_eq_cons.mpr ⟨?_, ?_⟩
      · have hname : (readTable st ta).table_name =
            (st.tabs.getD ta defaultHTab).table_name := rfl
        have hcols2 : (readTable st ta).columns =
            ((st.tabs.getD ta defaultHTab).colAddrs).map
              (fun a => st.cols.getD a defaultCol) := rfl
        have htb : (transformTabsH d e (ta :: tas) st).1.tabs = st.tabs := by
          rw [hstep1, ih1, htabs_r]
        simp only [readTable, htb, hname, hcols2, transformColumnsLoop_fst,
          List.map_map, Function.comp]
        congr 1
        exact List.map_congr_left hframe
      · rw [hstep1, ih4, hmaps]
    · have hstep2 : (transformTabsH d e (ta :: tas) st).2 =
          ((transformColsH d e (st.tabs.getD ta defaultHTab).table_name
              (st.tabs.getD ta defaultHTab).colAddrs st).2.1 ++
            (transformTabsH d e tas
              (transformColsH d e (st.tabs.getD ta defaultHTab).table_name
                (st.tabs.getD ta defaultHTab).colAddrs st).1).2.1,
           (transformColsH d e (st.tabs.getD ta defaultHTab).table_name
              (st.tabs.getD ta defaultHTab).colAddrs st).2.2 ++
            (transformTabsH d e tas
              (transformColsH d e (st.tabs.getD ta defaultHTab).table_name
                (st.tabs.getD ta defaultHTab).colAddrs st).1).2.2) := rfl
      have hstepL2 : (TypeMapper.transformTablesLoop d e
          ((ta :: tas).map (readTable st))).2 =
          ((TypeMapper.transformColumnsLoop d e
              (readTable st ta).table_name (readTable st ta).columns).2.1 ++
            (TypeMapper.transformTablesLoop d e (tas.map (readTable st))).2.1,
           (TypeMapper.transformColumnsLoop d e
              (readTable st ta).table_name (readTable st ta).columns).2.2 ++
            (TypeMapper.transformTablesLoop d e (tas.map (readTable st))).2.2) :=
        rfl
      have hrecs := transformColsH_recs d e
        (st.tabs.getD ta defaultHTab).table_name
        (st.tabs.getD ta defaultHTab).colAddrs st hnd1
      have hname : (readTable st ta).table_name =
          (st.tabs.getD ta defaultHTab).table_name := rfl
      have hcols2 : (readTable st ta).columns =
          ((st.tabs.getD ta defaultHTab).colAddrs).map
            (fun a => st.cols.getD a defaultCol) := rfl
      rw [hstep2, hstepL2, hname, hcols2, ← hrecs, ih5, hmaps]

/-- The kept/rewritten constraint returned by `_process_single_constraint`
does not depend on the handler's accumulated log state. -/
theorem processSingleConstraint_fst (c : Constraint) (tn : String)
    (ch1 ch2 : ConstraintHandler.CHState) :
    (ConstraintHandler.processSingleConstraint c tn ch1).1 =
      (ConstraintHandler.processSingleConstraint c tn ch2).1 := by
  unfold ConstraintHandler.processSingleConstraint
  by_cases h1 : c.constraint_type = "p"
  · rw [if_pos h1, if_pos h1]
  · rw [if_neg h1, if_neg h1]
    by_cases h2 : c.constraint_type = "u"
    · rw [if_pos h2, if_pos h2]
    · rw [if_neg h2, if_neg h2]
      by_cases h3 : c.constraint_type = "f"
      · rw [if_pos h3, if_pos h3]; rfl
      · rw [if_neg h3, if_neg h3]
        by_cases h4 : c.constraint_type = "c"
        · rw [if_pos h4, if_pos h4]
        · rw [if_neg h4, if_neg h4]

/-- The surviving constraint list of `_process_table_constraints` does not
depend on the handler's accumulated log state. -/
theorem processTableConstraints_fst :
    ∀ (cs : List Constraint) (tn : String)
      (ch1 ch2 : ConstraintHandler.CHState),
    (ConstraintHandler.processTableConstraints cs tn ch1).1 =
      (ConstraintHandler.processTableConstraints cs tn ch2).1 := by
  intro cs
  induction cs with
  | nil => intro tn ch1 ch2; rfl
  | cons c cs ih =>
    intro tn ch1 ch2
    have hstep : ∀ (ch : ConstraintHandler.CHState),
        (ConstraintHandler.processTableConstraints (c :: cs) tn ch).1 =
          (match (ConstraintHandler.processSingleConstraint c tn ch).1 with
           | some c2 => c2 ::
               (ConstraintHandler.processTableConstraints cs tn
                 (ConstraintHandler.processSingleConstraint c tn ch).2).1
           | none =>
               (ConstraintHandler.processTableConstraints cs tn
                 (ConstraintHandler.processSingleConstraint c tn ch).2).1) :=
      fun ch => rfl
    rw [hstep ch1, hstep ch2,
      processSingleConstraint_fst c tn ch1 ch2]
    cases (ConstraintHandler.processSingleConstraint c tn ch2).1 with
    | none => exact ih tn _ _
    | some c2 => rw [ih tn (ConstraintHandler.processSingleConstraint c tn ch1).2
        (ConstraintHandler.processSingleConstraint c tn ch2).2]

/-- The table list produced by the per-table loop of `process_constraints`:
each table's constraint list is replaced by its processed version, computed
independently of the threaded log state. -/
theorem processAllTables_fst :
    ∀ (ts : List Table) (ch : ConstraintHandler.CHState),
    (ConstraintHandler.processAllTables ts ch).1 =
      ts.map (fun t => { t with constraints :=
        (ConstraintHandler.processTableConstraints t.constraints
          t.table_name ({} : ConstraintHandler.CHState)).1 }) := by
  intro ts
  induction ts with
  | nil => intro ch; rfl
  | cons t ts ih =>
    intro ch
    have hstep : (ConstraintHandler.processAllTables (t :: ts) ch).1 =
        { t with constraints :=
            (ConstraintHandler.processTableConstraints t.constraints
              t.table_name ch).1 } ::
          (ConstraintHandler.processAllTables ts
            (ConstraintHandler.processTableConstraints t.constraints
              t.table_name ch).2).1 := rfl
    rw [hstep, ih, processTableConstraints_fst t.constraints t.table_name ch
      ({} : ConstraintHandler.CHState)]
    rfl

/-- Replace one table object. -/
def setTab (st : Store) (ta : Nat) (h : HTable) : Store :=
  { st with tabs := st.tabs.set ta h }

theorem processTabsConstraintsH_step (ta : Nat) (tas : List Nat)
    (ch : ConstraintHandler.CHState) (st : Store) :
    processTabsConstraintsH (ta :: tas) ch st =
      processTabsConstraintsH tas
        (ConstraintHandler.processTableConstraints
          (st.tabs.getD ta defaultHTab).constraints
          (st.tabs.getD ta defaultHTab).table_name ch).2
        (setTab st ta
          { st.tabs.getD ta defaultHTab with
            constraints := (ConstraintHandler.processTableConstraints
              (st.tabs.getD ta defaultHTab).constraints
              (st.tabs.getD ta defaultHTab).table_name ch).1 }) := rfl

/-- Correspondence of the heap per-table constraint pass with the pure loop:
column objects are untouched, table objects outside the visited list are
untouched, each visited table object gets its processed constraint list, and
the accumulated log state agrees with the pure loop on the dereferenced
tables. -/
theorem processTabsConstraintsH_spec :
    ∀ (tas : List Nat) (ch : ConstraintHandler.CHState) (st : Store),
    tas.Nodup → (∀ ta ∈ tas, ta < st.tabs.length) →
    (processTabsConstraintsH tas ch st).1.cols = st.cols ∧
    (processTabsConstraintsH tas ch st).1.tabs.length = st.tabs.length ∧
    (∀ x, x ∉ tas →
      (processTabsConstraintsH tas ch st).1.tabs.getD x defaultHTab =
        st.tabs.getD x defaultHTab) ∧
    (∀ ta2 ∈ tas,
      (processTabsConstraintsH tas ch st).1.tabs.getD ta2 defaultHTab =
        { st.tabs.getD ta2 defaultHTab with
          constraints := (ConstraintHandler.processTableConstraints
            (st.tabs.getD ta2 defaultHTab).constraints
            (st.tabs.getD ta2 defaultHTab).table_name
            ({} : ConstraintHandler.CHState)).1 }) ∧
    (processTabsConstraintsH tas ch st).2 =
      (ConstraintHandler.processAllTables (tas.map (readTable st)) ch).2 := by
  intro tas
  induction tas with
  | nil =>
    intro ch st _ _
    exact ⟨rfl, rfl, fun x _ => rfl, fun ta2 h2 => absurd h2 (by simp), rfl⟩
  | cons ta tas ih =>
    intro ch st hnd hv
    obtain ⟨hca, hnd2⟩ := List.nodup_cons.mp hnd
    have hlen : ta < st.tabs.length := hv ta (List.mem_cons_self _ _)
    rw [processTabsConstraintsH_step]
    obtain ⟨ih1, ih2, ih3, ih4, ih5⟩ := ih
      (ConstraintHandler.processTableConstraints
        (st.tabs.getD ta defaultHTab).constraints
        (st.tabs.getD ta defaultHTab).table_name ch).2
      (setTab st ta
        { st.tabs.getD ta defaultHTab with
          constraints := (ConstraintHandler.processTableConstraints
            (st.tabs.getD ta defaultHTab).constraints
            (st.tabs.getD ta defaultHTab).table_name ch).1 })
      hnd2
      (by intro a ha
          simp only [setTab, List.length_set]
          exact hv a (List.mem_cons_of_mem _ ha))
    have hget_ne : ∀ x, x ≠ ta →
        (setTab st ta
          { st.tabs.getD ta defaultHTab with
            constraints := (ConstraintHandler.processTableConstraints
              (st.tabs.getD ta defaultHTab).constraints
              (st.tabs.getD ta defaultHTab).table_name ch).1 }).tabs.getD x
          defaultHTab = st.tabs.getD x defaultHTab := by
      intro x hx
      exact getD_set_ne st.tabs ta x _ _ (fun hh => hx hh.symm)
    have hget_self :
        (setTab st ta
          { st.tabs.getD ta defaultHTab with
            constraints := (ConstraintHandler.processTableConstraints
              (st.tabs.getD ta defaultHTab).constraints
              (st.tabs.getD ta defaultHTab).table_name ch).1 }).tabs.getD ta
          defaultHTab =
          { st.tabs.getD ta defaultHTab with
            constraints := (ConstraintHandler.processTableConstraints
              (st.tabs.getD ta defaultHTab).constraints
              (st.tabs.getD ta defaultHTab).table_name ch).1 } :=
      getD_set_self st.tabs ta _ _ hlen
    refine ⟨ih1, ?_, ?_, ?_, ?_⟩
    · rw [ih2]
      simp [setTab]
    · intro x hx
      have hx1 : x ≠ ta := fun hh => hx (hh ▸ List.mem_cons_self _ _)
      have hx2 : x ∉ tas := fun hh => hx (List.mem_cons_of_mem _ hh)
      rw [ih3 x hx2, hget_ne x hx1]
    · intro ta2 h2
      rcases List.mem_cons.mp h2 with h2 | h2
      · subst h2
        rw [ih3 ta2 hca, hget_self,
          processTableConstraints_fst _ _ ch ({} : ConstraintHandler.CHState)]
      · have hne : ta2 ≠ ta := fun hh => hca (hh ▸ h2)
        rw [ih4 ta2 h2, hget_ne ta2 hne]
    · have hstepP : (ConstraintHandler.processAllTables
          ((ta :: tas).map (readTable st)) ch).2 =
          (ConstraintHandler.processAllTables (tas.map (readTable st))
            (ConstraintHandler.processTableConstraints
              (readTable st ta).constraints
              (readTable st ta).table_name ch).2).2 := rfl
      have hcs : (readTable st ta).constraints =
          (st.tabs.getD ta defaultHTab).constraints := rfl
      have hnm : (readTable st ta).table_name =
          (st.tabs.getD ta defaultHTab).table_name := rfl
      have hmaps : tas.map (readTable (setTab st ta
          { st.tabs.getD ta defaultHTab with
            constraints := (ConstraintHandler.processTableConstraints
              (st.tabs.getD ta defaultHTab).constraints
              (st.tabs.getD ta defaultHTab).table_name ch).1 })) =
          tas.map (readTable st) := by
        refine List.map_congr_left (fun b hb => ?_)
        refine readTable_congr_getD _ _ b
          (hget_ne b (fun hh => hca (hh ▸ hb))) (fun a _ => rfl)
      rw [ih5, hstepP, hcs, hnm, hmaps]

/-- The `constraint['source_table'] = table['table_name']` write. -/
def tagSource (tn : String) (c : Constraint) : Constraint :=
  { c with source_table := some tn }

theorem collectTableConstraintsH_step (ta : Nat) (tas : List Nat)
    (st : Store) :
    collectTableConstraintsH (ta :: tas) st =
      ((collectTableConstraintsH tas
        (setTab st ta
          { st.tabs.getD ta defaultHTab with
            constraints := (st.tabs.getD ta defaultHTab).constraints.map
              (tagSource (st.tabs.getD ta defaultHTab).table_name) })).1,
       (st.tabs.getD ta defaultHTab).constraints.map
          (tagSource (st.tabs.getD ta defaultHTab).table_name) ++
        (collectTableConstraintsH tas
          (setTab st ta
            { st.tabs.getD ta defaultHTab with
              constraints := (st.tabs.getD ta defaultHTab).constraints.map
                (tagSource (st.tabs.getD ta defaultHTab).table_name) })).2) :=
  rfl

/-- Correspondence of the collection pass of `_apply_constraints_to_columns`:
column objects are untouched, table objects outside the visited list are
untouched, each visited table object gets its source-tagged constraint list,
and the collected list is the concatenation of those lists in order. -/
theorem collectTableConstraintsH_spec :
    ∀ (tas : List Nat) (st : Store),
    tas.Nodup → (∀ ta ∈ tas, ta < st.tabs.length) →
    (collectTableConstraintsH tas st).1.cols = st.cols ∧
    (collectTableConstraintsH tas st).1.tabs.length = st.tabs.length ∧
    (∀ x, x ∉ tas →
      (collectTableConstraintsH tas st).1.tabs.getD x defaultHTab =
        st.tabs.getD x defaultHTab) ∧
    (∀ ta2 ∈ tas,
      (collectTableConstraintsH tas st).1.tabs.getD ta2 defaultHTab =
        { st.tabs.getD ta2 defaultHTab with
          constraints := (st.tabs.getD ta2 defaultHTab).constraints.map
            (tagSource (st.tabs.getD ta2 defaultHTab).table_name) }) ∧
    (collectTableConstraintsH tas st).2 =
      tas.flatMap (fun ta2 =>
        (st.tabs.getD ta2 defaultHTab).constraints.map
          (tagSource (st.tabs.getD ta2 defaultHTab).table_name)) := by
  intro tas
  induction tas with
  | nil =>
    intro st _ _
    exact ⟨rfl, rfl, fun x _ => rfl, fun ta2 h2 => absurd h2 (by simp), rfl⟩
  | cons ta tas ih =>
    intro st hnd hv
    obtain ⟨hca, hnd2⟩ := List.nodup_cons.mp hnd
    have hlen : ta < st.tabs.length := hv ta (List.mem_cons_self _ _)
    rw [collectTableConstraintsH_step]
    obtain ⟨ih1, ih2, ih3, ih4, ih5⟩ := ih
      (setTab st ta
        { st.tabs.getD ta defaultHTab with
          constraints := (st.tabs.getD ta defaultHTab).constraints.map
            (tagSource (st.tabs.getD ta defaultHTab).table_name) })
      hnd2
      (by intro a ha
          simp only [setTab, List.length_set]
          exact hv a (List.mem_cons_of_mem _ ha))
    have hget_ne : ∀ x, x ≠ ta →
        (setTab st ta
          { st.tabs.getD ta defaultHTab with
            constraints := (st.tabs.getD ta defaultHTab).constraints.map
              (tagSource (st.tabs.getD ta defaultHTab).table_name) }).tabs.getD
          x defaultHTab = st.tabs.getD x defaultHTab := by
      intro x hx
      exact getD_set_ne st.tabs ta x _ _ (fun hh => hx hh.symm)
    have hget_self :
        (setTab st ta
          { st.tabs.getD ta defaultHTab with
            constraints := (st.tabs.getD ta defaultHTab).constraints.map
              (tagSource (st.tabs.getD ta defaultHTab).table_name) }).tabs.getD
          ta defaultHTab =
          { st.tabs.getD ta defaultHTab with
            constraints := (st.tabs.getD ta defaultHTab).constraints.map
              (tagSource (st.tabs.getD ta defaultHTab).table_name) } :=
      getD_set_self st.tabs ta _ _ hlen
    refine ⟨ih1, ?_, ?_, ?_, ?_⟩
    · rw [ih2]
      simp [setTab]
    · intro x hx
      have hx1 : x ≠ ta := fun hh => hx (hh ▸ List.mem_cons_self _ _)
      have hx2 : x ∉ tas := fun hh => hx (List.mem_cons_of_mem _ hh)
      rw [ih3 x hx2, hget_ne x hx1]
    · intro ta2 h2
      rcases List.mem_cons.mp h2 with h2 | h2
      · subst h2
        rw [ih3 ta2 hca, hget_self]
      · have hne : ta2 ≠ ta := fun hh => hca (hh ▸ h2)
        rw [ih4 ta2 h2, hget_ne ta2 hne]
    · rw [List.flatMap_cons, ih5]
      have hmaps : tas.flatMap (fun ta2 =>
          ((setTab st ta
            { st.tabs.getD ta defaultHTab with
              constraints := (st.tabs.getD ta defaultHTab).constraints.map
                (tagSource
                  (st.tabs.getD ta defaultHTab).table_name) }).tabs.getD
            ta2 defaultHTab).constraints.map
            (tagSource ((setTab st ta
              { st.tabs.getD ta defaultHTab with
                constraints := (st.tabs.getD ta defaultHTab).constraints.map
                  (tagSource
                    (st.tabs.getD ta defaultHTab).table_name) }).tabs.getD
              ta2 defaultHTab).table_name)) =
          tas.flatMap (fun ta2 =>
            (st.tabs.getD ta2 defaultHTab).constraints.map
              (tagSource (st.tabs.getD ta2 defaultHTab).table_name)) := by
        refine List.flatMap_congr (fun b hb => ?_)
        rw [hget_ne b (fun hh => hca (hh ▸ hb))]
      rw [hmaps]

/-- The flag update `_mark_columns_as_primary_key` performs on a matching
column object. -/
def pkCol (names : List String) (col : Column) : Column :=
  { col with is_primary_key := true, is_nullable := false,
             is_unique := if names.length = 1 then true else col.is_unique }

/-- One column of a primary-key marking pass: updated when its name is
listed, untouched otherwise. -/
def pkMark (names : List String) (col : Column) : Column :=
  if names.contains col.column_name then pkCol names col else col

/-- One column of a unique marking pass. -/
def uMark (names : List String) (col : Column) : Column :=
  if names.contains col.column_name ∧ names.length = 1 then
    { col with is_unique := true }
  else col

theorem markColsPK_step (names : List String) (ca : Nat) (cas : List Nat)
    (cols : List Column) :
    markColsPK names (ca :: cas) cols =
      markColsPK names cas
        (if names.contains (cols.getD ca defaultCol).column_name then
          cols.set ca (pkCol names (cols.getD ca defaultCol))
        else cols) := rfl

theorem markColsU_step (names : List String) (ca : Nat) (cas : List Nat)
    (cols : List Column) :
    markColsU names (ca :: cas) cols =
      markColsU names cas
        (if names.contains (cols.getD ca defaultCol).column_name ∧
            names.length = 1 then
          cols.set ca { cols.getD ca defaultCol with is_unique := true }
        else cols) := rfl

theorem markColsPK_length (names : List String) :
    ∀ (cas : List Nat) (cols : List Column),
    (markColsPK names cas cols).length = cols.length := by
  intro cas
  induction cas with
  | nil => intro cols; rfl
  | cons ca cas ih =>
    intro cols
    rw [markColsPK_step, ih]
    by_cases h : names.contains (cols.getD ca defaultCol).column_name
    · rw [if_pos h, List.length_set]
    · rw [if_neg h]

theorem markColsU_length (names : List String) :
    ∀ (cas : List Nat) (cols : List Column),
    (markColsU names cas cols).length = cols.length := by
  intro cas
  induction cas with
  | nil => intro cols; rfl
  | cons ca cas ih =>
    intro cols
    rw [markColsU_step, ih]
    by_cases h : names.contains (cols.getD ca defaultCol).column_name ∧
        names.length = 1
    · rw [if_pos h, List.length_set]
    · rw [if_neg h]

theorem markColsPK_getD (names : List String) :
    ∀ (cas : List Nat) (cols : List Column), cas.Nodup →
    (∀ a ∈ cas, a < cols.length) → ∀ x,
    (markColsPK names cas cols).getD x defaultCol =
      if x ∈ cas then pkMark names (cols.getD x defaultCol)
      else cols.getD x defaultCol := by
  intro cas
  induction cas with
  | nil =>
    intro cols _ _ x
    rw [if_neg (by simp)]
    rfl
  | cons ca cas ih =>
    intro cols hnd hv x
    obtain ⟨hca, hnd2⟩ := List.nodup_cons.mp hnd
    have hlen : ca < cols.length := hv ca (List.mem_cons_self _ _)
    rw [markColsPK_step]
    by_cases hc : names.contains (cols.getD ca defaultCol).column_name
    · rw [if_pos hc]
      have hv2 : ∀ a ∈ cas,
          a < (cols.set ca (pkCol names (cols.getD ca defaultCol))).length := by
        intro a ha
        rw [List.length_set]
        exact hv a (List.mem_cons_of_mem _ ha)
      rw [ih _ hnd2 hv2 x]
      by_cases hx : x ∈ cas
      · rw [if_pos hx, if_pos (List.mem_cons_of_mem _ hx),
          getD_set_ne cols ca x _ _ (fun hh => hca (hh ▸ hx))]
      · rw [if_neg hx]
        by_cases hxc : x = ca
        · subst hxc
          rw [if_pos (List.mem_cons_self _ _),
            getD_set_self cols x _ _ hlen, pkMark, if_pos hc]
        · have hnm : x ∉ ca :: cas := by
            intro hmem
            rcases List.mem_cons.mp hmem with h1 | h1
            · exact hxc h1
            · exact hx h1
          rw [if_neg hnm, getD_set_ne cols ca x _ _ (fun hh => hxc hh.symm)]
    · rw [if_neg hc]
      have hv2 : ∀ a ∈ cas, a < cols.length :=
        fun a ha => hv a (List.mem_cons_of_mem _ ha)
      rw [ih _ hnd2 hv2 x]
      by_cases hx : x ∈ cas
      · rw [if_pos hx, if_pos (List.mem_cons_of_mem _ hx)]
      · rw [if_neg hx]
        by_cases hxc : x = ca
        · subst hxc
          rw [if_pos (List.mem_cons_self _ _), pkMark, if_neg hc]
        · have hnm : x ∉ ca :: cas := by
            intro hmem
            rcases List.mem_cons.mp hmem with h1 | h1
            · exact hxc h1
            · exact hx h1
          rw [if_neg hnm]

theorem markColsU_getD (names : List String) :
    ∀ (cas : List Nat) (cols : List Column), cas.Nodup →
    (∀ a ∈ cas, a < cols.length) → ∀ x,
    (markColsU names cas cols).getD x defaultCol =
      if x ∈ cas then uMark names (cols.getD x defaultCol)
      else cols.getD x defaultCol := by
  intro cas
  induction cas with
  | nil =>
    intro cols _ _ x
    rw [if_neg (by simp)]
    rfl
  | cons ca cas ih =>
    intro cols hnd hv x
    obtain ⟨hca, hnd2⟩ := List.nodup_cons.mp hnd
    have hlen : ca < cols.length := hv ca (List.mem_cons_self _ _)
    rw [markColsU_step]
    by_cases hc : names.contains (cols.getD ca defaultCol).column_name ∧
        names.length = 1
    · rw [if_pos hc]
      have hv2 : ∀ a ∈ cas,
          a < (cols.set ca
            { cols.getD ca defaultCol with is_unique := true }).length := by
        intro a ha
        rw [List.length_set]
        exact hv a (List.mem_cons_of_mem _ ha)
      rw [ih _ hnd2 hv2 x]
      by_cases hx : x ∈ cas
      · rw [if_pos hx, if_pos (List.mem_cons_of_mem _ hx),
          getD_set_ne cols ca x _ _ (fun hh => hca (hh ▸ hx))]
      · rw [if_neg hx]
        by_cases hxc : x = ca
        · subst hxc
          rw [if_pos (List.mem_cons_self _ _),
            getD_set_self cols x _ _ hlen, uMark, if_pos hc]
        · have hnm : x ∉ ca :: cas := by
            intro hmem
            rcases List.mem_cons.mp hmem with h1 | h1
            · exact hxc h1
            · exact hx h1
          rw [if_neg hnm, getD_set_ne cols ca x _ _ (fun hh => hxc hh.symm)]
    · rw [if_neg hc]
      have hv2 : ∀ a ∈ cas, a < cols.length :=
        fun a ha => hv a (List.mem_cons_of_mem _ ha)
      rw [ih _ hnd2 hv2 x]
      by_cases hx : x ∈ cas
      · rw [if_pos hx, if_pos (List.mem_cons_of_mem _ hx)]
      · rw [if_neg hx]
        by_cases hxc : x = ca
        · subst hxc
          rw [if_pos (List.mem_cons_self _ _), uMark, if_neg hc]
        · have hnm : x ∉ ca :: cas := by
            intro hmem
            rcases List.mem_cons.mp hmem with h1 | h1
            · exact hxc h1
            · exact hx h1
          rw [if_neg hnm]

/-- Rebind the whole column store. -/
def withCols (st : Store) (cs : List Column) : Store :=
  { st with cols := cs }

theorem markPKH_step (target : Option String) (names : List String)
    (ta : Nat) (tas : List Nat) (st : Store) :
    markPKH target names (ta :: tas) st =
      markPKH target names tas
        (if some (st.tabs.getD ta defaultHTab).table_name = target then
          withCols st
            (markColsPK names (st.tabs.getD ta defaultHTab).colAddrs st.cols)
        else st) := rfl

theorem markUH_step (target : Option String) (names : List String)
    (ta : Nat) (tas : List Nat) (st : Store) :
    markUH target names (ta :: tas) st =
      markUH target names tas
        (if some (st.tabs.getD ta defaultHTab).table_name = target then
          withCols st
            (markColsU names (st.tabs.getD ta defaultHTab).colAddrs st.cols)
        else st) := rfl

/-- Correspondence of the heap primary-key marking pass with the pure one,
read through the store. -/
theorem markPKH_spec (target : Option String) (names : List String) :
    ∀ (tas : List Nat) (st : Store),
    (flat st.tabs tas).Nodup →
    (∀ a ∈ flat st.tabs tas, a < st.cols.length) →
    (markPKH target names tas st).tabs = st.tabs ∧
    (markPKH target names tas st).cols.length = st.cols.length ∧
    (∀ x, x ∉ flat st.tabs tas →
      (markPKH target names tas st).cols.getD x defaultCol =
        st.cols.getD x defaultCol) ∧
    (∀ b ∈ tas, readTable (markPKH target names tas st) b =
      (if some (readTable st b).table_name = target then
        { readTable st b with
          columns := (readTable st b).columns.map (pkMark names) }
      else readTable st b)) := by
  intro tas
  induction tas with
  | nil =>
    intro st _ _
    exact ⟨rfl, rfl, fun x _ => rfl, fun b hb => absurd hb (by simp)⟩
  | cons ta tas ih =>
    intro st hnd hv
    rw [flat_cons] at hnd hv
    rw [List.nodup_append] at hnd
    obtain ⟨hnd1, hnd2, hdisj⟩ := hnd
    have hv1 : ∀ a ∈ (st.tabs.getD ta defaultHTab).colAddrs,
        a < st.cols.length := fun a ha => hv a (List.mem_append_left _ ha)
    have hv2 : ∀ a ∈ flat st.tabs tas, a < st.cols.length :=
      fun a ha => hv a (List.mem_append_right _ ha)
    rw [markPKH_step]
    by_cases hb : some (st.tabs.getD ta defaultHTab).table_name = target
    · rw [if_pos hb]
      have hgetD := markColsPK_getD names
        (st.tabs.getD ta defaultHTab).colAddrs st.cols hnd1 hv1
      obtain ⟨ih1, ih2, ih3, ih4⟩ := ih
        (withCols st
          (markColsPK names (st.tabs.getD ta defaultHTab).colAddrs st.cols))
        hnd2
        (by intro a ha
            have : a < st.cols.length := hv2 a ha
            simpa [withCols, markColsPK_length] using this)
      have hmt : (markPKH target names tas
          (withCols st (markColsPK names
            (st.tabs.getD ta defaultHTab).colAddrs st.cols))).tabs =
          st.tabs := by rw [ih1]; rfl
      have hframe : ∀ a ∈ (st.tabs.getD ta defaultHTab).colAddrs,
          (markPKH target names tas
            (withCols st (markColsPK names
              (st.tabs.getD ta defaultHTab).colAddrs st.cols))).cols.getD a
            defaultCol = pkMark names (st.cols.getD a defaultCol) := by
        intro a ha
        rw [ih3 a (fun hmem => hdisj ha hmem), show (withCols st
          (markColsPK names (st.tabs.getD ta defaultHTab).colAddrs
            st.cols)).cols = markColsPK names
          (st.tabs.getD ta defaultHTab).colAddrs st.cols from rfl,
          hgetD a, if_pos ha]
      refine ⟨hmt, ?_, ?_, ?_⟩
      · rw [ih2]
        exact markColsPK_length names _ st.cols
      · intro x hx
        rw [flat_cons, List.mem_append] at hx
        push_neg at hx
        rw [ih3 x hx.2, show (withCols st
          (markColsPK names (st.tabs.getD ta defaultHTab).colAddrs
            st.cols)).cols = markColsPK names
          (st.tabs.getD ta defaultHTab).colAddrs st.cols from rfl,
          hgetD x, if_neg hx.1]
      · intro b hbm
        rcases List.mem_cons.mp hbm with hbe | hb2
        · subst hbe
          rw [show (readTable st b).table_name =
            (st.tabs.getD b defaultHTab).table_name from rfl, if_pos hb]
          simp only [readTable, hmt]
          congr 1
          rw [List.map_map]
          exact List.map_congr_left (fun a ha => hframe a ha)
        · have hrb : readTable (withCols st (markColsPK names
              (st.tabs.getD ta defaultHTab).colAddrs st.cols)) b =
              readTable st b := by
            refine readTable_congr_getD _ _ b rfl ?_
            intro a ha
            have hmem : a ∈ flat st.tabs tas :=
              List.mem_flatMap.mpr ⟨b, hb2, ha⟩
            rw [show (withCols st (markColsPK names
              (st.tabs.getD ta defaultHTab).colAddrs st.cols)).cols =
              markColsPK names (st.tabs.getD ta defaultHTab).colAddrs
                st.cols from rfl, hgetD a,
              if_neg (fun hmem2 => hdisj hmem2 hmem)]
          rw [ih4 b hb2, hrb]
    · rw [if_neg hb]
      obtain ⟨ih1, ih2, ih3, ih4⟩ := ih st hnd2 hv2
      refine ⟨ih1, ih2, ?_, ?_⟩
      · intro x hx
        rw [flat_cons, List.mem_append] at hx
        push_neg at hx
        exact ih3 x hx.2
      · intro b hbm
        rcases List.mem_cons.mp hbm with hbe | hb2
        · subst hbe
          rw [show (readTable st b).table_name =
            (st.tabs.getD b defaultHTab).table_name from rfl, if_neg hb]
          refine readTable_congr_getD _ _ b (by rw [ih1]) ?_
          intro a ha
          exact ih3 a (fun hmem => hdisj ha hmem)
        · exact ih4 b hb2

/-- Correspondence of the heap unique marking pass with the pure one. -/
theorem markUH_spec (target : Option String) (names : List String) :
    ∀ (tas : List Nat) (st : Store),
    (flat st.tabs tas).Nodup →
    (∀ a ∈ flat st.tabs tas, a < st.cols.length) →
    (markUH target names tas st).tabs = st.tabs ∧
    (markUH target names tas st).cols.length = st.cols.length ∧
    (∀ x, x ∉ flat st.tabs tas →
      (markUH target names tas st).cols.getD x defaultCol =
        st.cols.getD x defaultCol) ∧
    (∀ b ∈ tas, readTable (markUH target names tas st) b =
      (if some (readTable st b).table_name = target then
        { readTable st b with
          columns := (readTable st b).columns.map (uMark names) }
      else readTable st b)) := by
  intro tas
  induction tas with
  | nil =>
    intro st _ _
    exact ⟨rfl, rfl, fun x _ => rfl, fun b hb => absurd hb (by simp)⟩
  | cons ta tas ih =>
    intro st hnd hv
    rw [flat_cons] at hnd hv
    rw [List.nodup_append] at hnd
    obtain ⟨hnd1, hnd2, hdisj⟩ := hnd
    have hv1 : ∀ a ∈ (st.tabs.getD ta defaultHTab).colAddrs,
        a < st.cols.length := fun a ha => hv a (List.mem_append_left _ ha)
    have hv2 : ∀ a ∈ flat st.tabs tas, a < st.cols.length :=
      fun a ha => hv a (List.mem_append_right _ ha)
    rw [markUH_step]
    by_cases hb : some (st.tabs.getD ta defaultHTab).table_name = target
    · rw [if_pos hb]
      have hgetD := markColsU_getD names
        (st.tabs.getD ta defaultHTab).colAddrs st.cols hnd1 hv1
      obtain ⟨ih1, ih2, ih3, ih4⟩ := ih
        (withCols st
          (markColsU names (st.tabs.getD ta defaultHTab).colAddrs st.cols))
        hnd2
        (by intro a ha
            have : a < st.cols.length := hv2 a ha
            simpa [withCols, markColsU_length] using this)
      have hmt : (markUH target names tas
          (withCols st (markColsU names
            (st.tabs.getD ta defaultHTab).colAddrs st.cols))).tabs =
          st.tabs := by rw [ih1]; rfl
      have hframe : ∀ a ∈ (st.tabs.getD ta defaultHTab).colAddrs,
          (markUH target names tas
            (withCols st (markColsU names
              (st.tabs.getD ta defaultHTab).colAddrs st.cols))).cols.getD a
            defaultCol = uMark names (st.cols.getD a defaultCol) := by
        intro a ha
        rw [ih3 a (fun hmem => hdisj ha hmem), show (withCols st
          (markColsU names (st.tabs.getD ta defaultHTab).colAddrs
            st.cols)).cols = markColsU names
          (st.tabs.getD ta defaultHTab).colAddrs st.cols from rfl,
          hgetD a, if_pos ha]
      refine ⟨hmt, ?_, ?_, ?_⟩
      · rw [ih2]
        exact markColsU_length names _ st.cols
      · intro x hx
        rw [flat_cons, List.mem_append] at hx
        push_neg at hx
        rw [ih3 x hx.2, show (withCols st
          (markColsU names (st.tabs.getD ta defaultHTab).colAddrs
            st.cols)).cols = markColsU names
          (st.tabs.getD ta defaultHTab).colAddrs st.cols from rfl,
          hgetD x, if_neg hx.1]
      · intro b hbm
        rcases List.mem_cons.mp hbm with hbe | hb2
        · subst hbe
          rw [show (readTable st b).table_name =
            (st.tabs.getD b defaultHTab).table_name from rfl, if_pos hb]
          simp only [readTable, hmt]
          congr 1
          rw [List.map_map]
          exact List.map_congr_left (fun a ha => hframe a ha)
        · have hrb : readTable (withCols st (markColsU names
              (st.tabs.getD ta defaultHTab).colAddrs st.cols)) b =
              readTable st b := by
            refine readTable_congr_getD _ _ b rfl ?_
            intro a ha
            have hmem : a ∈ flat st.tabs tas :=
              List.mem_flatMap.mpr ⟨b, hb2, ha⟩
            rw [show (withCols st (markColsU names
              (st.tabs.getD ta defaultHTab).colAddrs st.cols)).cols =
              markColsU names (st.tabs.getD ta defaultHTab).colAddrs
                st.cols from rfl, hgetD a,
              if_neg (fun hmem2 => hdisj hmem2 hmem)]
          rw [ih4 b hb2, hrb]
    · rw [if_neg hb]
      obtain ⟨ih1, ih2, ih3, ih4⟩ := ih st hnd2 hv2
      refine ⟨ih1, ih2, ?_, ?_⟩
      · intro x hx
        rw [flat_cons, List.mem_append] at hx
        push_neg at hx
        exact ih3 x hx.2
      · intro b hbm
        rcases List.mem_cons.mp hbm with hbe | hb2
        · subst hbe
          rw [show (readTable st b).table_name =
            (st.tabs.getD b defaultHTab).table_name from rfl, if_neg hb]
          refine readTable_congr_getD _ _ b (by rw [ih1]) ?_
          intro a ha
          exact ih3 a (fun hmem => hdisj ha hmem)
        · exact ih4 b hb2

/-- One constraint application step commutes with the pure step, read
through the store. -/
theorem applyOneH_spec (tabAddrs : List Nat) (st : Store) (c : Constraint)
    (hnd : (flat st.tabs tabAddrs).Nodup)
    (hv : ∀ a ∈ flat st.tabs tabAddrs, a < st.cols.length) :
    (applyOneH tabAddrs st c).tabs = st.tabs ∧
    (applyOneH tabAddrs st c).cols.length = st.cols.length ∧
    tabAddrs.map (readTable (applyOneH tabAddrs st c)) =
      ConstraintHandler.applyOneConstraint (tabAddrs.map (readTable st)) c := by
  have hstep : applyOneH tabAddrs st c =
      (if c.constraint_type = "p" ∧ c.columns ≠ [] then
        markPKH (pyOrOpt c.table_name c.source_table) c.columns tabAddrs st
      else if c.constraint_type = "u" ∧ c.columns ≠ [] then
        markUH (pyOrOpt c.table_name c.source_table) c.columns tabAddrs st
      else st) := rfl
  have hstepP : ConstraintHandler.applyOneConstraint
      (tabAddrs.map (readTable st)) c =
      (if c.constraint_type = "p" ∧ c.columns ≠ [] then
        ConstraintHandler.markColumnsAsPrimaryKey (tabAddrs.map (readTable st))
          (pyOrOpt c.table_name c.source_table) c.columns
      else if c.constraint_type = "u" ∧ c.columns ≠ [] then
        ConstraintHandler.markColumnsAsUnique (tabAddrs.map (readTable st))
          (pyOrOpt c.table_name c.source_table) c.columns
      else tabAddrs.map (readTable st)) := rfl
  rw [hstep, hstepP]
  by_cases h1 : c.constraint_type = "p" ∧ c.columns ≠ []
  · rw [if_pos h1, if_pos h1]
    obtain ⟨m1, m2, _, m4⟩ := markPKH_spec
      (pyOrOpt c.table_name c.source_table) c.columns tabAddrs st hnd hv
    refine ⟨m1, m2, ?_⟩
    show _ = (tabAddrs.map (readTable st)).map _
    rw [List.map_map]
    exact List.map_congr_left (fun b hbm => m4 b hbm)
  · rw [if_neg h1, if_neg h1]
    by_cases h2 : c.constraint_type = "u" ∧ c.columns ≠ []
    · rw [if_pos h2, if_pos h2]
      obtain ⟨m1, m2, _, m4⟩ := markUH_spec
        (pyOrOpt c.table_name c.source_table) c.columns tabAddrs st hnd hv
      refine ⟨m1, m2, ?_⟩
      show _ = (tabAddrs.map (readTable st)).map _
      rw [List.map_map]
      exact List.map_congr_left (fun b hbm => m4 b hbm)
    · rw [if_neg h2, if_neg h2]
      exact ⟨rfl, rfl, rfl⟩

/-- The whole constraint application fold commutes with the pure fold. -/
theorem foldl_applyOneH_spec (tabAddrs : List Nat) :
    ∀ (cs : List Constraint) (st : Store),
    (flat st.tabs tabAddrs).Nodup →
    (∀ a ∈ flat st.tabs tabAddrs, a < st.cols.length) →
    (cs.foldl (applyOneH tabAddrs) st).tabs = st.tabs ∧
    (cs.foldl (applyOneH tabAddrs) st).cols.length = st.cols.length ∧
    tabAddrs.map (readTable (cs.foldl (applyOneH tabAddrs) st)) =
      cs.foldl ConstraintHandler.applyOneConstraint
        (tabAddrs.map (readTable st)) := by
  intro cs
  induction cs with
  | nil => intro st _ _; exact ⟨rfl, rfl, rfl⟩
  | cons c cs ih =>
    intro st hnd hv
    obtain ⟨a1, a2, a3⟩ := applyOneH_spec tabAddrs st c hnd hv
    have hflat1 : flat (applyOneH tabAddrs st c).tabs tabAddrs =
        flat st.tabs tabAddrs := by rw [flat, a1, flat]
    obtain ⟨i1, i2, i3⟩ := ih (applyOneH tabAddrs st c)
      (by rw [hflat1]; exact hnd)
      (by intro a ha
          rw [hflat1] at ha
          rw [a2]
          exact hv a ha)
    refine ⟨?_, ?_, ?_⟩
    · rw [List.foldl_cons, i1, a1]
    · rw [List.foldl_cons, i2, a2]
    · rw [List.foldl_cons, List.foldl_cons, i3, a3]

/-- `process_constraints` on the heap model agrees with the pure function
when every field is read back through the mutated store: the tables seen
through the shared references are the pure output tables, and the rebound
standalone constraint list matches too. -/
theorem processConstraintsH_view (s : HSchema) (st : Store)
    (hTnd : s.tabAddrs.Nodup)
    (hTv : ∀ ta ∈ s.tabAddrs, ta < st.tabs.length)
    (hFnd : (flat st.tabs s.tabAddrs).Nodup)
    (hFv : ∀ ca ∈ flat st.tabs s.tabAddrs, ca < st.cols.length) :
    s.tabAddrs.map (readTable (processConstraintsH s st).2) =
      (ConstraintHandler.processConstraints (view s st)).tables ∧
    (processConstraintsH s st).1.constraints =
      (ConstraintHandler.processConstraints (view s st)).constraints := by
  obtain ⟨p1, p2, p3, p4, p5⟩ := processTabsConstraintsH_spec s.tabAddrs
    ({} : ConstraintHandler.CHState) st hTnd hTv
  have hTv2 : ∀ ta ∈ s.tabAddrs,
      ta < (processTabsConstraintsH s.tabAddrs
        ({} : ConstraintHandler.CHState) st).1.tabs.length := by
    intro ta hta
    rw [p2]
    exact hTv ta hta
  obtain ⟨q1, q2, q3, q4, q5⟩ := collectTableConstraintsH_spec s.tabAddrs
    (processTabsConstraintsH s.tabAddrs
      ({} : ConstraintHandler.CHState) st).1 hTnd hTv2
  have hflatA : flat (processTabsConstraintsH s.tabAddrs
      ({} : ConstraintHandler.CHState) st).1.tabs s.tabAddrs =
      flat st.tabs s.tabAddrs := by
    refine List.flatMap_congr (fun b hbm => ?_)
    rw [p4 b hbm]
  have hflatB : flat (collectTableConstraintsH s.tabAddrs
      (processTabsConstraintsH s.tabAddrs
        ({} : ConstraintHandler.CHState) st).1).1.tabs s.tabAddrs =
      flat st.tabs s.tabAddrs := by
    rw [← hflatA]
    refine List.flatMap_congr (fun b hbm => ?_)
    rw [q4 b hbm]
  have hBcols : (collectTableConstraintsH s.tabAddrs
      (processTabsConstraintsH s.tabAddrs
        ({} : ConstraintHandler.CHState) st).1).1.cols = st.cols := by
    rw [q1, p1]
  obtain ⟨f1, f2, f3⟩ := foldl_applyOneH_spec s.tabAddrs
    ((collectTableConstraintsH s.tabAddrs
        (processTabsConstraintsH s.tabAddrs
          ({} : ConstraintHandler.CHState) st).1).2 ++
      (ConstraintHandler.processStandaloneConstraints s.constraints
        (processTabsConstraintsH s.tabAddrs
          ({} : ConstraintHandler.CHState) st).2).1)
    (collectTableConstraintsH s.tabAddrs
      (processTabsConstraintsH s.tabAddrs
        ({} : ConstraintHandler.CHState) st).1).1
    (by rw [hflatB]; exact hFnd)
    (by intro a ha
        rw [hflatB] at ha
        rw [hBcols]
        exact hFv a ha)
  have hpointA : ∀ b ∈ s.tabAddrs,
      readTable (processTabsConstraintsH s.tabAddrs
        ({} : ConstraintHandler.CHState) st).1 b =
      { readTable st b with
        constraints := (ConstraintHandler.processTableConstraints
          (readTable st b).constraints (readTable st b).table_name
          ({} : ConstraintHandler.CHState)).1 } := by
    intro b hbm
    have hcs : (readTable st b).constraints =
        (st.tabs.getD b defaultHTab).constraints := rfl
    have hnm : (readTable st b).table_name =
        (st.tabs.getD b defaultHTab).table_name := rfl
    simp only [readTable, p1, p4 b hbm, hcs, hnm]
  have hviewA : s.tabAddrs.map (readTable (processTabsConstraintsH s.tabAddrs
      ({} : ConstraintHandler.CHState) st).1) =
      (ConstraintHandler.processAllTables (s.tabAddrs.map (readTable st))
        ({} : ConstraintHandler.CHState)).1 := by
    rw [processAllTables_fst, List.map_map]
    exact List.map_congr_left (fun b hbm => hpointA b hbm)
  have hpointB : ∀ b ∈ s.tabAddrs,
      readTable (collectTableConstraintsH s.tabAddrs
        (processTabsConstraintsH s.tabAddrs
          ({} : ConstraintHandler.CHState) st).1).1 b =
      ConstraintHandler.setSourceOnTable
        (readTable (processTabsConstraintsH s.tabAddrs
          ({} : ConstraintHandler.CHState) st).1 b) := by
    intro b hbm
    simp only [readTable, q1, q4 b hbm, ConstraintHandler.setSourceOnTable]
    rfl
  have hviewB : s.tabAddrs.map (readTable (collectTableConstraintsH s.tabAddrs
      (processTabsConstraintsH s.tabAddrs
        ({} : ConstraintHandler.CHState) st).1).1) =
      (s.tabAddrs.map (readTable (processTabsConstraintsH s.tabAddrs
        ({} : ConstraintHandler.CHState) st).1)).map
        ConstraintHandler.setSourceOnTable := by
    rw [List.map_map]
    exact List.map_congr_left (fun b hbm => hpointB b hbm)
  have hall : (collectTableConstraintsH s.tabAddrs
      (processTabsConstraintsH s.tabAddrs
        ({} : ConstraintHandler.CHState) st).1).2 =
      ((s.tabAddrs.map (readTable (processTabsConstraintsH s.tabAddrs
        ({} : ConstraintHandler.CHState) st).1)).map
        ConstraintHandler.setSourceOnTable).flatMap
        (fun t => t.constraints) := by
    rw [q5, List.map_map, List.flatMap_map]
    exact List.flatMap_congr (fun b hbm => rfl)
  have hheap : (processConstraintsH s st).2 =
      ((collectTableConstraintsH s.tabAddrs
          (processTabsConstraintsH s.tabAddrs
            ({} : ConstraintHandler.CHState) st).1).2 ++
        (ConstraintHandler.processStandaloneConstraints s.constraints
          (processTabsConstraintsH s.tabAddrs
            ({} : ConstraintHandler.CHState) st).2).1).foldl
        (applyOneH s.tabAddrs)
        (collectTableConstraintsH s.tabAddrs
          (processTabsConstraintsH s.tabAddrs
            ({} : ConstraintHandler.CHState) st).1).1 := rfl
  have hpureT : (ConstraintHandler.processConstraints (view s st)).tables =
      (((ConstraintHandler.processAllTables (s.tabAddrs.map (readTable st))
          ({} : ConstraintHandler.CHState)).1.map
          ConstraintHandler.setSourceOnTable).flatMap (fun t => t.constraints) ++
        (ConstraintHandler.processStandaloneConstraints s.constraints
          (ConstraintHandler.processAllTables (s.tabAddrs.map (readTable st))
            ({} : ConstraintHandler.CHState)).2).1).foldl
        ConstraintHandler.applyOneConstraint
        ((ConstraintHandler.processAllTables (s.tabAddrs.map (readTable st))
          ({} : ConstraintHandler.CHState)).1.map
          ConstraintHandler.setSourceOnTable) := rfl
  have hpureC : (ConstraintHandler.processConstraints (view s st)).constraints =
      (ConstraintHandler.processStandaloneConstraints s.constraints
        (ConstraintHandler.processAllTables (s.tabAddrs.map (readTable st))
          ({} : ConstraintHandler.CHState)).2).1 := rfl
  constructor
  · rw [hheap, f3, hviewB, hviewA, hpureT, hall, hviewA, p5]
  · rw [hpureC]
    have hheapC : (processConstraintsH s st).1.constraints =
        (ConstraintHandler.processStandaloneConstraints s.constraints
          (processTabsConstraintsH s.tabAddrs
            ({} : ConstraintHandler.CHState) st).2).1 := rfl
    rw [hheapC, p5]

/-- `transform_types` on the heap model: the tables read back through the
mutated store are the pure transformed tables. -/
theorem transformTypesH_view (s : HSchema) (st : Store)
    (hFnd : (flat st.tabs s.tabAddrs).Nodup)
    (hFv : ∀ ca ∈ flat st.tabs s.tabAddrs, ca < st.cols.length) :
    s.tabAddrs.map (readTable (transformTypesH s st).2) =
      (TypeMapper.transformTypes (view s st)).tables := by
  obtain ⟨t1, t2, t3, t4, t5⟩ := transformTabsH_spec TypeMapper.defaultDecisions
    (s.enums.map (fun e => strLower e.enum_name)) s.tabAddrs st hFnd hFv
  have hheap : (transformTypesH s st).2 =
      (transformTabsH TypeMapper.defaultDecisions
        (s.enums.map (fun e => strLower e.enum_name)) s.tabAddrs st).1 := rfl
  have hpure : (TypeMapper.transformTypes (view s st)).tables =
      (TypeMapper.transformTablesLoop TypeMapper.defaultDecisions
        (s.enums.map (fun e => strLower e.enum_name))
        (s.tabAddrs.map (readTable st))).1 := rfl
  rw [hheap, hpure]
  exact t4

end HeapModel
def runPipeline (sql : String) : String :=
  let cleaned := SQLCleaner.cleanDump sql
  let schema := SQLParse.parseSqlDump cleaned
  let t1 := TypeMapper.transformTypes schema
  let t2 := ConstraintHandler.processConstraints t1
  DBMLGenerator.generate t2

/-! ### Generic list lemmas for the substitution-scanner proofs -/

theorem contains_of_startsWith {s p : List Char} (h : startsWithL s p = true) :
    containsSubL s p = true := by
  cases s with
  | nil => exact h
  | cons c t =>
    unfold containsSubL
    rw [h, Bool.true_or]

/-- An occurrence of `pat` in `xs ++ ys` lies in `xs`, lies in `ys`, or
straddles the boundary, in which case a nonempty proper prefix of `pat` is a
suffix of `xs` and the rest of `pat` is a prefix of `ys`. -/
theorem occurrence_cases {xs ys pat : List Char}
    (h : containsSubL (xs ++ ys) pat = true) :
    containsSubL xs pat = true ∨ containsSubL ys pat = true ∨
    ∃ k, 0 < k ∧ k < pat.length ∧ pat.take k <:+ xs ∧ pat.drop k <+: ys := by
  obtain ⟨a, b, hsplit⟩ := containsSubL_iff_append.mp h
  have hsplit2 : xs ++ ys = (a ++ pat) ++ b := by rw [hsplit, List.append_assoc]
  rcases List.append_eq_append_iff.mp hsplit2 with ⟨m, hm1, hm2⟩ | ⟨q, hq1, hq2⟩
  · rcases List.append_eq_append_iff.mp hm1.symm with ⟨w, hw1, hw2⟩ | ⟨w, hw1, hw2⟩
    · right; left
      apply containsSubL_iff_append.mpr
      exact ⟨w, b, by rw [hm2, hw2, List.append_assoc]⟩
    · cases w with
      | nil =>
        right; left
        rw [List.nil_append] at hw2
        apply containsSubL_iff_append.mpr
        exact ⟨[], b, by rw [hm2, ← hw2, List.nil_append]⟩
      | cons w0 w1 =>
        cases hmn : m with
        | nil =>
          left
          apply containsSubL_iff_append.mpr
          refine ⟨a, [], ?_⟩
          rw [hw1, hw2, hmn, List.append_nil, List.append_nil]
        | cons m0 m1 =>
          right; right
          refine ⟨(w0 :: w1).length, by simp, ?_, ?_, ?_⟩
          · rw [hw2, hmn]
            simp
          · rw [hw2, List.take_left]
            exact ⟨a, hw1.symm⟩
          · rw [hw2, List.drop_left, hmn]
            rw [hmn] at hm2
            exact ⟨b, hm2.symm⟩
  · left
    apply containsSubL_iff_append.mpr
    exact ⟨a, q, by rw [hq1, List.append_assoc]⟩

theorem mem_of_getLastQ {l : List Char} {a : Char} (h : l.getLast? = some a) :
    a ∈ l := by
  induction l with
  | nil => exact absurd h (by simp)
  | cons x t ih =>
    cases t with
    | nil =>
      simp only [List.getLast?_singleton, Option.some.injEq] at h
      rw [h]
      exact List.mem_singleton_self _
    | cons y t2 =>
      rw [List.getLast?_cons_cons] at h
      exact List.mem_cons_of_mem _ (ih h)

theorem getLastQ_append_right {xs ys : List Char} (h : ys ≠ []) :
    (xs ++ ys).getLast? = ys.getLast? := by
  induction xs with
  | nil => rfl
  | cons x t ih =>
    cases hc : t ++ ys with
    | nil => exact absurd (List.append_eq_nil.mp hc).2 h
    | cons c u =>
      have : (x :: t) ++ ys = x :: c :: u := by rw [List.cons_append, hc]
      rw [this, List.getLast?_cons_cons, ← hc, ih]

theorem dropWhile_head_false {p : Char → Bool} {l : List Char} {c : Char}
    {cs : List Char} (h : l.dropWhile p = c :: cs) : p c = false := by
  induction l with
  | nil => simp at h
  | cons x t ih =>
    rw [List.dropWhile_cons] at h
    by_cases hx : p x = true
    · rw [if_pos hx] at h
      exact ih h
    · rw [if_neg hx] at h
      injection h with h1 h2
      rw [← h1]
      exact Bool.not_eq_true _ ▸ hx

theorem startsWithCI_self_append (p r : List Char) :
    startsWithCI (p ++ r) p = true := by
  induction p with
  | nil =>
    cases r with
    | nil => rfl
    | cons c t => rfl
  | cons c ps ih =>
    rw [List.cons_append]
    unfold startsWithCI
    rw [Bool.and_eq_true]
    exact ⟨by simp, ih⟩

theorem startsWithCI_structure {s p : List Char} (h : startsWithCI s p = true) :
    ∃ pre r, s = pre ++ r ∧ pre.map upChar = p.map upChar := by
  induction p generalizing s with
  | nil => exact ⟨[], s, rfl, rfl⟩
  | cons a ps ih =>
    cases s with
    | nil => simp [startsWithCI] at h
    | cons c cs =>
      unfold startsWithCI at h
      rw [Bool.and_eq_true] at h
      obtain ⟨h1, h2⟩ := h
      obtain ⟨pre, r, hs, hm⟩ := ih h2
      refine ⟨c :: pre, r, by rw [List.cons_append, hs], ?_⟩
      simp only [List.map_cons, hm]
      rw [of_decide_eq_true h1]

theorem eatCI_structure {pat cs r : List Char} (h : eatCI pat cs = some r) :
    ∃ pre, cs = pre ++ r ∧ pre.map upChar = pat.map upChar := by
  unfold eatCI at h
  by_cases hs : startsWithCI cs pat = true
  · rw [if_pos hs] at h
    injection h with h1
    obtain ⟨pre, rr, hcs, hm⟩ := startsWithCI_structure hs
    have hlen : pre.length = pat.length := by
      have := congrArg List.length hm
      simpa using this
    refine ⟨pre, ?_, hm⟩
    rw [← h1, hcs, ← hlen, List.drop_left]
  · rw [if_neg hs] at h
    exact absurd h (by simp)

theorem eatWS1_structure {cs r : List Char} (h : eatWS1 cs = some r) :
    ∃ ws, cs = ws ++ r ∧ ws ≠ [] ∧ ∀ w ∈ ws, isPySpace w = true := by
  unfold eatWS1 at h
  by_cases he : (cs.takeWhile isPySpace).isEmpty = true
  · rw [if_pos he] at h
    exact absurd h (by simp)
  · rw [if_neg he] at h
    injection h with h1
    refine ⟨cs.takeWhile isPySpace, ?_, ?_, ?_⟩
    · rw [← h1]
      exact (takeWhile_plus_drop isPySpace cs).symm
    · intro hnil
      exact he (by rw [hnil]; rfl)
    · intro w hw
      exact mem_takeWhile_pred hw

/-! ### Lemmas about the negative-default substitution scanner -/

namespace SQLCleaner

/-- Anatomy of a successful `DEFAULT\s+(-\d+)` match: a case variant of
`DEFAULT`, nonempty whitespace, a minus sign and a nonempty maximal digit
run, followed by the returned rest. -/
theorem matchNegDefault_structure {cs grp rest : List Char}
    (h : matchNegDefault cs = some (grp, rest)) :
    ∃ pre ws ds, cs = pre ++ (ws ++ '-' :: (ds ++ rest)) ∧
      pre.map upChar = "DEFAULT".data ∧ ws ≠ [] ∧
      (∀ w ∈ ws, isPySpace w = true) ∧ ds ≠ [] ∧
      (∀ d ∈ ds, isDigitB d = true) ∧ grp = '-' :: ds := by
  unfold matchNegDefault at h
  cases h1 : eatCI "DEFAULT".data cs with
  | none => rw [h1] at h; exact absurd h (by simp)
  | some r1 =>
    rw [h1] at h
    dsimp only at h
    cases h2 : eatWS1 r1 with
    | none => rw [h2] at h; exact absurd h (by simp)
    | some r2 =>
      rw [h2] at h
      dsimp only at h
      cases r2 with
      | nil => exact absurd h (by simp)
      | cons c r3 =>
        dsimp only at h
        by_cases hc : c = '-'
        · rw [if_pos hc] at h
          by_cases hde : (r3.takeWhile isDigitB).isEmpty = true
          · rw [if_pos hde] at h
            exact absurd h (by simp)
          · rw [if_neg hde] at h
            simp only [Option.some.injEq, Prod.mk.injEq] at h
            obtain ⟨hg, hr⟩ := h
            obtain ⟨pre, hcs, hpre⟩ := eatCI_structure h1
            obtain ⟨ws, hr1, hwsne, hws⟩ := eatWS1_structure h2
            have hsplit3 : r3 = r3.takeWhile isDigitB ++ rest := by
              rw [← hr]
              exact (takeWhile_plus_drop isDigitB r3).symm
            refine ⟨pre, ws, r3.takeWhile isDigitB, ?_, ?_, hwsne, hws, ?_, ?_,
              hg.symm⟩
            · have hcons : c :: r3 = '-' :: (r3.takeWhile isDigitB ++ rest) := by
                rw [hc]
                exact congrArg (fun t => '-' :: t) hsplit3
              rw [hcs, hr1, hcons]
            · rw [hpre]
              decide
            · intro hnil
              exact hde (by rw [hnil]; rfl)
            · intro d hd
              exact mem_takeWhile_pred hd
        · rw [if_neg hc] at h
          exact absurd h (by simp)

theorem matchNegDefault_lt {cs grp rest : List Char}
    (h : matchNegDefault cs = some (grp, rest)) : rest.length < cs.length := by
  obtain ⟨pre, ws, ds, hcs, hpre, hwsne, _, hdsne, _, _⟩ :=
    matchNegDefault_structure h
  have hl := congrArg List.length hcs
  simp only [List.length_append, List.length_cons] at hl
  omega

/-- The matcher succeeds at a literal `DEFAULT -5` occurrence: the greedy
digit run continues into the following text. -/
theorem matchNegDefault_at_some (b : List Char) :
    matchNegDefault ("DEFAULT -5".data ++ b) =
      some ('-' :: '5' :: b.takeWhile isDigitB,
        b.drop (b.takeWhile isDigitB).length) := by
  have h0 : "DEFAULT -5".data ++ b = "DEFAULT".data ++ (' ' :: '-' :: '5' :: b) :=
    rfl
  unfold matchNegDefault
  rw [h0]
  have h1 : eatCI "DEFAULT".data ("DEFAULT".data ++ (' ' :: '-' :: '5' :: b)) =
      some (' ' :: '-' :: '5' :: b) := by
    unfold eatCI
    rw [if_pos (startsWithCI_self_append _ _)]
    rw [List.drop_left]
  rw [h1]
  dsimp only
  have h2 : eatWS1 (' ' :: '-' :: '5' :: b) = some ('-' :: '5' :: b) := by
    unfold eatWS1
    have ht : (' ' :: '-' :: '5' :: b).takeWhile isPySpace = [' '] := by
      rw [List.takeWhile_cons, if_pos (by decide), List.takeWhile_cons,
        if_neg (by decide)]
    rw [ht]
    rfl
  rw [h2]
  dsimp only
  rw [if_pos rfl]
  have h3 : ('5' :: b).takeWhile isDigitB = '5' :: b.takeWhile isDigitB := by
    rw [List.takeWhile_cons, if_pos (by decide)]
  rw [h3]
  have h4 : ('5' :: b.takeWhile isDigitB).isEmpty = false := rfl
  rw [h4]
  simp only [Bool.false_eq_true, if_false]
  rw [List.length_cons, List.drop_succ_cons]

/-- The matcher at a literal `DEFAULT -5` occurrence whose continuation does
not begin with a digit captures exactly `-5`. -/
theorem matchNegDefault_at {b : List Char} (hb : isDigitB (b.headD ' ') = false) :
    matchNegDefault ("DEFAULT -5".data ++ b) = some (['-', '5'], b) := by
  have htw : b.takeWhile isDigitB = [] := by
    cases b with
    | nil => rfl
    | cons c cs =>
      simp only [List.headD_cons] at hb
      rw [List.takeWhile_cons,
        if_neg (by intro hx; rw [hb] at hx; exact Bool.noConfusion hx)]
  rw [matchNegDefault_at_some b, htw]
  rfl

theorem fixNegGo_nil (fuel : Nat) : fixNegGo fuel [] = [] := by
  cases fuel with
  | zero => rfl
  | succ n => rfl

theorem fixNegGo_cons_none (fuel : Nat) (c : Char) (cs : List Char)
    (hm : matchNegDefault (c :: cs) = none) :
    fixNegGo (fuel + 1) (c :: cs) = c :: fixNegGo fuel cs := by
  have h : fixNegGo (fuel + 1) (c :: cs) =
      match matchNegDefault (c :: cs) with
      | some (grp, rest) =>
        "DEFAULT ".data ++ (sqc :: grp ++ [sqc]) ++ fixNegGo fuel rest
      | none => c :: fixNegGo fuel cs := rfl
  rw [h, hm]

theorem fixNegGo_cons_some (fuel : Nat) (c : Char) (cs grp rest : List Char)
    (hm : matchNegDefault (c :: cs) = some (grp, rest)) :
    fixNegGo (fuel + 1) (c :: cs) =
      "DEFAULT ".data ++ (sqc :: grp ++ [sqc]) ++ fixNegGo fuel rest := by
  have h : fixNegGo (fuel + 1) (c :: cs) =
      match matchNegDefault (c :: cs) with
      | some (grp, rest) =>
        "DEFAULT ".data ++ (sqc :: grp ++ [sqc]) ++ fixNegGo fuel rest
      | none => c :: fixNegGo fuel cs := rfl
  rw [h, hm]

/-- The fuel is irrelevant once it covers the input length. -/
theorem fixNegGo_eq (f1 : Nat) : ∀ f2 s, s.length ≤ f1 → s.length ≤ f2 →
    fixNegGo f1 s = fixNegGo f2 s := by
  induction f1 with
  | zero =>
    intro f2 s h1 h2
    have hs : s = [] := List.eq_nil_of_length_eq_zero (Nat.le_zero.mp h1)
    rw [hs, fixNegGo_nil, fixNegGo_nil]
  | succ n ih =>
    intro f2 s h1 h2
    cases s with
    | nil => rw [fixNegGo_nil, fixNegGo_nil]
    | cons c cs =>
      simp only [List.length_cons] at h1 h2
      cases f2 with
      | zero => omega
      | succ m =>
        cases hm : matchNegDefault (c :: cs) with
        | none =>
          rw [fixNegGo_cons_none n _ _ hm, fixNegGo_cons_none m _ _ hm]
          rw [ih m cs (by omega) (by omega)]
        | some p =>
          obtain ⟨grp, rest⟩ := p
          have hlt : rest.length < cs.length + 1 := by
            have := matchNegDefault_lt hm
            simpa using this
          rw [fixNegGo_cons_some n _ _ _ _ hm, fixNegGo_cons_some m _ _ _ _ hm]
          rw [ih m rest (by omega) (by omega)]

theorem fixNegL_copy {c : Char} {cs : List Char}
    (hm : matchNegDefault (c :: cs) = none) :
    fixNegL (c :: cs) = c :: fixNegL cs := by
  unfold fixNegL
  rw [show (c :: cs).length = cs.length + 1 from rfl]
  exact fixNegGo_cons_none cs.length c cs hm

theorem fixNegL_step {c : Char} {cs grp rest : List Char}
    (hm : matchNegDefault (c :: cs) = some (grp, rest)) :
    fixNegL (c :: cs) =
      "DEFAULT ".data ++ (sqc :: grp ++ [sqc]) ++ fixNegL rest := by
  unfold fixNegL
  rw [show (c :: cs).length = cs.length + 1 from rfl]
  rw [fixNegGo_cons_some cs.length c cs grp rest hm]
  have hle : rest.length ≤ cs.length := by
    have := matchNegDefault_lt hm
    simp only [List.length_cons] at this
    omega
  rw [fixNegGo_eq cs.length rest.length rest hle (le_refl _)]

/-- An output character other than `D` can only be a copied input character:
the replacement blocks all start with `D`. -/
theorem fixNegL_peel {u : List Char} {y : Char} {T : List Char}
    (h : fixNegL u = y :: T) (hy : y ≠ 'D') :
    ∃ v, u = y :: v ∧ matchNegDefault u = none ∧ fixNegL v = T := by
  cases u with
  | nil =>
    rw [show fixNegL ([] : List Char) = [] from rfl] at h
    exact absurd h (by simp)
  | cons d ds =>
    cases hm : matchNegDefault (d :: ds) with
    | none =>
      rw [fixNegL_copy hm] at h
      injection h with h1 h2
      refine ⟨ds, ?_, ?_, h2⟩
      · rw [h1]
      · exact hm ▸ rfl
    | some p =>
      obtain ⟨grp, rest⟩ := p
      rw [fixNegL_step hm] at h
      have hhead : 'D' = y := congrArg (fun l => l.headD ' ') h
      exact absurd hhead.symm hy

theorem fixNegL_peel_many (w : List Char) :
    ∀ u T, fixNegL u = w ++ T → (∀ y ∈ w, y ≠ 'D') →
    ∃ v, u = w ++ v ∧ fixNegL v = T := by
  induction w with
  | nil =>
    intro u T h _
    exact ⟨u, rfl, h⟩
  | cons y w ih =>
    intro u T h hw
    obtain ⟨v, hu, hnone, hv⟩ :=
      fixNegL_peel (show fixNegL u = y :: (w ++ T) from h)
        (hw y (List.mem_cons_self _ _))
    obtain ⟨v2, hv2, hT⟩ := ih v T hv (fun z hz => hw z (List.mem_cons_of_mem _ hz))
    exact ⟨v2, by rw [hu, hv2]; simp, hT⟩

/-- No literal `DEFAULT -5` substring survives the substitution scan. -/
theorem fixNeg_no_unquoted_aux (n : Nat) : ∀ s : List Char, s.length ≤ n →
    containsSubL (fixNegL s) "DEFAULT -5".data = false := by
  induction n with
  | zero =>
    intro s h
    have hs : s = [] := List.eq_nil_of_length_eq_zero (Nat.le_zero.mp h)
    rw [hs]
    decide
  | succ n ih =>
    intro s h
    cases s with
    | nil => decide
    | cons c cs =>
      simp only [List.length_cons] at h
      cases hm : matchNegDefault (c :: cs) with
      | none =>
        rw [fixNegL_copy hm]
        have hrec : containsSubL (fixNegL cs) "DEFAULT -5".data = false :=
          ih cs (by omega)
        unfold containsSubL
        rw [hrec, Bool.or_false]
        by_contra hs
        rw [Bool.not_eq_false] at hs
        obtain ⟨r, hr⟩ := startsWithL_iff_append.mp hs
        have hc : c = 'D' := congrArg (fun l => l.headD ' ') hr
        have htail : fixNegL cs = "EFAULT -5".data ++ r :=
          congrArg List.tail hr
        obtain ⟨v, hcsv, hFv⟩ :=
          fixNegL_peel_many "EFAULT -5".data cs r htail (by decide)
        have hm2 : matchNegDefault ("DEFAULT -5".data ++ v) = none := by
          rw [hc, hcsv] at hm
          exact hm
        rw [matchNegDefault_at_some v] at hm2
        exact absurd hm2 (by simp)
      | some p =>
        obtain ⟨grp, rest⟩ := p
        rw [fixNegL_step hm]
        obtain ⟨pre, ws, ds, hcs, hpre, hwsne, hws, hdsne, hds, hgrp⟩ :=
          matchNegDefault_structure hm
        have hrest : rest.length ≤ n := by
          have := matchNegDefault_lt hm
          simp only [List.length_cons] at this
          omega
        have hrec := ih rest hrest
        by_contra hcon
        rw [Bool.not_eq_false] at hcon
        rcases occurrence_cases hcon with hin1 | hin2 | ⟨k, hk0, hk10, hsuf, hpref⟩
        · have hpair : containsSubL ("DEFAULT ".data ++ (sqc :: grp ++ [sqc]))
              [' ', '-'] = true := by
            obtain ⟨a2, b2, hsp⟩ := containsSubL_iff_append.mp hin1
            rw [hsp]
            have hp9 : containsSubL "DEFAULT -5".data [' ', '-'] = true := by
              decide
            obtain ⟨a3, b3, hsp3⟩ := containsSubL_iff_append.mp hp9
            apply containsSubL_iff_append.mpr
            exact ⟨a2 ++ a3, b3 ++ b2, by rw [hsp3]; simp⟩
          obtain ⟨aa, bb, hblocksp⟩ := containsSubL_iff_append.mp hpair
          have hblocksp2 : "DEFAULT ".data ++ (sqc :: grp ++ [sqc]) =
              aa ++ ' ' :: '-' :: bb := by simpa using hblocksp
          rcases pair_occurrence_split hblocksp2 with ⟨u, v, hu⟩ | ⟨u, hu, v, hv⟩ |
            ⟨u, v, hu⟩
          · have hbad : containsSubL "DEFAULT ".data [' ', '-'] = true :=
              containsSubL_iff_append.mpr ⟨u, v, by simpa using hu⟩
            exact absurd hbad (by decide)
          · have hq : sqc = '-' := by
              have := congrArg (fun l => l.headD ' ') hv
              simpa using this
            exact absurd hq (by decide)
          · have hmem : ' ' ∈ sqc :: grp ++ [sqc] := by
              rw [hu]
              simp
            rw [hgrp] at hmem
            rcases List.mem_cons.mp hmem with h1 | hmem2
            · exact absurd h1 (by decide)
            · rcases List.mem_append.mp hmem2 with h2 | h2
              · rcases List.mem_cons.mp h2 with h3 | h3
                · exact absurd h3 (by decide)
                · exact absurd (hds ' ' h3) (by decide)
              · exact absurd (List.mem_singleton.mp h2) (by decide)
        · rw [hrec] at hin2
          exact Bool.noConfusion hin2
        · obtain ⟨wpre, hwpre⟩ := hsuf
          have htne : ("DEFAULT -5".data.take k) ≠ [] := by
            intro hnil
            have := congrArg List.length hnil
            simp only [List.length_take] at this
            have hplen : ("DEFAULT -5".data).length = 10 := by decide
            rw [hplen] at this
            simp at this
            omega
          have h1 : ("DEFAULT ".data ++ (sqc :: grp ++ [sqc])).getLast? =
              some sqc := by
            rw [getLastQ_append_right (by simp)]
            rw [show sqc :: grp ++ [sqc] = (sqc :: grp) ++ [sqc] from rfl]
            rw [getLastQ_append_right (by simp)]
            rfl
          rw [← hwpre, getLastQ_append_right htne] at h1
          have hmem := mem_of_getLastQ h1
          have hmem2 : sqc ∈ "DEFAULT -5".data := List.take_subset k _ hmem
          exact absurd hmem2 (by decide)

theorem fixNeg_no_unquoted (s : List Char) :
    containsSubL (fixNegL s) "DEFAULT -5".data = false :=
  fixNeg_no_unquoted_aux s.length s (le_refl _)

end SQLCleaner

/-! ### Lemmas about the parse-error handling structure -/

theorem pyTake_length_le (s : String) (n : Nat) : (pyTake s n).length ≤ n := by
  show (s.data.take n).length ≤ n
  rw [List.length_take]
  omega

namespace SQLParse

/-- The error-record invariant of the driver: excerpts are bounded and the
context names one of the three handlers. -/
def ErrOk (pe : ParseError) : Prop :=
  (∀ x, pe.statement = some x → x.length ≤ 200) ∧
  (pe.context = "CREATE TABLE parsing failed" ∨
   pe.context = "Statement parsing failed" ∨
   pe.context = "SQL parsing failed")

theorem processCreateTables_errors
    (parseCT : String → Schema → Except String Schema)
    (hct : ∀ stmt st st2, parseCT stmt st = Except.ok st2 →
      st2.parsing_errors = st.parsing_errors) :
    ∀ (stmts : List String) (st : Schema),
    (∀ pe ∈ st.parsing_errors, ErrOk pe) →
    ∀ pe ∈ (processCreateTables parseCT stmts st).parsing_errors, ErrOk pe := by
  intro stmts
  induction stmts with
  | nil => intro st h pe hpe; exact h pe hpe
  | cons stmt more ih =>
    intro st h
    unfold processCreateTables
    dsimp only
    cases hc : parseCT stmt st with
    | ok stOk =>
      apply ih
      rw [hct stmt st stOk hc]
      exact h
    | error e =>
      apply ih
      intro pe hpe
      rcases List.mem_append.mp hpe with h1 | h1
      · exact h pe h1
      · rw [List.mem_singleton.mp h1]
        refine ⟨?_, Or.inl rfl⟩
        intro x hx
        injection hx with hx2
        rw [← hx2]
        exact pyTake_length_le _ _

theorem processStatements_errors
    (dispatch : String → Schema → Except String Schema)
    (hd : ∀ stmt st st2, dispatch stmt st = Except.ok st2 →
      st2.parsing_errors = st.parsing_errors) :
    ∀ (stmts : List String) (st : Schema),
    (∀ pe ∈ st.parsing_errors, ErrOk pe) →
    ∀ pe ∈ (processStatements dispatch stmts st).parsing_errors, ErrOk pe := by
  intro stmts
  induction stmts with
  | nil => intro st h pe hpe; exact h pe hpe
  | cons stmt more ih =>
    intro st h
    unfold processStatements
    dsimp only
    by_cases hs : pyStrip stmt = ""
    · rw [if_pos hs]
      exact ih st h
    · rw [if_neg hs]
      cases hc : dispatch stmt st with
      | ok stOk =>
        apply ih
        rw [hd stmt st stOk hc]
        exact h
      | error e =>
        apply ih
        intro pe hpe
        rcases List.mem_append.mp hpe with h1 | h1
        · exact h pe h1
        · rw [List.mem_singleton.mp h1]
          refine ⟨?_, Or.inr (Or.inl rfl)⟩
          intro x hx
          injection hx with hx2
          rw [← hx2]
          exact pyTake_length_le _ _

theorem parseCreateTable_errors (stmt : String) (st : Schema) :
    (parseCreateTable stmt st).parsing_errors = st.parsing_errors := by
  unfold parseCreateTable
  cases h : extractTableName stmt with
  | none => rfl
  | some tn =>
    dsimp only
    by_cases hc : ((st.tables.map (fun t => t.table_name)).contains tn) = true
    · rw [if_pos hc]
    · rw [if_neg hc]

theorem parseAddColumn_errors (stmt tn : String) (st : Schema) :
    (parseAddColumn stmt tn st).parsing_errors = st.parsing_errors := by
  unfold parseAddColumn
  cases h1 : searchAddColumnGo stmt.data.length stmt.data with
  | none => rfl
  | some g =>
    dsimp only
    cases h2 : parseColumnDefinition (pyStrip g) with
    | none => rfl
    | some pc => rfl

theorem parseAddConstraint_errors (stmt tn : String) (st : Schema) :
    (parseAddConstraint stmt tn st).parsing_errors = st.parsing_errors := by
  unfold parseAddConstraint
  cases h1 : searchAddConstraintGo stmt.data.length stmt.data with
  | none => rfl
  | some p =>
    obtain ⟨nm, body⟩ := p
    dsimp only
    cases h2 : parseConstraintBody body tn (some (pyStripChar nm '"')) with
    | none => rfl
    | some p2 =>
      obtain ⟨c, ro⟩ := p2
      cases ro with
      | none => rfl
      | some r => rfl

theorem parseAlterTable_errors (stmt : String) (st : Schema) :
    (parseAlterTable stmt st).parsing_errors = st.parsing_errors := by
  unfold parseAlterTable
  cases h1 : searchAlterNameGo stmt.data.length stmt.data with
  | none => rfl
  | some g =>
    dsimp only
    by_cases h2 : (containsSub (strUpper stmt) "ADD COLUMN") = true
    · rw [if_pos h2]
      by_cases h3 : (containsSub (strUpper stmt) "ADD CONSTRAINT") = true
      · rw [if_pos h3, parseAddConstraint_errors, parseAddColumn_errors]
      · rw [if_neg h3, parseAddColumn_errors]
    · rw [if_neg h2]
      by_cases h3 : (containsSub (strUpper stmt) "ADD CONSTRAINT") = true
      · rw [if_pos h3, parseAddConstraint_errors]
      · rw [if_neg h3]

theorem parseCreateIndex_errors (stmt : String) (st : Schema) :
    (parseCreateIndex stmt st).parsing_errors = st.parsing_errors := by
  unfold parseCreateIndex
  cases h : searchIndexGo stmt.data.length stmt.data with
  | none => rfl
  | some p =>
    obtain ⟨nm, tb, mo, colsStr⟩ := p
    rfl

theorem parseCreateEnum_errors (stmt : String) (st : Schema) :
    (parseCreateEnum stmt st).parsing_errors = st.parsing_errors := by
  unfold parseCreateEnum
  cases h : searchEnumGo stmt.data.length stmt.data with
  | none => rfl
  | some p =>
    obtain ⟨nm, valuesStr⟩ := p
    dsimp only
    by_cases h2 : (findQuotedValuesGo valuesStr.data.length valuesStr.data ≠ [])
    · rw [if_pos h2]
    · rw [if_neg h2]

theorem parseCreateSequence_errors (stmt : String) (st : Schema) :
    (parseCreateSequence stmt st).parsing_errors = st.parsing_errors := by
  unfold parseCreateSequence
  cases h : searchSequenceGo stmt.data.length stmt.data with
  | none => rfl
  | some g => rfl

theorem parseStatement_errors (stmt : String) (st : Schema) :
    (parseStatement stmt st).parsing_errors = st.parsing_errors := by
  unfold parseStatement
  by_cases h1 : (pyStrip stmt = "")
  · rw [if_pos h1]
  · rw [if_neg h1]
    dsimp only
    by_cases h2 : (pyStartsWith (strUpper (pyStrip stmt)) "CREATE TABLE" = true)
    · rw [if_pos h2]
    · rw [if_neg h2]
      by_cases h3 : ((pyStartsWith (strUpper (pyStrip stmt)) "ALTER TABLE" ||
          containsSub (strUpper (pyStrip stmt)) "ALTER TABLE") = true)
      · rw [if_pos h3, parseAlterTable_errors]
      · rw [if_neg h3]
        by_cases h4 : (pyStartsWith (strUpper (pyStrip stmt)) "CREATE INDEX" = true)
        · rw [if_pos h4, parseCreateIndex_errors]
        · rw [if_neg h4]
          by_cases h5 : (pyStartsWith (strUpper (pyStrip stmt))
              "CREATE SEQUENCE" = true)
          · rw [if_pos h5, parseCreateSequence_errors]
          · rw [if_neg h5]
            by_cases h6 : ((containsSub (strUpper (pyStrip stmt)) "CREATE TYPE" &&
                containsSub (strUpper (pyStrip stmt)) "ENUM") = true)
            · rw [if_pos h6, parseCreateEnum_errors]
            · rw [if_neg h6]

theorem processCreateTables_ok (f : String → Schema → Schema) :
    ∀ (stmts : List String) (st : Schema),
    processCreateTables (fun stmt st => Except.ok (f stmt st)) stmts st =
      stmts.foldl (fun st stmt => f stmt st) st := by
  intro stmts
  induction stmts with
  | nil => intro st; rfl
  | cons stmt more ih =>
    intro st
    unfold processCreateTables
    dsimp only
    rw [ih, List.foldl_cons]

theorem processStatements_ok :
    ∀ (stmts : List String) (st : Schema),
    processStatements (fun stmt st => Except.ok (parseStatement stmt st))
        stmts st =
      stmts.foldl (fun st stmt => parseStatement stmt st) st := by
  intro stmts
  induction stmts with
  | nil => intro st; rfl
  | cons stmt more ih =>
    intro st
    unfold processStatements
    dsimp only
    by_cases hs : pyStrip stmt = ""
    · rw [if_pos hs, ih, List.foldl_cons]
      have hskip : parseStatement stmt st = st := by
        unfold parseStatement
        rw [if_pos hs]
      rw [hskip]
    · rw [if_neg hs, ih, List.foldl_cons]

end SQLParse

namespace SQLCleaner

/-- When the text before a literal `DEFAULT -5` occurrence contains no case
variant of the word DEFAULT, the scan copies it verbatim and quotes the
occurrence. -/
theorem fixNeg_output {a b : List Char}
    (ha : containsSubL (a.map upChar) "DEFAULT".data = false)
    (hb : isDigitB (b.headD ' ') = false) :
    fixNegL (a ++ "DEFAULT -5".data ++ b) =
      a ++ "DEFAULT ".data ++ (sqc :: '-' :: '5' :: [sqc]) ++ fixNegL b := by
  induction a with
  | nil =>
    simp only [List.nil_append]
    exact fixNegL_step (matchNegDefault_at hb)
  | cons c a ih =>
    have ha2 : containsSubL (a.map upChar) "DEFAULT".data = false := by
      by_contra h2
      rw [Bool.not_eq_false] at h2
      have hx : containsSubL ((c :: a).map upChar) "DEFAULT".data = true := by
        rw [List.map_cons]
        unfold containsSubL
        rw [h2, Bool.or_true]
      rw [hx] at ha
      exact Bool.noConfusion ha
    have hstep : matchNegDefault (c :: (a ++ "DEFAULT -5".data ++ b)) = none := by
      cases hmm : matchNegDefault (c :: (a ++ "DEFAULT -5".data ++ b)) with
      | none => rfl
      | some p =>
        obtain ⟨grp, rest⟩ := p
        obtain ⟨pre, ws, ds, hcs, hpre, hwsne, hws, hdsne, hds, hgrp⟩ :=
          matchNegDefault_structure hmm
        have hcs2 : (c :: a) ++ ("DEFAULT -5".data ++ b) =
            pre ++ (ws ++ '-' :: (ds ++ rest)) := by
          rw [List.cons_append, ← List.append_assoc]
          exact hcs
        rcases List.append_eq_append_iff.mp hcs2 with ⟨m, hm1, hm2⟩ | ⟨q, hq1, hq2⟩
        · cases m with
          | nil =>
            rw [List.append_nil] at hm1
            have hbad : containsSubL ((c :: a).map upChar) "DEFAULT".data =
                true := by
              apply contains_of_startsWith
              apply startsWithL_iff_append.mpr
              exact ⟨[], by rw [← hm1, hpre, List.append_nil]⟩
            rw [hbad] at ha
            exact Bool.noConfusion ha
          | cons m0 m1 =>
            have hm0 : m0 = 'D' := by
              have := congrArg (fun l => l.headD ' ') hm2.symm
              simpa using this
            have hpre2 : pre = c :: (a ++ m0 :: m1) := by
              rw [hm1]
              rfl
            have hmapeq : (a ++ m0 :: m1).map upChar = "EFAULT".data := by
              have := hpre
              rw [hpre2] at this
              simp only [List.map_cons] at this
              have h2 := congrArg List.tail this
              simpa using h2
            have hDmem : upChar m0 ∈ (a ++ m0 :: m1).map upChar :=
              List.mem_map_of_mem upChar (by simp)
            rw [hmapeq, hm0] at hDmem
            exact absurd hDmem (by decide)
        · have hbad : containsSubL ((c :: a).map upChar) "DEFAULT".data =
              true := by
            apply contains_of_startsWith
            apply startsWithL_iff_append.mpr
            exact ⟨q.map upChar, by rw [hq1, List.map_append, hpre]⟩
          rw [hbad] at ha
          exact Bool.noConfusion ha
    have hshape : (c :: a) ++ "DEFAULT -5".data ++ b =
        c :: (a ++ "DEFAULT -5".data ++ b) := rfl
    rw [hshape, fixNegL_copy hstep, ih ha2]
    rfl

end SQLCleaner

/-! ## Shared example inputs used to instantiate the claim theorems -/

def exPkC : Constraint :=
  { constraint_name := some "pk_users", constraint_type := "p",
    table_name := some "users", columns := ["id"] }

def exChkC : Constraint :=
  { constraint_name := some "chk_pos", constraint_type := "c",
    table_name := some "users", check_expression := some "id > 0" }

def exChkS : Constraint :=
  { constraint_name := some "chk_small", constraint_type := "c",
    table_name := some "users", check_expression := some "id < 10" }

def exCol : Column := { column_name := "id", data_type := "integer" }

def exSchema1 : Schema :=
  { tables := [{ table_name := "users", columns := [exCol],
                 constraints := [exPkC, exChkC] }],
    constraints := [exChkS] }

/-- The `id` column as it appears after constraint processing. -/
def exColOut : Column :=
  { column_name := "id", data_type := "integer", is_nullable := false,
    is_primary_key := true, is_unique := true }

/-- The surviving primary-key constraint after processing (with
`source_table` set by the apply pass). -/
def exPkCOut : Constraint := { exPkC with source_table := some "users" }

/-- The `users` table as it appears after constraint processing. -/
def exTableOut : Table :=
  { table_name := "users", columns := [exColOut], constraints := [exPkCOut] }

/-- A target table with a primary key, for relationship examples. -/
def exTabA : Table :=
  { table_name := "a",
    columns := [{ column_name := "id", data_type := "integer",
                  is_primary_key := true }],
    constraints := [{ constraint_type := "p", table_name := some "a",
                      columns := ["id"] }] }

/-- A plain source table, for relationship examples. -/
def exTabB : Table :=
  { table_name := "b",
    columns := [{ column_name := "a_id", data_type := "integer" }] }

def exTablesAB : List Table := [exTabA, exTabB]

def exRelAB : Relationship :=
  { source_table := "b", source_columns := ["a_id"],
    target_table := "a", target_columns := ["id"] }

/-- The relationship built from `exRelAB`. -/
def exBuiltAB : RelationshipBuilder.BuiltRel :=
  { source_table := "b", source_columns := ["a_id"],
    target_table := "a", target_columns := ["id"],
    relationship_type := "many-to-one", constraint_name := none,
    on_delete_action := none, on_update_action := none,
    is_composite := false, is_self_referencing := false }

/-- A candidate relationship whose target table does not exist. -/
def exRelMissing : Relationship :=
  { source_table := "a", source_columns := ["id"],
    target_table := "ghost", target_columns := ["gid"] }

/-! ## Claim theorems -/

/-- C1: after `ConstraintHandler.process_constraints` runs on any schema, no
table-level or standalone constraint list in the result contains a constraint
of type `c` or an unrecognized type (every surviving constraint has type `p`,
`u` or `f`), and each original CHECK constraint yields exactly one drop record
with `constraint_type = 'CHECK'`, so the number of CHECK drop records equals
the number of CHECK constraints in the input. -/
theorem c1_check_constraints_eliminated (schema : Schema) :
    (∀ t ∈ (ConstraintHandler.processConstraints schema).tables,
      ∀ c ∈ t.constraints,
        c.constraint_type = "p" ∨ c.constraint_type = "u" ∨ c.constraint_type = "f") ∧
    (∀ c ∈ (ConstraintHandler.processConstraints schema).constraints,
        c.constraint_type = "p" ∨ c.constraint_type = "u" ∨ c.constraint_type = "f") ∧
    ConstraintHandler.countCheckDrops
        (ConstraintHandler.processConstraints schema).dropped_constraints =
      ConstraintHandler.countC (schema.tables.flatMap (·.constraints)) +
        ConstraintHandler.countC schema.constraints := by
  open ConstraintHandler in
  refine ⟨?_, ?_, ?_⟩
  · intro t ht c hc
    have htab : (processConstraints schema).tables =
        applyConstraintsToColumns (processAllTables schema.tables {}).1
          (processStandaloneConstraints schema.constraints
            (processAllTables schema.tables {}).2).1 := rfl
    rw [htab] at ht
    unfold applyConstraintsToColumns at ht
    set tables1 := (processAllTables schema.tables {}).1 with htab1
    set standalone1 := (processStandaloneConstraints schema.constraints
      (processAllTables schema.tables {}).2).1 with hsa1
    set tablesS := tables1.map setSourceOnTable with htS
    set all := tablesS.flatMap (·.constraints) ++ standalone1 with hall
    have h1 : tshape t ∈ (all.foldl applyOneConstraint tablesS).map tshape :=
      List.mem_map_of_mem _ ht
    rw [applyFold_shape] at h1
    obtain ⟨t0, ht0, hts⟩ := List.mem_map.mp h1
    have hca : t0.constraints = t.constraints := congrArg Prod.snd hts
    rw [htS] at ht0
    obtain ⟨t1, ht1, hteq⟩ := List.mem_map.mp ht0
    rw [← hteq] at hca
    have hc' : c ∈ (setSourceOnTable t1).constraints := hca ▸ hc
    unfold setSourceOnTable at hc'
    obtain ⟨c0, hc0, hceq⟩ := List.mem_map.mp hc'
    have htype : c.constraint_type = c0.constraint_type := by rw [← hceq]
    rw [htype]
    exact pat_mem ht1 hc0
  · intro c hc
    have hsc : (processConstraints schema).constraints =
        (processStandaloneConstraints schema.constraints
          (processAllTables schema.tables {}).2).1 := rfl
    rw [hsc] at hc
    exact psl_mem hc
  · have hd : (processConstraints schema).dropped_constraints =
        (processStandaloneConstraints schema.constraints
          (processAllTables schema.tables {}).2).2.dropped_constraints := rfl
    rw [hd, psl_check_count, pat_check_count]
    have h0 : countCheckDrops (({} : CHState)).dropped_constraints = 0 := rfl
    rw [h0]
    omega

/-- C1 witness: concrete instantiation — the surviving constraint of the
processed example schema has a recognized type, and the two input CHECK
constraints yield exactly two CHECK drop records. -/
theorem c1_witness :
    (exPkCOut.constraint_type = "p" ∨ exPkCOut.constraint_type = "u" ∨
      exPkCOut.constraint_type = "f") ∧
    ConstraintHandler.countCheckDrops
      (ConstraintHandler.processConstraints exSchema1).dropped_constraints = 2 := by
  have h := c1_check_constraints_eliminated exSchema1
  refine ⟨h.1 exTableOut (by decide) exPkCOut (by decide), ?_⟩
  rw [h.2.2]
  decide

/-- C8: after `ConstraintHandler.process_constraints`, every column named in a
surviving type-`p` constraint of its table (one whose resolved target table is
that table) has `is_primary_key = true` and `is_nullable = false`, and every
column that is the sole column of a surviving single-column type-`u`
constraint has `is_unique = true`. -/
theorem c8_constraint_flags (schema : Schema) (t : Table) (c : Constraint)
    (col : Column)
    (ht : t ∈ (ConstraintHandler.processConstraints schema).tables)
    (hc : c ∈ t.constraints)
    (htarget : pyOrOpt c.table_name c.source_table = some t.table_name)
    (hcol : col ∈ t.columns) :
    (c.constraint_type = "p" → col.column_name ∈ c.columns →
      col.is_primary_key = true ∧ col.is_nullable = false) ∧
    (c.constraint_type = "u" → c.columns = [col.column_name] →
      col.is_unique = true) := by
  open ConstraintHandler in
  have htab : (processConstraints schema).tables =
      applyConstraintsToColumns (processAllTables schema.tables {}).1
        (processStandaloneConstraints schema.constraints
          (processAllTables schema.tables {}).2).1 := rfl
  rw [htab] at ht
  unfold applyConstraintsToColumns at ht
  set tables1 := (processAllTables schema.tables {}).1 with htab1
  set standalone1 := (processStandaloneConstraints schema.constraints
    (processAllTables schema.tables {}).2).1 with hsa1
  set tablesS := tables1.map setSourceOnTable with htS
  set all := tablesS.flatMap (·.constraints) ++ standalone1 with hall
  -- trace the constraint into the collected list `all`
  have h1 : tshape t ∈ (all.foldl applyOneConstraint tablesS).map tshape :=
    List.mem_map_of_mem _ ht
  rw [applyFold_shape] at h1
  obtain ⟨t0, ht0, hts⟩ := List.mem_map.mp h1
  have hca : t0.constraints = t.constraints := congrArg Prod.snd hts
  have hcall : c ∈ all := by
    rw [hall]
    exact List.mem_append_left _ (List.mem_flatMap.mpr ⟨t0, ht0, hca ▸ hc⟩)
  obtain ⟨l1, l2, hsplit⟩ := List.append_of_mem hcall
  have hfold : all.foldl applyOneConstraint tablesS =
      l2.foldl applyOneConstraint
        (applyOneConstraint (l1.foldl applyOneConstraint tablesS) c) := by
    rw [hsplit, List.foldl_append, List.foldl_cons]
  set B := l1.foldl applyOneConstraint tablesS with hB
  have hmono : TablesMono (applyOneConstraint B c)
      (all.foldl applyOneConstraint tablesS) := by
    rw [hfold]
    exact applyFold_mono l2 _
  obtain ⟨tA, htA, htm⟩ := forall₂_mem_right hmono ht
  obtain ⟨colA, hcolA, hcm⟩ := forall₂_mem_right htm.2.2 hcol
  have hnameA : some tA.table_name = pyOrOpt c.table_name c.source_table := by
    rw [htarget]
    exact congrArg some htm.1.symm
  constructor
  · intro hp hmem
    have hne : c.columns ≠ [] := List.ne_nil_of_mem hmem
    have hA : applyOneConstraint B c =
        markColumnsAsPrimaryKey B (pyOrOpt c.table_name c.source_table) c.columns := by
      unfold applyOneConstraint
      rw [if_pos ⟨hp, hne⟩]
    rw [hA] at htA
    have hmemA : colA.column_name ∈ c.columns := by
      rw [← hcm.1]
      exact hmem
    obtain ⟨hpk, hnn⟩ := markPK_marks B _ c.columns htA hnameA hcolA hmemA
    exact ⟨hcm.2.1 hpk, hcm.2.2.1 hnn⟩
  · intro hu hcols
    have hmem : col.column_name ∈ c.columns := by
      rw [hcols]
      exact List.mem_singleton.mpr rfl
    have hne : c.columns ≠ [] := List.ne_nil_of_mem hmem
    have hnp : ¬(c.constraint_type = "p" ∧ c.columns ≠ []) := by
      intro hcontra
      rw [hu] at hcontra
      exact absurd hcontra.1 (by decide)
    have hA : applyOneConstraint B c =
        markColumnsAsUnique B (pyOrOpt c.table_name c.source_table) c.columns := by
      unfold applyOneConstraint
      rw [if_neg hnp, if_pos ⟨hu, hne⟩]
    rw [hA] at htA
    have hmemA : colA.column_name ∈ c.columns := by
      rw [← hcm.1]
      exact hmem
    have hlen : c.columns.length = 1 := by rw [hcols]; rfl
    have huniq := markU_marks B _ c.columns htA hnameA hcolA hmemA hlen
    exact hcm.2.2.2 huniq

/-- C8 witness: in the processed example schema, the `id` column named by the
surviving primary-key constraint is flagged primary-key and not-nullable. -/
theorem c8_witness :
    exColOut.is_primary_key = true ∧ exColOut.is_nullable = false := by
  have h := c8_constraint_flags exSchema1 exTableOut exPkCOut exColOut
    (by decide) (by decide) (by decide) (by decide)
  exact h.1 rfl (by decide)

/-- C2: every relationship returned by `RelationshipBuilder.build_relationships`
has a source table and a target table present in the table list and all of its
source and target columns present in those tables; a candidate relationship
whose target table does not exist (and whose source table does) is excluded
from the returned list and recorded as skipped with skip type
`MISSING_TARGET_TABLE`. -/
theorem c2_relationship_endpoints (relationships : List Relationship)
    (tables : List Table) :
    (∀ r ∈ (RelationshipBuilder.buildRelationships relationships tables).1,
      (∃ t, RelationshipBuilder.lookupTable tables r.source_table = some t ∧
        ∀ col ∈ r.source_columns, col ∈ RelationshipBuilder.columnNames t) ∧
      (∃ t, RelationshipBuilder.lookupTable tables r.target_table = some t ∧
        ∀ col ∈ r.target_columns, col ∈ RelationshipBuilder.columnNames t)) ∧
    (∀ rel ∈ relationships,
      (∃ t, RelationshipBuilder.lookupTable tables rel.source_table = some t) →
      RelationshipBuilder.lookupTable tables rel.target_table = none →
      (∃ sk ∈ (RelationshipBuilder.buildRelationships relationships tables).2.1,
        sk.skip_type = "MISSING_TARGET_TABLE" ∧ sk.relationship = rel) ∧
      (∀ r ∈ (RelationshipBuilder.buildRelationships relationships tables).1,
        r.target_table ≠ rel.target_table)) := by
  open RelationshipBuilder in
  have hmem_built : ∀ r ∈ (buildRelationships relationships tables).1,
      ∃ rel ∈ relationships, (buildSingleRelationship rel tables).1 = some r := by
    intro r hr
    have hr0 : r ∈ (relationships.map
        (fun rel => buildSingleRelationship rel tables)).filterMap (·.1) :=
      dedupAux_subset hr
    obtain ⟨p, hp, hps⟩ := List.mem_filterMap.mp hr0
    obtain ⟨rel, hrel, rfl⟩ := List.mem_map.mp hp
    exact ⟨rel, hrel, hps⟩
  constructor
  · intro r hr
    obtain ⟨rel, _, hsome⟩ := hmem_built r hr
    have h := bsr_some_endpoints hsome
    exact ⟨h.1, h.2.1⟩
  · intro rel hrel hsrc hnone
    obtain ⟨src, hs⟩ := hsrc
    have hskip := bsr_missing_target hs hnone
    constructor
    · refine ⟨⟨rel,
        "Target table " ++ sq ++ rel.target_table ++ sq ++ " not found in schema",
        "MISSING_TARGET_TABLE", rel.source_table, rel.target_table⟩, ?_, rfl, rfl⟩
      apply List.mem_flatMap.mpr
      refine ⟨buildSingleRelationship rel tables, List.mem_map_of_mem _ hrel, ?_⟩
      rw [hskip]
      exact List.mem_singleton.mpr rfl
    · intro r hr heq
      obtain ⟨rel2, _, hsome⟩ := hmem_built r hr
      obtain ⟨-, ⟨t2, ht2, -⟩, -, -⟩ := bsr_some_endpoints hsome
      rw [heq, hnone] at ht2
      exact Option.noConfusion ht2

/-- C2 witness: a relationship targeting the nonexistent table `ghost` is
recorded as skipped with `MISSING_TARGET_TABLE` and the built list contains no
relationship with that target. -/
theorem c2_witness :
    (∃ sk ∈ (RelationshipBuilder.buildRelationships [exRelMissing] [exTabA]).2.1,
      sk.skip_type = "MISSING_TARGET_TABLE" ∧ sk.relationship = exRelMissing) ∧
    (∀ r ∈ (RelationshipBuilder.buildRelationships [exRelMissing] [exTabA]).1,
      r.target_table ≠ exRelMissing.target_table) :=
  (c2_relationship_endpoints [exRelMissing] [exTabA]).2 exRelMissing
    (by decide) ⟨exTabA, by decide⟩ (by decide)

/-- C4: for every candidate relationship that passes endpoint validation, the
classified cardinality is `one-to-one` when both the source and target column
sets are unique in their tables (per the claim's characterization:
set-equality with the PK constraint columns, with some unique-constraint
column set, or a single column flagged unique/primary-key), `many-to-one` when
only the target side is unique, and `many-to-one` with an "unusual foreign
key" warning when neither side is unique. -/
theorem c4_cardinality_classification (rel : Relationship) (tables : List Table)
    (b : RelationshipBuilder.BuiltRel) (src tgt : Table)
    (hb : (RelationshipBuilder.buildSingleRelationship rel tables).1 = some b)
    (hsrc : RelationshipBuilder.lookupTable tables rel.source_table = some src)
    (htgt : RelationshipBuilder.lookupTable tables rel.target_table = some tgt) :
    (RelationshipBuilder.UniqueColumns rel.source_columns src →
      RelationshipBuilder.UniqueColumns rel.target_columns tgt →
      b.relationship_type = "one-to-one") ∧
    (¬RelationshipBuilder.UniqueColumns rel.source_columns src →
      RelationshipBuilder.UniqueColumns rel.target_columns tgt →
      b.relationship_type = "many-to-one") ∧
    (¬RelationshipBuilder.UniqueColumns rel.source_columns src →
      ¬RelationshipBuilder.UniqueColumns rel.target_columns tgt →
      b.relationship_type = "many-to-one" ∧
      ∃ w ∈ (RelationshipBuilder.buildSingleRelationship rel tables).2.2,
        w.message = "Relationship " ++ rel.source_table ++ " -> " ++
          rel.target_table ++ " references non-unique columns - unusual foreign key") := by
  open RelationshipBuilder in
  unfold buildSingleRelationship at hb ⊢
  rw [hsrc, htgt] at hb ⊢
  dsimp only at hb ⊢
  by_cases h1 : rel.source_columns.filter
      (fun col => !(columnNames src).contains col) ≠ []
  · rw [if_pos h1] at hb
    simp [skipResult] at hb
  · rw [if_neg h1] at hb ⊢
    by_cases h2 : rel.target_columns.filter
        (fun col => !(columnNames tgt).contains col) ≠ []
    · rw [if_pos h2] at hb
      simp [skipResult] at hb
    · rw [if_neg h2] at hb ⊢
      by_cases h3 : rel.source_columns.length ≠ rel.target_columns.length
      · rw [if_pos h3] at hb
        simp [skipResult] at hb
      · rw [if_neg h3] at hb ⊢
        dsimp only at hb ⊢
        obtain rfl := Option.some.inj hb
        unfold determineRelationshipType
        dsimp only
        by_cases hsu : columnsAreUnique rel.source_columns src = true
        · by_cases htu : columnsAreUnique rel.target_columns tgt = true
          · rw [hsu, htu]
            refine ⟨fun _ _ => rfl, fun hns _ => ?_, fun hns _ => ?_⟩
            · exact absurd ((columnsAreUnique_iff _ _).mp hsu) hns
            · exact absurd ((columnsAreUnique_iff _ _).mp hsu) hns
          · rw [hsu, Bool.eq_false_iff.mpr htu]
            refine ⟨fun _ htp => ?_, fun hns _ => ?_, fun hns _ => ?_⟩
            · exact absurd ((columnsAreUnique_iff _ _).mpr htp) htu
            · exact absurd ((columnsAreUnique_iff _ _).mp hsu) hns
            · exact absurd ((columnsAreUnique_iff _ _).mp hsu) hns
        · rw [Bool.eq_false_iff.mpr hsu]
          by_cases htu : columnsAreUnique rel.target_columns tgt = true
          · rw [htu]
            refine ⟨fun hsp _ => ?_, fun _ _ => ?_, fun _ hnt => ?_⟩
            · exact absurd ((columnsAreUnique_iff _ _).mpr hsp) hsu
            · rfl
            · exact absurd ((columnsAreUnique_iff _ _).mp htu) hnt
          · rw [Bool.eq_false_iff.mpr htu]
            refine ⟨fun hsp _ => ?_, fun _ htp => ?_, fun _ _ => ?_⟩
            · exact absurd ((columnsAreUnique_iff _ _).mpr hsp) hsu
            · exact absurd ((columnsAreUnique_iff _ _).mpr htp) htu
            · refine ⟨rfl, ?_⟩
              refine ⟨⟨"RELATIONSHIP_WARNING",
                "Relationship " ++ rel.source_table ++ " -> " ++
                  rel.target_table ++
                  " references non-unique columns - unusual foreign key"⟩,
                ?_, rfl⟩
              exact List.mem_append_left _ (List.mem_append_left _
                (List.mem_singleton.mpr rfl))

/-- C4 witness: the relationship from table `b`'s plain column to table `a`'s
primary key is classified `many-to-one`. -/
theorem c4_witness : exBuiltAB.relationship_type = "many-to-one" := by
  have h := c4_cardinality_classification exRelAB exTablesAB exBuiltAB exTabB
    exTabA (by decide) (by decide) (by decide)
  exact h.2.1 (by decide) (by decide)

/-- C5 (code-bug evidence): for the declared type `text[]` (which matches
`\w+\[\]`), the native array strategy of the type mapper emits `"text[]"`
with NO space before the brackets, so its output does not match the spec's
pattern `^".+ \[\]"$`; the repository's own unit test
`test_array_type_transformation` instead expects `"text []"` (with the
space), which does match the pattern. -/
theorem c5_native_array_missing_space :
    TypeMapper.convertNativeArrayType "text[]" = "\"text[]\"" ∧
    (TypeMapper.handleArrayType "text[]" [("ARRAY_TYPE", "native")] "t" "c").1 =
      "\"text[]\"" ∧
    TypeMapper.specArrayPattern "\"text[]\"" = false ∧
    TypeMapper.specArrayPattern "\"text []\"" = true := by
  refine ⟨by decide, by decide, by decide, by decide⟩

/-- C6 counterexample: type mapping is NOT idempotent on array types under
the native strategy — re-mapping the already-mapped `text[]` double-quotes
it again, because the quoted output still contains `[]` and is treated as an
array a second time. -/
theorem c6_counterexample :
    (TypeMapper.transformSingleType "text[]" TypeMapper.defaultDecisions
      "t" "c" []).1 = "\"text[]\"" ∧
    (TypeMapper.transformSingleType
      (TypeMapper.transformSingleType "text[]" TypeMapper.defaultDecisions
        "t" "c" []).1
      TypeMapper.defaultDecisions "t" "c" []).1 = "\"\"text\"[]\"" ∧
    (TypeMapper.transformSingleType
      (TypeMapper.transformSingleType "text[]" TypeMapper.defaultDecisions
        "t" "c" []).1
      TypeMapper.defaultDecisions "t" "c" []).1 ≠
      (TypeMapper.transformSingleType "text[]" TypeMapper.defaultDecisions
        "t" "c" []).1 := by
  refine ⟨by decide, by decide, by decide⟩

/-- C6 (amended): type mapping is idempotent on every NON-ARRAY input type,
provided the declared enum names are plain nonempty identifiers none of
which is the word `numeric`: transforming an already-transformed value again
returns it unchanged. (It is not idempotent in general: for array types
under the native strategy re-mapping double-quotes the value, see the C6
counterexample; and an enum literally named `numeric` would capture the
re-mapped output of `decimal(p,s)`.) -/
theorem c6_idempotent_nonarray
    (t : String) (dec : List (String × String)) (tn cn tn2 cn2 : String)
    (E : List String)
    (hnoarr : containsSub t "[]" = false)
    (hE : ∀ e ∈ E, e ≠ "" ∧ ∀ c ∈ e.data, isWordB c = true)
    (hnum : "numeric" ∉ E) :
    (TypeMapper.transformSingleType
      (TypeMapper.transformSingleType t dec tn cn E).1 dec tn2 cn2 E).1 =
      (TypeMapper.transformSingleType t dec tn cn E).1 := by
  rcases hx : TypeMapper.extractTypeComponents t with ⟨b, pso⟩
  have harr : ¬(TypeMapper.isArrayType t = true) := by
    unfold TypeMapper.isArrayType
    rw [hnoarr]
    decide
  by_cases hEnum : E.contains (strLower b) = true
  · have hr : (TypeMapper.transformSingleType t dec tn cn E).1 = b := by
      unfold TypeMapper.transformSingleType
      rw [hx]
      dsimp only
      rw [if_pos hEnum]
    have hmem : strLower b ∈ E := List.elem_iff.mp hEnum
    obtain ⟨hne1, hw1⟩ := hE _ hmem
    have hwb : ∀ c ∈ b.data, isWordB c = true := word_of_strLower hw1
    have hneb : b ≠ "" := by
      intro hbe
      apply hne1
      rw [hbe]
      rfl
    rw [hr]
    exact TypeMapper.enum_idem hneb hwb hEnum
  · have hEnumF : E.contains (strLower b) = false := by
      cases h2 : E.contains (strLower b)
      · rfl
      · exact absurd h2 hEnum
    cases hlk : TypeMapper.typeMapLookup (strLower b) with
    | none =>
      have hr : (TypeMapper.transformSingleType t dec tn cn E).1 = "text" := by
        unfold TypeMapper.transformSingleType
        rw [hx]
        dsimp only
        rw [if_neg hEnum, if_neg harr, hlk]
      rw [hr]
      exact TypeMapper.value_idem (by decide) (by decide) (by decide) (by decide)
    | some d =>
      have hmemMap := TypeMapper.typeMapLookup_mem hlk
      obtain ⟨hdlk, hdlow, hdne, hdall, hdalpha⟩ :=
        TypeMapper.typeMap_value_facts _ hmemMap
      have hdw : ∀ c ∈ d.data, isWordB c = true := by
        intro c hc
        exact List.all_eq_true.mp hdall c hc
      cases pso with
      | none =>
        have hr : (TypeMapper.transformSingleType t dec tn cn E).1 = d := by
          unfold TypeMapper.transformSingleType
          rw [hx]
          dsimp only
          rw [if_neg hEnum, if_neg harr, hlk]
        rw [hr]
        exact TypeMapper.value_idem hdlk hdlow hdne hdw
      | some ps =>
        by_cases hguard : ps ≠ "" ∧ (d = "varchar" ∨ d = "char" ∨
            d = "numeric" ∨ d = "decimal")
        · have hr : (TypeMapper.transformSingleType t dec tn cn E).1 =
              d ++ "(" ++ ps ++ ")" := by
            unfold TypeMapper.transformSingleType
            rw [hx]
            dsimp only
            rw [if_neg hEnum, if_neg harr, hlk]
            dsimp only
            rw [if_pos hguard]
          obtain ⟨hpsne, hpsnr, hpsnoarr⟩ :=
            TypeMapper.extract_params_facts hnoarr hx
          have hkf := TypeMapper.typeMap_key_facts _ hmemMap
          have hdvn : d = "varchar" ∨ d = "numeric" := hkf.2 hguard.2
          have hcE : E.contains d = false := by
            rcases hdvn with hv | hn
            · have hkey : strLower b = "varchar" := hkf.1 hv
              rw [hv, ← hkey]
              exact hEnumF
            · rw [hn]
              cases h2 : E.contains "numeric"
              · rfl
              · exact absurd (List.elem_iff.mp h2) hnum
          rw [hr]
          exact TypeMapper.param_idem hdlk hdlow hdne hdw hdalpha hdvn
            hguard.1 hpsnr hpsnoarr hcE
        · have hr : (TypeMapper.transformSingleType t dec tn cn E).1 = d := by
            unfold TypeMapper.transformSingleType
            rw [hx]
            dsimp only
            rw [if_neg hEnum, if_neg harr, hlk]
            dsimp only
            rw [if_neg hguard]
          rw [hr]
          exact TypeMapper.value_idem hdlk hdlow hdne hdw

set_option maxRecDepth 1000000

/-- C7: the pipeline on `CREATE TABLE t (id serial PRIMARY KEY, tags
text[]);` does NOT produce the column lines the claim demands.  The
preprocessor first rewrites `text[]` to the quoted `"text []"`; the parser
then splits the column definition on whitespace, so the data type is
truncated to `"text` (the space and brackets are lost) and the unknown type
falls back to plain `text`; and `serial` is mapped to `int4`, not
`integer`.  The generated DBML contains `id int4 [pk, increment]` and
`tags text` instead of the claimed `id integer [pk, increment]` and
`tags "text []"`. -/
theorem c7_scenario1_not_satisfied :
    SQLCleaner.cleanDump "CREATE TABLE t (id serial PRIMARY KEY, tags text[]);" =
      "CREATE TABLE t (id serial PRIMARY KEY, tags \"text []\");" ∧
    (SQLParse.parseSqlDump
        "CREATE TABLE t (id serial PRIMARY KEY, tags \"text []\");").tables.map
      (fun t => t.columns.map (fun c => (c.column_name, c.data_type))) =
      [[("id", "serial"), ("tags", "\"text")]] ∧
    (TypeMapper.transformTypes
        (SQLParse.parseSqlDump
          "CREATE TABLE t (id serial PRIMARY KEY, tags \"text []\");")).tables.map
      (fun t => t.columns.map (fun c => (c.column_name, c.data_type))) =
      [[("id", "int4"), ("tags", "text")]] ∧
    containsSub (runPipeline "CREATE TABLE t (id serial PRIMARY KEY, tags text[]);")
      "id integer [pk, increment]" = false ∧
    containsSub (runPipeline "CREATE TABLE t (id serial PRIMARY KEY, tags text[]);")
      "tags \"text []\"" = false ∧
    containsSub (runPipeline "CREATE TABLE t (id serial PRIMARY KEY, tags text[]);")
      "id int4 [pk, increment]" = true ∧
    containsSub (runPipeline "CREATE TABLE t (id serial PRIMARY KEY, tags text[]);")
      "tags text" = true := by
  refine ⟨by decide, by decide, by decide, by decide, by decide, by decide,
    by decide⟩

/-- C3: the exception structure of `parse_sql_dump`, with the fallible
sub-parsers abstracted as Except-valued oracles.  Every recorded parse
error carries an excerpt of at most 200 characters and a context naming
one of the three handlers; a statement whose parsing throws contributes
exactly one error record and the remaining statements are still processed
(the scan continues with only the error appended); the same holds for each
CREATE TABLE match; and with the total embedded sub-parsers the driver is
exactly the embedded `parse_sql_dump`, which returns the full seven-field
record on every input. -/
theorem c3_parse_errors_isolated
    (ctMatches : String → List String)
    (parseCT : String → Schema → Except String Schema)
    (segment : String → Except String (List String))
    (dispatch : String → Schema → Except String Schema)
    (content : String)
    (hct : ∀ stmt st st2, parseCT stmt st = Except.ok st2 →
      st2.parsing_errors = st.parsing_errors)
    (hd : ∀ stmt st st2, dispatch stmt st = Except.ok st2 →
      st2.parsing_errors = st.parsing_errors) :
    (∀ pe ∈ (SQLParse.parseSqlDumpDriver ctMatches parseCT segment dispatch
        content).parsing_errors,
      (∀ x, pe.statement = some x → x.length ≤ 200) ∧
      (pe.context = "CREATE TABLE parsing failed" ∨
       pe.context = "Statement parsing failed" ∨
       pe.context = "SQL parsing failed")) ∧
    (∀ s e rest st, pyStrip s ≠ "" → dispatch s st = Except.error e →
      SQLParse.processStatements dispatch (s :: rest) st =
        SQLParse.processStatements dispatch rest
          { st with parsing_errors := st.parsing_errors ++
              [{ error := e, statement := some (pyTake (pyStrip s) 200),
                 context := "Statement parsing failed" }] }) ∧
    (∀ m e ms st, parseCT m st = Except.error e →
      SQLParse.processCreateTables parseCT (m :: ms) st =
        SQLParse.processCreateTables parseCT ms
          { st with parsing_errors := st.parsing_errors ++
              [{ error := e, statement := some (pyTake m 200),
                 context := "CREATE TABLE parsing failed" }] }) ∧
    SQLParse.parseSqlDumpDriver SQLParse.findCreateTableStatements
      (fun stmt st => Except.ok (SQLParse.parseCreateTable stmt st))
      (fun c => Except.ok (SQLParse.splitStatements c))
      (fun stmt st => Except.ok (SQLParse.parseStatement stmt st)) content =
      SQLParse.parseSqlDump content := by
  refine ⟨?_, ?_, ?_, ?_⟩
  · unfold SQLParse.parseSqlDumpDriver
    dsimp only
    cases hseg : segment content with
    | error e =>
      intro pe hpe
      dsimp only at hpe
      rcases List.mem_append.mp hpe with h1 | h1
      · exact SQLParse.processCreateTables_errors parseCT hct _ _
          (by intro pe2 hpe2; simp at hpe2) pe h1
      · rw [List.mem_singleton.mp h1]
        exact ⟨by intro x hx; exact absurd hx (by simp),
          Or.inr (Or.inr rfl)⟩
    | ok stmts =>
      exact SQLParse.processStatements_errors dispatch hd stmts _
        (SQLParse.processCreateTables_errors parseCT hct _ _
          (by intro pe2 hpe2; simp at hpe2))
  · intro s e rest st hne hfail
    have hstep : SQLParse.processStatements dispatch (s :: rest) st =
        SQLParse.processStatements dispatch rest
          (if pyStrip s = "" then st
           else
             match dispatch s st with
             | Except.ok stOk => stOk
             | Except.error e2 =>
               { st with parsing_errors := st.parsing_errors ++
                   [{ error := e2, statement := some (pyTake (pyStrip s) 200),
                      context := "Statement parsing failed" }] }) := rfl
    rw [hstep, if_neg hne, hfail]
  · intro m e ms st hfail
    have hstep : SQLParse.processCreateTables parseCT (m :: ms) st =
        SQLParse.processCreateTables parseCT ms
          (match parseCT m st with
           | Except.ok stOk => stOk
           | Except.error e2 =>
             { st with parsing_errors := st.parsing_errors ++
                 [{ error := e2, statement := some (pyTake m 200),
                    context := "CREATE TABLE parsing failed" }] }) := rfl
    rw [hstep, hfail]
  · unfold SQLParse.parseSqlDumpDriver SQLParse.parseSqlDump
    dsimp only
    rw [SQLParse.processCreateTables_ok, SQLParse.processStatements_ok]

/-- C3 witness: the driver applied to oracles where the statement
dispatcher always throws; the sole recorded error is bounded and processing
reaches every statement. -/
theorem c3_witness :
    (∀ pe ∈ (SQLParse.parseSqlDumpDriver (fun _ => [])
        (fun _ st => Except.ok st)
        (fun _ => Except.ok ["ALTER TABLE a ADD COLUMN y int;", "bad stmt"])
        (fun _ _ => Except.error "boom") "x").parsing_errors,
      (∀ x, pe.statement = some x → x.length ≤ 200) ∧
      (pe.context = "CREATE TABLE parsing failed" ∨
       pe.context = "Statement parsing failed" ∨
       pe.context = "SQL parsing failed")) ∧
    SQLParse.parseSqlDumpDriver SQLParse.findCreateTableStatements
      (fun stmt st => Except.ok (SQLParse.parseCreateTable stmt st))
      (fun c => Except.ok (SQLParse.splitStatements c))
      (fun stmt st => Except.ok (SQLParse.parseStatement stmt st)) "x" =
      SQLParse.parseSqlDump "x" := by
  have h := c3_parse_errors_isolated (fun _ => [])
    (fun _ st => Except.ok st)
    (fun _ => Except.ok ["ALTER TABLE a ADD COLUMN y int;", "bad stmt"])
    (fun _ _ => Except.error "boom") "x"
    (by intro stmt st st2 hx; injection hx with hx2; rw [hx2])
    (by intro stmt st st2 hx; exact Except.noConfusion hx)
  have h2 := c3_parse_errors_isolated SQLParse.findCreateTableStatements
    (fun stmt st => Except.ok (SQLParse.parseCreateTable stmt st))
    (fun c => Except.ok (SQLParse.splitStatements c))
    (fun stmt st => Except.ok (SQLParse.parseStatement stmt st)) "x"
    (by intro stmt st st2 hx; injection hx with hx2;
        rw [← hx2, SQLParse.parseCreateTable_errors])
    (by intro stmt st st2 hx; injection hx with hx2;
        rw [← hx2, SQLParse.parseStatement_errors])
  exact ⟨h.1, h2.2.2.2⟩

/-- C9 counterexample: the input dump `SET a DEFAULT -5` contains the token
sequence `DEFAULT -5`, but the line is removed by `_should_remove_line`
(it starts with `SET `), so the cleaned output is empty and contains no
quoted `DEFAULT` value at all — the claim fails for dumps whose only
negative default sits on a removed line. -/
theorem c9_counterexample :
    containsSub "SET a DEFAULT -5" "DEFAULT -5" = true ∧
    SQLCleaner.shouldRemoveLine "SET a DEFAULT -5" = true ∧
    SQLCleaner.cleanDump "SET a DEFAULT -5" = "" ∧
    containsSub (SQLCleaner.cleanDump "SET a DEFAULT -5")
      ("DEFAULT " ++ sq ++ "-5" ++ sq) = false := by
  refine ⟨by decide, by decide, by decide, by decide⟩

/-- C9 (amended): on any RETAINED line, the negative-default substitution of
`_clean_line` quotes a `DEFAULT -5` occurrence and leaves no unquoted one:
if the text before the occurrence contains no case variant of the word
DEFAULT and the occurrence is not followed by a further digit, the scan
copies the prefix verbatim, rewrites the occurrence to `DEFAULT` space
quote `-5` quote, and processes the remaining text; moreover for EVERY
input line, no literal `DEFAULT -5` substring survives the substitution.
(The original claim is false for whole dumps because `_should_remove_line`
can drop the line carrying the default, see the C9 counterexample.) -/
theorem c9_negative_default_quoting
    (a b : List Char)
    (ha : containsSubL (a.map upChar) "DEFAULT".data = false)
    (hb : isDigitB (b.headD ' ') = false) :
    SQLCleaner.fixNegativeDefaults (String.mk (a ++ "DEFAULT -5".data ++ b)) =
      String.mk (a ++ "DEFAULT ".data ++ (sqc :: '-' :: '5' :: [sqc]) ++
        SQLCleaner.fixNegL b) ∧
    containsSub
      (SQLCleaner.fixNegativeDefaults (String.mk (a ++ "DEFAULT -5".data ++ b)))
      ("DEFAULT " ++ sq ++ "-5" ++ sq) = true ∧
    containsSub
      (SQLCleaner.fixNegativeDefaults (String.mk (a ++ "DEFAULT -5".data ++ b)))
      "DEFAULT -5" = false := by
  have hfix : SQLCleaner.fixNegativeDefaults
      (String.mk (a ++ "DEFAULT -5".data ++ b)) =
      String.mk (SQLCleaner.fixNegL (a ++ "DEFAULT -5".data ++ b)) := rfl
  refine ⟨?_, ?_, ?_⟩
  · rw [hfix, SQLCleaner.fixNeg_output ha hb]
  · rw [hfix, SQLCleaner.fixNeg_output ha hb]
    unfold containsSub
    show containsSubL
      (a ++ "DEFAULT ".data ++ (sqc :: '-' :: '5' :: [sqc]) ++
        SQLCleaner.fixNegL b)
      ("DEFAULT " ++ sq ++ "-5" ++ sq).data = true
    have hpat : ("DEFAULT " ++ sq ++ "-5" ++ sq).data =
        "DEFAULT ".data ++ (sqc :: '-' :: '5' :: [sqc]) := by decide
    rw [hpat]
    apply containsSubL_iff_append.mpr
    exact ⟨a, SQLCleaner.fixNegL b, by simp⟩
  · rw [hfix]
    unfold containsSub
    show containsSubL (SQLCleaner.fixNegL (a ++ "DEFAULT -5".data ++ b))
      "DEFAULT -5".data = false
    exact SQLCleaner.fixNeg_no_unquoted _

/-- C9 witness: the amended theorem applied to the line
`price int DEFAULT -5 NOT NULL,`. -/
theorem c9_witness :
    containsSubL (("price int ".data).map upChar) "DEFAULT".data = false ∧
    isDigitB ((" NOT NULL,".data).headD ' ') = false ∧
    SQLCleaner.fixNegativeDefaults
        (String.mk ("price int ".data ++ "DEFAULT -5".data ++
          " NOT NULL,".data)) =
      String.mk ("price int ".data ++ "DEFAULT ".data ++
        (sqc :: '-' :: '5' :: [sqc]) ++ SQLCleaner.fixNegL " NOT NULL,".data) :=
  ⟨by decide, by decide,
    (c9_negative_default_quoting "price int ".data " NOT NULL,".data
      (by decide) (by decide)).1⟩

/-- C6 witness: the amended idempotence theorem applied at `varchar(255)`
with no declared enums. -/
theorem c6_witness :
    containsSub "varchar(255)" "[]" = false ∧
    (TypeMapper.transformSingleType
      (TypeMapper.transformSingleType "varchar(255)" [] "t" "c" []).1
      [] "t2" "c2" []).1 =
      (TypeMapper.transformSingleType "varchar(255)" [] "t" "c" []).1 :=
  ⟨by decide, c6_idempotent_nonarray "varchar(255)" [] "t" "c" "t2" "c2" []
    (by decide) (by intro e he; exact absurd he (List.not_mem_nil e))
    (List.not_mem_nil _)⟩

def c10col : Column := { column_name := "id", data_type := "serial" }

def c10con : Constraint :=
  { constraint_type := "p", table_name := some "t", columns := ["id"] }

def c10st : HeapModel.Store :=
  { cols := [c10col],
    tabs := [{ table_name := "t", colAddrs := [0], constraints := [c10con] }] }

def c10s : HeapModel.HSchema := { tabAddrs := [0] }

def c10dummy : Table := { table_name := "" }

/-- C10: `transform_types` and `process_constraints` copy only the top-level
schema dictionary: under well-formed sharing (distinct table references,
distinct column references, all in range) the returned schema holds the same
table references as the input, and the mutation is visible through the INPUT
schema value — its tables, read back through the shared store, are exactly
the pure transformed (resp. processed) tables, so the input columns already
hold the transformed `data_type` values and the mutated flags.  On a
concrete store with a `serial` primary-key column the input view changes:
the column type becomes `int4` and `is_primary_key` flips to `true`, so the
input schema is not preserved unchanged. -/
theorem c10_shallow_copy_mutates_input (s : HeapModel.HSchema)
    (st : HeapModel.Store)
    (hTnd : s.tabAddrs.Nodup)
    (hTv : ∀ ta ∈ s.tabAddrs, ta < st.tabs.length)
    (hFnd : (HeapModel.flat st.tabs s.tabAddrs).Nodup)
    (hFv : ∀ ca ∈ HeapModel.flat st.tabs s.tabAddrs, ca < st.cols.length) :
    (HeapModel.transformTypesH s st).1.tabAddrs = s.tabAddrs ∧
    (HeapModel.processConstraintsH s st).1.tabAddrs = s.tabAddrs ∧
    (HeapModel.view s (HeapModel.transformTypesH s st).2).tables =
      (TypeMapper.transformTypes (HeapModel.view s st)).tables ∧
    (HeapModel.view s (HeapModel.processConstraintsH s st).2).tables =
      (ConstraintHandler.processConstraints (HeapModel.view s st)).tables ∧
    HeapModel.view c10s (HeapModel.transformTypesH c10s c10st).2 ≠
      HeapModel.view c10s c10st ∧
    (((HeapModel.view c10s (HeapModel.transformTypesH c10s
        c10st).2).tables.getD 0 c10dummy).columns.getD 0
      HeapModel.defaultCol).data_type = "int4" ∧
    (((HeapModel.view c10s c10st).tables.getD 0 c10dummy).columns.getD 0
      HeapModel.defaultCol).data_type = "serial" ∧
    (((HeapModel.view c10s (HeapModel.processConstraintsH c10s
        c10st).2).tables.getD 0 c10dummy).columns.getD 0
      HeapModel.defaultCol).is_primary_key = true ∧
    (((HeapModel.view c10s c10st).tables.getD 0 c10dummy).columns.getD 0
      HeapModel.defaultCol).is_primary_key = false := by
  refine ⟨rfl, rfl, ?_, ?_, by decide, by decide, by decide, by decide,
    by decide⟩
  · exact HeapModel.transformTypesH_view s st hFnd hFv
  · exact (HeapModel.processConstraintsH_view s st hTnd hTv hFnd hFv).1

theorem c10_witness :
    c10s.tabAddrs.Nodup ∧
    (∀ ta ∈ c10s.tabAddrs, ta < c10st.tabs.length) ∧
    (HeapModel.flat c10st.tabs c10s.tabAddrs).Nodup ∧
    (∀ ca ∈ HeapModel.flat c10st.tabs c10s.tabAddrs,
      ca < c10st.cols.length) ∧
    (HeapModel.transformTypesH c10s c10st).1.tabAddrs = c10s.tabAddrs ∧
    (HeapModel.view c10s (HeapModel.transformTypesH c10s c10st).2).tables =
      (TypeMapper.transformTypes (HeapModel.view c10s c10st)).tables :=
  ⟨by decide, by decide, by decide, by decide,
   (c10_shallow_copy_mutates_input c10s c10st (by decide) (by decide)
     (by decide) (by decide)).1,
   (c10_shallow_copy_mutates_input c10s c10st (by decide) (by decide)
     (by decide) (by decide)).2.2.1⟩

end PgDbml
